import Mathlib

/-!
Verification of the clawdorio run/step scheduler core.

This file shallowly embeds the durable-store operations of
`crates/server/src/lib.rs` (the claimer, finalizer, re-emit recovery sweep,
auto-rebase enqueue, PR-comment re-emission, and feature-run creation) as pure
Lean functions over an explicit database state, and proves the specified
invariants and functional-correctness properties about them.

Modelling conventions:
- SQL rows become Lean structures; a table is a `List` of rows whose list
  order stands in for the (unspecified) physical row order.
- Text status columns stay `String`s, exactly as the SQL stores them.
- JSON payload columns (`payload_json`, `context_json`, event payloads) are
  modelled as structures holding exactly the fields the embedded code reads
  or writes; a missing JSON field is `none`.
- Timestamps: `created_at`/`updated_at` (RFC3339 text in the store) are
  modelled as `Nat` since only their ordering is ever consumed; `ts_ms` and
  `now_ms` are `Int` as in the source (`i64`).
- The event log is the `events` list; list position stands for the
  auto-increment `seq`.
- A SQL transaction is atomic here by construction; a statement failure
  (`PRIMARY KEY` collision) is modelled by an `Option`/`Except` result whose
  failure leaves the pre-state in force.
-/

deriving instance DecidableEq for Except

namespace Clawdorio

/-! ### String primitives

`String.trim`, `String.splitOn`, and friends are implemented over byte
positions and do not reduce inside the kernel, so the Rust `str` operations
the server uses are re-implemented here over the character list. -/

/-- Rust `str::trim` (ASCII whitespace, which is all these strings contain). -/
def strTrim (s : String) : String :=
  ⟨((s.data.dropWhile Char.isWhitespace).reverse.dropWhile Char.isWhitespace).reverse⟩

/-- Rust `str::split(sep)`: `""` yields `[""]`, separators at the edges yield
empty segments. -/
def splitChars (sep : Char) : List Char → List (List Char)
  | [] => [[]]
  | c :: rest =>
    let r := splitChars sep rest
    if c == sep then [] :: r
    else
      match r with
      | [] => [[c]]
      | h :: t => (c :: h) :: t

/-- Digit-string to number (`None` on empty input or a non-digit). -/
def digitsToNat (l : List Char) : Option Nat :=
  if l.isEmpty then none
  else l.foldl (fun acc c =>
    acc.bind (fun n => if c.isDigit then some (n * 10 + (c.toNat - 48)) else none)) (some 0)

/-- Rust `i64::from_str`: optional sign, then digits (overflow is not
modelled; the parsed numbers are PR numbers). -/
def parseIntChars : List Char → Option Int
  | '+' :: rest => (digitsToNat rest).map Int.ofNat
  | '-' :: rest => (digitsToNat rest).map (fun n => -(n : Int))
  | l => (digitsToNat l).map Int.ofNat

/-- A row of the `runs` table. `context_json` is modelled structurally as
`RunCtx` (the fields the server reads or writes). -/
structure RunCtx where
  action : Option String := none
  entity_id : Option String := none
  base_id : Option String := none
  base_repo_path : Option String := none
  worktree_path : Option String := none
  branch : Option String := none
  prompt : Option String := none
  default_branch : Option String := none
  trigger_reason : Option String := none
  upstream_sha : Option String := none
  pr_url : Option String := none
  pr_number : Option Int := none
  deriving Repr, DecidableEq

structure RunRow where
  id : String
  workflow_id : String
  task : String
  status : String
  entity_id : Option String
  context : RunCtx
  created_at : Nat
  updated_at : Nat
  deriving Repr, DecidableEq

/-- A row of the `steps` table (`input_json` is the context snapshot taken at
enqueue time). -/
structure StepRow where
  id : String
  run_id : String
  step_id : String
  agent_id : String
  step_index : Nat
  status : String
  input : RunCtx
  output_text : Option String
  created_at : Nat
  updated_at : Nat
  deriving Repr, DecidableEq

/-- The JSON payload of an entity row; only the fields the embedded server
code reads or writes are modelled. -/
structure EntPayload where
  base_id : Option String := none
  repo_path : Option String := none
  auto_rebase_enabled : Option Bool := none
  auto_rebase_interval_sec : Option Int := none
  auto_rebase_last_enqueued_ms : Option Int := none
  deriving Repr, DecidableEq

structure EntityRow where
  id : String
  kind : String
  payload : EntPayload
  deriving Repr, DecidableEq

/-- The JSON payload of an `event_log` row; union of the fields written by the
embedded operations (others default to `none`). -/
structure EvPayload where
  run_id : Option String := none
  step_id : Option String := none
  error : Option String := none
  attempt : Option Int := none
  max_attempts : Option Int := none
  requeued : Option Bool := none
  scope : Option String := none
  scanned_runs : Option Nat := none
  queued_steps : Option Nat := none
  reset_running_steps : Option Nat := none
  touched_runs : Option Nat := none
  factory_id : Option String := none
  base_id : Option String := none
  comment : Option String := none
  idempotency_key : Option String := none
  reason : Option String := none
  upstream_sha : Option String := none
  deriving Repr, DecidableEq

/-- A row of `event_log`; the list position in `Db.events` is the `seq`. -/
structure EventRow where
  ts_ms : Int
  kind : String
  entity_id : Option String
  payload : EvPayload
  deriving Repr, DecidableEq

/-- A row of `worktrees` (only the columns relevant to run creation). -/
structure WorktreeRow where
  id : String
  repo_path : String
  deriving Repr, DecidableEq

/-- The durable store. -/
structure Db where
  entities : List EntityRow
  runs : List RunRow
  steps : List StepRow
  worktrees : List WorktreeRow
  events : List EventRow
  deriving Repr, DecidableEq

def Db.empty : Db := { entities := [], runs := [], steps := [], worktrees := [], events := [] }

/-- `SELECT ... FROM runs WHERE id=?` (first row). -/
def findRun (db : Db) (runId : String) : Option RunRow :=
  db.runs.find? (fun r => r.id == runId)

/-- Count of events of a kind attached to an entity id
(`SELECT COUNT(*) FROM event_log WHERE kind=?1 AND entity_id=?2`). -/
def countEvents (db : Db) (kind : String) (ent : String) : Nat :=
  (db.events.filter (fun e => e.kind == kind && e.entity_id == some ent)).length

/-! ## Claimer (`claim_next_step`) -/

/-- The claimed-step record returned by `claim_next_step`
(`SELECT s.id, s.run_id, s.step_id, s.agent_id, r.task, r.context_json`). -/
structure PendingStep where
  step_row_id : String
  run_id : String
  step_id : String
  agent_id : String
  task : String
  context : RunCtx
  deriving Repr, DecidableEq

/-- `NOT EXISTS (SELECT 1 FROM steps s2 WHERE s2.run_id = s.run_id AND
s2.step_index < s.step_index AND s2.status NOT IN ('done','skipped'))`. -/
def noEarlierUnfinished (db : Db) (s : StepRow) : Bool :=
  !(db.steps.any (fun s2 => s2.run_id == s.run_id && s2.step_index < s.step_index &&
      !(s2.status == "done" || s2.status == "skipped")))

/-- `NOT EXISTS (SELECT 1 FROM steps s3 WHERE s3.run_id = s.run_id AND
s3.status = 'running')`. -/
def noRunningInRun (db : Db) (runId : String) : Bool :=
  !(db.steps.any (fun s3 => s3.run_id == runId && s3.status == "running"))

/-- The claimer's WHERE clause: step queued/pending, run (via the JOIN)
queued/running, no earlier unfinished step, no running step in the run. -/
def runnable (db : Db) (s : StepRow) : Bool :=
  (s.status == "queued" || s.status == "pending") &&
  (match findRun db s.run_id with
   | some r => r.status == "queued" || r.status == "running"
   | none => false) &&
  noEarlierUnfinished db s &&
  noRunningInRun db s.run_id

/-- The `ORDER BY r.created_at ASC, s.step_index ASC` sort key of a step. -/
def claimKey (db : Db) (s : StepRow) : Nat × Nat :=
  ((match findRun db s.run_id with | some r => r.created_at | none => 0), s.step_index)

/-- Strict lexicographic order on claim keys. -/
def keyLt (a b : Nat × Nat) : Bool :=
  a.1 < b.1 || (a.1 == b.1 && a.2 < b.2)

/-- Non-strict lexicographic order on claim keys. -/
def keyLe (a b : Nat × Nat) : Bool :=
  a.1 < b.1 || (a.1 == b.1 && a.2 <= b.2)

/-- Keep the candidate with the strictly smaller sort key. -/
def pickEarlier (db : Db) (acc : Option StepRow) (s : StepRow) : Option StepRow :=
  match acc with
  | none => some s
  | some t => if keyLt (claimKey db s) (claimKey db t) then some s else some t

/-- `... ORDER BY r.created_at ASC, s.step_index ASC LIMIT 1`: the first
runnable step of minimal key (earliest table position among minima). -/
def selectStep (db : Db) : Option StepRow :=
  (db.steps.filter (runnable db)).foldl (pickEarlier db) none

/-- `claim_next_step`: select the next runnable step, conditionally promote it
to `running`, promote its run from `queued` to `running`, and append a
`step.running` event — all in one transaction. Returns the claimed step. -/
def claim_next_step (db : Db) (now : Nat) (now_ms : Int) : Option PendingStep × Db :=
  match selectStep db with
  | none => (none, db)
  | some s =>
    -- UPDATE steps SET status='running' WHERE id=? AND status IN ('queued','pending')
    if s.status == "queued" || s.status == "pending" then
      let steps2 := db.steps.map (fun t =>
        if t.id == s.id && (t.status == "queued" || t.status == "pending")
        then { t with status := "running", updated_at := now } else t)
      -- UPDATE runs SET status='running' WHERE id=? AND status='queued'
      let runs2 := db.runs.map (fun r =>
        if r.id == s.run_id && r.status == "queued"
        then { r with status := "running", updated_at := now } else r)
      let p : PendingStep :=
        { step_row_id := s.id, run_id := s.run_id, step_id := s.step_id,
          agent_id := s.agent_id,
          task := (match findRun db s.run_id with | some r => r.task | none => ""),
          context := (match findRun db s.run_id with | some r => r.context | none => {}) }
      let ev : EventRow :=
        { ts_ms := now_ms, kind := "step.running", entity_id := some s.id,
          payload := { run_id := some s.run_id, step_id := some s.step_id } }
      (some p, { db with steps := steps2, runs := runs2, events := db.events ++ [ev] })
    else
      -- the conditional update affected zero rows: the claim raced and lost
      (none, db)

/-! ## Finalizer (`finalize_step_done`, `finalize_step_failed`) -/

/-- `finalize_step_done`: mark the claimed step `done` with its output, append
a `step.done` event, and — when no step of the run has a status other than
`done` — mark the run `done` and append a `run.done` event. One transaction. -/
def finalize_step_done (db : Db) (step : PendingStep) (out : String)
    (now : Nat) (now_ms : Int) : Db :=
  -- UPDATE steps SET status='done', output_text=?, updated_at=? WHERE id=?
  let steps2 := db.steps.map (fun t =>
    if t.id == step.step_row_id
    then { t with status := "done", output_text := some out, updated_at := now } else t)
  let evDone : EventRow :=
    { ts_ms := now_ms, kind := "step.done", entity_id := some step.step_row_id,
      payload := { run_id := some step.run_id, step_id := some step.step_id } }
  -- SELECT COUNT(*) FROM steps WHERE run_id=? AND status != 'done'
  let remaining := (steps2.filter (fun t => t.run_id == step.run_id && !(t.status == "done"))).length
  if remaining == 0 then
    let runs2 := db.runs.map (fun r =>
      if r.id == step.run_id then { r with status := "done", updated_at := now } else r)
    let evRun : EventRow :=
      { ts_ms := now_ms, kind := "run.done", entity_id := some step.run_id,
        payload := { run_id := some step.run_id } }
    { db with steps := steps2, runs := runs2, events := db.events ++ [evDone, evRun] }
  else
    { db with steps := steps2, events := db.events ++ [evDone] }

/-- `MAX_TEST_RETRIES` (the `max_retries` local in `finalize_step_failed`). -/
def max_test_retries : Nat := 2

/-- `finalize_step_failed`: mark the claimed step `failed` with the error text.
If its logical name is `test` and fewer than `max_test_retries` prior
`run.requeued.test_failed` events exist for the run, requeue every step with
index at or above the test step's index (clearing `output_text`), requeue
the `implement` step, bump the run back to `running`, and append a
`run.requeued.test_failed` event. Otherwise mark the run `failed`. Always
append a `step.failed` event. One transaction. -/
def finalize_step_failed (db : Db) (step : PendingStep) (err : String)
    (now : Nat) (now_ms : Int) : Db :=
  -- UPDATE steps SET status='failed', output_text=?, updated_at=? WHERE id=?
  let steps1 := db.steps.map (fun t =>
    if t.id == step.step_row_id
    then { t with status := "failed", output_text := some err, updated_at := now } else t)
  let attempts := countEvents db "run.requeued.test_failed" step.run_id
  let requeue := step.step_id == "test" && decide (attempts < max_test_retries)
  if requeue then
    -- UPDATE steps SET status='queued', output_text=NULL WHERE run_id=? AND
    --   step_index >= (SELECT step_index FROM steps WHERE id=?)
    let steps2 : List StepRow :=
      match steps1.find? (fun t => t.id == step.step_row_id) with
      | none => steps1
      | some own =>
        steps1.map (fun t =>
          if t.run_id == step.run_id && decide (own.step_index <= t.step_index)
          then { t with status := "queued", output_text := none, updated_at := now } else t)
    -- UPDATE steps SET status='queued' WHERE run_id=? AND step_id='implement'
    let steps3 := steps2.map (fun t =>
      if t.run_id == step.run_id && t.step_id == "implement"
      then { t with status := "queued", updated_at := now } else t)
    -- UPDATE runs SET status='running' WHERE id=?
    let runs2 := db.runs.map (fun r =>
      if r.id == step.run_id then { r with status := "running", updated_at := now } else r)
    let evRequeued : EventRow :=
      { ts_ms := now_ms, kind := "run.requeued.test_failed", entity_id := some step.run_id,
        payload := { run_id := some step.run_id, error := some err,
                     attempt := some ((attempts : Int) + 1),
                     max_attempts := some (max_test_retries : Int) } }
    let evFailed : EventRow :=
      { ts_ms := now_ms, kind := "step.failed", entity_id := some step.step_row_id,
        payload := { run_id := some step.run_id, step_id := some step.step_id,
                     error := some err, requeued := some true } }
    { db with steps := steps3, runs := runs2, events := db.events ++ [evRequeued, evFailed] }
  else
    -- UPDATE runs SET status='failed' WHERE id=?
    let runs2 := db.runs.map (fun r =>
      if r.id == step.run_id then { r with status := "failed", updated_at := now } else r)
    let evFailed : EventRow :=
      { ts_ms := now_ms, kind := "step.failed", entity_id := some step.step_row_id,
        payload := { run_id := some step.run_id, step_id := some step.step_id,
                     error := some err, requeued := some false } }
    { db with steps := steps1, runs := runs2, events := db.events ++ [evFailed] }

/-! ## Re-emit recovery (`reemit_workers`) -/

structure ReemitReport where
  scanned_runs : Nat
  queued_steps : Nat
  reset_running_steps : Nat
  touched_runs : Nat
  deriving Repr, DecidableEq

/-- The base-scope filter inside the re-emit loop: a run passes when the sweep
is global, or when its originating entity exists and that entity's payload
carries a `base_id` equal to the scope. -/
def inScopeRun (ents : List EntityRow) (scope : Option String) (run : RunRow) : Bool :=
  match scope with
  | none => true
  | some b =>
    match run.entity_id with
    | none => false
    | some eid =>
      match ents.find? (fun e => e.id == eid) with
      | none => false
      | some e => e.payload.base_id == some b

/-- `COALESCE(MIN(step_index), 0)` over the failed steps of a run. -/
def minFailedIdx (steps : List StepRow) (runId : String) : Nat :=
  (((steps.filter (fun s => s.run_id == runId && s.status == "failed")).map
      (fun s => s.step_index)).min?).getD 0

/-- Accumulator for the per-run loop of `reemit_workers` (the live `steps` and
`runs` tables plus the report counters). -/
structure ReemitAcc where
  steps : List StepRow
  runs : List RunRow
  scanned_runs : Nat
  queued_steps : Nat
  reset_running_steps : Nat
  touched_runs : Nat
  deriving Repr, DecidableEq

/-- First phase of one Re-emit iteration for a scanned run: promote
`pending`/`waiting` rows when nothing is running, otherwise reset stale
`running` rows (`UPDATE steps SET status='queued' ...`). -/
def reemitPhase1 (steps : List StepRow) (rid : String) (now : Nat) : List StepRow :=
  if (steps.filter (fun s => s.run_id == rid && s.status == "running")).length == 0 then
    steps.map (fun s =>
      if s.run_id == rid && (s.status == "pending" || s.status == "waiting")
      then { s with status := "queued", updated_at := now } else s)
  else
    steps.map (fun s =>
      if s.run_id == rid && s.status == "running"
      then { s with status := "queued", updated_at := now } else s)

/-- Second phase: when the run has a `failed` row, requeue every row from the
minimum failed index on, clearing `output_text`. -/
def reemitPhase2 (steps1 : List StepRow) (rid : String) (now : Nat) : List StepRow :=
  if 0 < (steps1.filter (fun s => s.run_id == rid && s.status == "failed")).length then
    steps1.map (fun s =>
      if s.run_id == rid && decide (minFailedIdx steps1 rid <= s.step_index)
      then { s with status := "queued", output_text := none, updated_at := now } else s)
  else steps1

/-- Rows-affected count of the first phase's UPDATE. -/
def reemitPhase1Count (steps : List StepRow) (rid : String) : Nat :=
  if (steps.filter (fun s => s.run_id == rid && s.status == "running")).length == 0 then
    (steps.filter (fun s =>
      s.run_id == rid && (s.status == "pending" || s.status == "waiting"))).length
  else
    (steps.filter (fun s => s.run_id == rid && s.status == "running")).length

/-- Rows reset from stale `running` by the first phase. -/
def reemitResetCount (steps : List StepRow) (rid : String) : Nat :=
  if (steps.filter (fun s => s.run_id == rid && s.status == "running")).length == 0 then 0
  else (steps.filter (fun s => s.run_id == rid && s.status == "running")).length

/-- Rows-affected count of the second phase's UPDATE. -/
def reemitPhase2Count (steps1 : List StepRow) (rid : String) : Nat :=
  if 0 < (steps1.filter (fun s => s.run_id == rid && s.status == "failed")).length then
    (steps1.filter (fun s =>
      s.run_id == rid && decide (minFailedIdx steps1 rid <= s.step_index))).length
  else 0

/-- One iteration of the `reemit_workers` loop for a scanned run row
(`run` holds the values read by the initial scan query). -/
def reemitRun (ents : List EntityRow) (scope : Option String) (now : Nat)
    (acc : ReemitAcc) (run : RunRow) : ReemitAcc :=
  if !inScopeRun ents scope run then acc
  else
    let steps1 := reemitPhase1 acc.steps run.id now
    let steps2 := reemitPhase2 steps1 run.id now
    let runs2 :=
      if !(run.status == "done") then
        -- UPDATE runs SET status='queued' WHERE id=? AND status != 'done'
        acc.runs.map (fun r =>
          if r.id == run.id && !(r.status == "done")
          then { r with status := "queued", updated_at := now } else r)
      else acc.runs
    let touched :=
      if !(run.status == "done") then
        (if 0 < (acc.runs.filter (fun r => r.id == run.id && !(r.status == "done"))).length
         then 1 else 0)
      else 0
    { steps := steps2, runs := runs2,
      scanned_runs := acc.scanned_runs + 1,
      queued_steps := acc.queued_steps + reemitPhase1Count acc.steps run.id +
        reemitPhase2Count steps1 run.id,
      reset_running_steps := acc.reset_running_steps + reemitResetCount acc.steps run.id,
      touched_runs := acc.touched_runs + touched }

/-- `reemit_workers`: for every run with status `queued`/`running`/`failed`
(restricted to the base when scoped), requeue stalled or stale work, then
append exactly one `workers.reemit` event carrying the report. One
transaction. The source scans runs ordered by `created_at`; the scan order
is immaterial because each iteration reads and writes only that run's rows,
so the embedding processes them in table order. -/
def reemit_workers (db : Db) (base_id : Option String) (now : Nat) (now_ms : Int) :
    ReemitReport × Db :=
  let run_rows := db.runs.filter (fun r =>
    r.status == "queued" || r.status == "running" || r.status == "failed")
  let acc0 : ReemitAcc :=
    { steps := db.steps, runs := db.runs,
      scanned_runs := 0, queued_steps := 0, reset_running_steps := 0, touched_runs := 0 }
  let acc := run_rows.foldl (reemitRun db.entities base_id now) acc0
  let ev : EventRow :=
    { ts_ms := now_ms, kind := "workers.reemit", entity_id := none,
      payload := { scope := some (base_id.getD "global"),
                   scanned_runs := some acc.scanned_runs,
                   queued_steps := some acc.queued_steps,
                   reset_running_steps := some acc.reset_running_steps,
                   touched_runs := some acc.touched_runs } }
  ({ scanned_runs := acc.scanned_runs, queued_steps := acc.queued_steps,
     reset_running_steps := acc.reset_running_steps, touched_runs := acc.touched_runs },
   { db with steps := acc.steps, runs := acc.runs, events := db.events ++ [ev] })

/-! ## Auto-rebase enqueue (`queue_base_rebase_sweep`) -/

def DEFAULT_AUTO_REBASE_ENABLED : Bool := true

def DEFAULT_AUTO_REBASE_INTERVAL_SEC : Int := 900

/-- `payload.get("repo_path").and_then(as_str).map(trim).filter(non-empty)`. -/
def repo_path_from_payload (p : EntPayload) : Option String :=
  match p.repo_path with
  | none => none
  | some s => let t := strTrim s; if t == "" then none else some t

def payload_auto_rebase_enabled (p : EntPayload) : Bool :=
  p.auto_rebase_enabled.getD DEFAULT_AUTO_REBASE_ENABLED

def payload_auto_rebase_interval_sec (p : EntPayload) : Int :=
  match p.auto_rebase_interval_sec with
  | some v => if v >= 30 then v else DEFAULT_AUTO_REBASE_INTERVAL_SEC
  | none => DEFAULT_AUTO_REBASE_INTERVAL_SEC

/-- `find_base_entity`: the first entity with the given id and kind `base`. -/
def find_base_entity (db : Db) (baseId : String) : Option EntityRow :=
  db.entities.find? (fun e => e.id == baseId && e.kind == "base")

/-- `engine.update_entity_payload`: replace the payload of the entity row. -/
def update_entity_payload (db : Db) (entId : String) (p : EntPayload) : Db :=
  { db with entities := db.entities.map (fun e =>
      if e.id == entId then { e with payload := p } else e) }

/-- `queue_base_rebase_sweep`: enqueue one `auto-rebase` run for a base unless
auto-rebase is disabled (no-op), a queued/running `auto-rebase` run already
exists for the base (coalescing skip), or the last enqueue was less than half
the interval ago (debounce skip). `default_branch` abstracts the external
`detect_default_branch` git call. Insert failures from the `id` PRIMARY KEYs
(a colliding `now_ms`) abort before any row persists, like the source's
first failing statement. Returns whether a run was enqueued. -/
def queue_base_rebase_sweep (db : Db) (base_id reason : String)
    (upstream_sha : Option String) (default_branch : String)
    (now_ms : Int) (now : Nat) : Except String (Bool × Db) :=
  match find_base_entity db base_id with
  | none => .error "base_not_found"
  | some ent =>
    if !payload_auto_rebase_enabled ent.payload then .ok (false, db)
    else
      match repo_path_from_payload ent.payload with
      | none => .error "base_repo_missing"
      | some repo =>
        let interval_ms := payload_auto_rebase_interval_sec ent.payload * 1000
        let running_or_queued := (db.runs.filter (fun r =>
          r.workflow_id == "auto-rebase" && r.entity_id == some base_id &&
          (r.status == "queued" || r.status == "running"))).length
        if running_or_queued > 0 then .ok (false, db)
        else
          let last_enqueued_ms := (ent.payload.auto_rebase_last_enqueued_ms).getD 0
          if now_ms - last_enqueued_ms < interval_ms / 2 then .ok (false, db)
          else
            let run_id := "run-auto-rebase-" ++ toString now_ms
            let step_id := "step-" ++ run_id
            if db.runs.any (fun r => r.id == run_id) ||
               db.steps.any (fun s => s.id == step_id) then .error "constraint_violation"
            else
              let ctx : RunCtx :=
                { action := some "auto_rebase_sweep", base_id := some base_id,
                  base_repo_path := some repo, default_branch := some default_branch,
                  trigger_reason := some reason,
                  upstream_sha := some (upstream_sha.getD "") }
              let newRun : RunRow :=
                { id := run_id, workflow_id := "auto-rebase",
                  task := "Auto-rebase sweep for base " ++ base_id,
                  status := "queued", entity_id := some base_id, context := ctx,
                  created_at := now, updated_at := now }
              let newStep : StepRow :=
                { id := step_id, run_id := run_id, step_id := "auto-rebase",
                  agent_id := "internal/pr", step_index := 0, status := "queued",
                  input := ctx, output_text := none, created_at := now, updated_at := now }
              let ev : EventRow :=
                { ts_ms := now_ms, kind := "auto_rebase.queued", entity_id := some base_id,
                  payload := { run_id := some run_id, reason := some reason,
                               upstream_sha := some (upstream_sha.getD "") } }
              let db2 : Db :=
                { db with runs := db.runs ++ [newRun], steps := db.steps ++ [newStep],
                          events := db.events ++ [ev] }
              .ok (true, update_entity_payload db2 base_id
                { ent.payload with auto_rebase_last_enqueued_ms := some now_ms })

/-! ## Feature run creation (`api_feature_build`, store transaction) -/

/-- Pairwise distinctness of a key list: the within-transaction face of a
PRIMARY KEY (a batch with an internal duplicate fails the transaction). -/
def allDistinct : List String → Bool
  | [] => true
  | x :: xs => !(xs.contains x) && allDistinct xs

/-- The fixed 7-step chain seeded by `api_feature_build`. -/
def featureSteps : List (String × String) :=
  [("plan", "feature-dev/planner"),
   ("setup", "feature-dev/setup"),
   ("implement", "feature-dev/developer"),
   ("verify", "feature-dev/verifier"),
   ("test", "feature-dev/tester"),
   ("pr", "internal/pr"),
   ("review", "feature-dev/reviewer")]

/-- The step rows inserted for the run `"run-" ++ toString nanos`. -/
def featureStepRows (nanos : Nat) (ctx : RunCtx) (ts : Nat) : List StepRow :=
  featureSteps.enum.map (fun p =>
    { id := "step-" ++ toString nanos ++ "-" ++ toString p.1,
      run_id := "run-" ++ toString nanos,
      step_id := p.2.1, agent_id := p.2.2, step_index := p.1,
      status := "queued", input := ctx, output_text := none,
      created_at := ts, updated_at := ts })

/-- The store transaction of `api_feature_build`: insert one `feature-dev` run
(status `queued`), one worktree row, and the 7-step chain (all `queued`), in
one transaction. `nanos` is the creation timestamp that names the new rows;
a PRIMARY KEY collision fails the transaction (`none`: nothing persists). -/
def api_feature_build_tx (db : Db) (nanos : Nat) (entity_id task : String)
    (ctx : RunCtx) (repo_path : String) (ts : Nat) : Option Db :=
  let run_id := "run-" ++ toString nanos
  let wt_id := "wt-" ++ toString nanos
  let newRun : RunRow :=
    { id := run_id, workflow_id := "feature-dev", task := task, status := "queued",
      entity_id := some entity_id, context := ctx, created_at := ts, updated_at := ts }
  let newSteps := featureStepRows nanos ctx ts
  if db.runs.any (fun r => r.id == run_id) ||
     db.worktrees.any (fun w => w.id == wt_id) ||
     newSteps.any (fun s => db.steps.any (fun t => t.id == s.id)) ||
     !(allDistinct (newSteps.map (fun s => s.id))) then none
  else
    some { db with runs := db.runs ++ [newRun],
                   worktrees := db.worktrees ++ [{ id := wt_id, repo_path := repo_path }],
                   steps := db.steps ++ newSteps }

/-- Commit-or-rollback: a failed transaction leaves the store unchanged. -/
def applyTx (db : Db) : Option Db → Db
  | some db2 => db2
  | none => db

/-! ## Comment re-emission (`api_pr_comment`) -/

structure PrCommentInput where
  run_id : Option String := none
  pr_url : Option String := none
  pr_number : Option Int := none
  comment : String
  idempotency_key : Option String := none
  deriving Repr, DecidableEq

/-- `parse_pr_number_from_url`: strip trailing slashes, split on `/`, require
the second-to-last segment to be `pull`, parse the last as an integer. -/
def parse_pr_number_from_url (url : String) : Option Int :=
  let parts := splitChars '/' ((url.data.reverse.dropWhile (fun c => c == '/')).reverse)
  if parts.length < 2 then none
  else if !(parts[parts.length - 2]? == some "pull".data) then none
  else (parts.getLast?).bind parseIntChars

/-- Insertion into a list kept in descending `updated_at` order. -/
def insertByUpdatedDesc (r : RunRow) : List RunRow → List RunRow
  | [] => [r]
  | x :: xs =>
    if x.updated_at < r.updated_at then r :: x :: xs else x :: insertByUpdatedDesc r xs

/-- `ORDER BY updated_at DESC` (ties in unspecified order, as in SQL). -/
def sortRunsByUpdatedDesc : List RunRow → List RunRow
  | [] => []
  | x :: xs => insertByUpdatedDesc x (sortRunsByUpdatedDesc xs)

/-- The run-matching loop of `api_pr_comment` over the scanned rows: first row
matching the requested `run_id`, or whose context `pr_url`/`pr_number`
(parsed from `pr_url` when absent) equals the request's. Returns
`(run_id, entity_id)` of the match. -/
def matchCommentRun (input : PrCommentInput) : List RunRow → Option (String × Option String)
  | [] => none
  | run :: rest =>
    if input.run_id == some run.id then some (run.id, run.entity_id)
    else
      let pr_url := run.context.pr_url
      let pr_number :=
        (run.context.pr_number).orElse (fun _ => pr_url.bind parse_pr_number_from_url)
      if input.pr_url == pr_url || (input.pr_number.isSome && input.pr_number == pr_number)
      then some (run.id, run.entity_id)
      else matchCommentRun input rest

/-- `payload_base_id`: the entity payload's `base_id`, trimmed, `none` when
missing or blank. -/
def payload_base_id (e : EntityRow) : Option String :=
  match e.payload.base_id with
  | none => none
  | some s => let t := strTrim s; if t == "" then none else some t

/-- `SELECT MAX(ts_ms) FROM event_log WHERE kind='pr.comment.reemit' AND
json_extract(payload_json, '$.base_id')=?`. -/
def lastCommentTs (db : Db) (b : String) : Option Int :=
  ((db.events.filter (fun e =>
      e.kind == "pr.comment.reemit" && e.payload.base_id == some b)).map
    (fun e => e.ts_ms)).max?

inductive PrCommentOutcome where
  /-- `{ok: true, idempotent_replay: true}` -/
  | replay : PrCommentOutcome
  /-- `{ok: true, run_id, base_id, scope, report, idempotent_replay: false}` -/
  | ok (run_id : String) (base_id : Option String) (report : ReemitReport) : PrCommentOutcome
  /-- an HTTP error `(status, message)`; the transaction is rolled back -/
  | err (status : Nat) (msg : String) : PrCommentOutcome
  deriving Repr, DecidableEq

/-- The trimmed idempotency key, `none` when absent or blank. -/
def trimmedKeyOf (input : PrCommentInput) : Option String :=
  match input.idempotency_key with
  | none => none
  | some k => let t := strTrim k; if t == "" then none else some t

/-- `SELECT COUNT(*) FROM event_log WHERE kind='pr.comment.reemit' AND
json_extract(payload_json, '$.idempotency_key')=?`. -/
def priorKeyCount (db : Db) (key : String) : Nat :=
  (db.events.filter (fun e => e.kind == "pr.comment.reemit" &&
    e.payload.idempotency_key == some key)).length

/-- Whether the idempotency check fires (`prev > 0`). -/
def replayHitB (db : Db) (input : PrCommentInput) : Bool :=
  match trimmedKeyOf input with
  | none => false
  | some key => decide (0 < priorKeyCount db key)

/-- The run lookup: scan the 200 most recently updated runs. -/
def lookupCommentRun (db : Db) (input : PrCommentInput) : Option (String × Option String) :=
  matchCommentRun input ((sortRunsByUpdatedDesc db.runs).take 200)

/-- `base_id` derived from the matched run's originating entity payload. -/
def derivedBaseId (db : Db) (factory_id : Option String) : Option String :=
  factory_id.bind (fun fid => (db.entities.find? (fun e => e.id == fid)).bind payload_base_id)

/-- The rate limiter: `some retry_after_ms` when a `pr.comment.reemit` event
for the base lies within the last 15 s. -/
def rateRetry (db : Db) (base_id : Option String) (now_ms : Int) : Option Int :=
  match base_id with
  | none => none
  | some b =>
    match lastCommentTs db b with
    | none => none
    | some last =>
      let elapsed := now_ms - last
      if elapsed < 15000 then some (15000 - elapsed) else none

/-- `api_pr_comment`: validate the comment; replay when a trimmed non-empty
idempotency key already appears in a `pr.comment.reemit` event; match a run
among the 200 most recently updated; rate-limit per derived `base_id` (15 s);
append one `pr.comment.reemit` event; then run `reemit_workers` scoped to the
base when known, else globally. Error paths leave the store unchanged. -/
def api_pr_comment (db : Db) (input : PrCommentInput) (now : Nat) (now_ms : Int) :
    PrCommentOutcome × Db :=
  let comment := strTrim input.comment
  if comment == "" then (.err 400 "comment_required", db)
  else
    if replayHitB db input then (.replay, db)
    else
      match lookupCommentRun db input with
      | none => (.err 404 "no_linked_factory_or_run: pass run_id or PR reference", db)
      | some (run_id, factory_id) =>
        let base_id := derivedBaseId db factory_id
        match rateRetry db base_id now_ms with
        | some retry => (.err 429 ("rate_limited: retry_after_ms=" ++ toString retry), db)
        | none =>
          let ev : EventRow :=
            { ts_ms := now_ms, kind := "pr.comment.reemit", entity_id := some run_id,
              payload := { run_id := some run_id, factory_id := factory_id,
                           base_id := base_id, comment := some comment,
                           idempotency_key := input.idempotency_key } }
          let db1 := { db with events := db.events ++ [ev] }
          let rr := reemit_workers db1 base_id now now_ms
          (.ok run_id base_id rr.1, rr.2)

/-! ## Reachable states

The scheduler loop (`runloop`/`run_one_step_blocking`) runs one
claim-execute-finalize cycle at a time, so at most one claimed step awaits
finalization; `inflight` records it. HTTP handlers (run creation, auto-rebase
enqueue, re-emit) and entity placement interleave freely. -/

structure Sys where
  db : Db
  inflight : Option PendingStep

/-- The store state after a `queue_base_rebase_sweep` call: an error rolls the
call back. -/
def sweepDb (db : Db) (base_id reason : String) (upstream_sha : Option String)
    (default_branch : String) (now_ms : Int) (now : Nat) : Db :=
  match queue_base_rebase_sweep db base_id reason upstream_sha default_branch now_ms now with
  | .ok r => r.2
  | .error _ => db

/-- States reachable from the empty store by the embedded operations. -/
inductive Reachable : Sys → Prop where
  | init : Reachable ⟨Db.empty, none⟩
  /-- the placement service creates an arbitrary entity row -/
  | place (e : EntityRow) {s : Sys} : Reachable s →
      Reachable ⟨{ s.db with entities := s.db.entities ++ [e] }, s.inflight⟩
  /-- `api_feature_build` commits its run-creation transaction -/
  | build (nanos : Nat) (eid task : String) (ctx : RunCtx) (repo : String) (ts : Nat)
      {s : Sys} : Reachable s →
      Reachable ⟨applyTx s.db (api_feature_build_tx s.db nanos eid task ctx repo ts), s.inflight⟩
  /-- `queue_base_rebase_sweep` runs (any trigger) -/
  | sweep (b reason : String) (sha : Option String) (branch : String)
      (now_ms : Int) (now : Nat) {s : Sys} : Reachable s →
      Reachable ⟨sweepDb s.db b reason sha branch now_ms now, s.inflight⟩
  /-- the scheduler loop claims the next step -/
  | claim (now : Nat) (now_ms : Int) {s : Sys} : Reachable s → s.inflight = none →
      Reachable ⟨(claim_next_step s.db now now_ms).2, (claim_next_step s.db now now_ms).1⟩
  /-- the scheduler loop finalizes the claimed step as done -/
  | finishDone (out : String) (now : Nat) (now_ms : Int) {s : Sys} {p : PendingStep} :
      Reachable s → s.inflight = some p →
      Reachable ⟨finalize_step_done s.db p out now now_ms, none⟩
  /-- the scheduler loop finalizes the claimed step as failed -/
  | finishFailed (err : String) (now : Nat) (now_ms : Int) {s : Sys} {p : PendingStep} :
      Reachable s → s.inflight = some p →
      Reachable ⟨finalize_step_failed s.db p err now now_ms, none⟩
  /-- `reemit_workers` runs (operator endpoint or watchdog), any scope -/
  | reemit (scope : Option String) (now : Nat) (now_ms : Int) {s : Sys} : Reachable s →
      Reachable ⟨(reemit_workers s.db scope now now_ms).2, s.inflight⟩

/-- The `pr.comment.reemit` event row appended by the success path of
`api_pr_comment`. -/
def commentEvent (input : PrCommentInput) (now_ms : Int) (run_id : String)
    (factory_id base_id : Option String) : EventRow :=
  { ts_ms := now_ms, kind := "pr.comment.reemit", entity_id := some run_id,
    payload := { run_id := some run_id, factory_id := factory_id, base_id := base_id,
                 comment := some (strTrim input.comment),
                 idempotency_key := input.idempotency_key } }

/-! ## Derived notions used by the specification -/

/-- Number of `running` steps of a run. -/
def countRunning (db : Db) (rid : String) : Nat :=
  (db.steps.filter (fun s => s.run_id == rid && s.status == "running")).length

/-- The steps of one run. -/
def rowsOf (steps : List StepRow) (rid : String) : List StepRow :=
  steps.filter (fun s => s.run_id == rid)

/-- The Re-emit scan predicate: `status IN ('queued','running','failed')`. -/
def statusQRF (r : RunRow) : Bool :=
  r.status == "queued" || r.status == "running" || r.status == "failed"

/-- A run is scanned by a Re-emit invocation when its status passes the scan
filter and it is in scope. -/
def scannedBy (ents : List EntityRow) (scope : Option String) (r : RunRow) : Bool :=
  statusQRF r && inScopeRun ents scope r

/-- The run rows with a given id. -/
def runRowsOf (runs : List RunRow) (rid : String) : List RunRow :=
  runs.filter (fun r => r.id == rid)

/-- Minimum failed `step_index` over a run's own rows (`COALESCE(MIN, 0)`). -/
def minFailedOver (rows : List StepRow) : Nat :=
  (((rows.filter (fun t => t.status == "failed")).map (fun t => t.step_index)).min?).getD 0

/-- Pointwise effect of the first Re-emit phase on one of the scanned run's
own rows (`rows` is that run's rows at loop entry). -/
def reemitRow1 (rows : List StepRow) (now : Nat) (s : StepRow) : StepRow :=
  if (rows.filter (fun t => t.status == "running")).length == 0 then
    (if s.status == "pending" || s.status == "waiting"
     then { s with status := "queued", updated_at := now } else s)
  else
    (if s.status == "running" then { s with status := "queued", updated_at := now } else s)

/-- Pointwise effect of the failed-tail requeue phase (`rows1` is the run's
rows after the first phase). -/
def reemitRow2 (rows1 : List StepRow) (now : Nat) (s : StepRow) : StepRow :=
  if 0 < (rows1.filter (fun t => t.status == "failed")).length then
    (if decide (minFailedOver rows1 <= s.step_index)
     then { s with status := "queued", output_text := none, updated_at := now } else s)
  else s

/-- Pointwise effect of one Re-emit iteration on one of the scanned run's own
rows. -/
def reemitRowFn (rows : List StepRow) (now : Nat) (s : StepRow) : StepRow :=
  reemitRow2 (rows.map (reemitRow1 rows now)) now (reemitRow1 rows now s)

/-- The step update at the head of `finalize_step_failed`. -/
def failOwn (sid err : String) (now : Nat) (t : StepRow) : StepRow :=
  if t.id == sid then { t with status := "failed", output_text := some err, updated_at := now } else t

/-- The tail requeue of the test-failure rollback. -/
def requeueFromIdx (runId : String) (idx : Nat) (now : Nat) (t : StepRow) : StepRow :=
  if t.run_id == runId && decide (idx <= t.step_index)
  then { t with status := "queued", output_text := none, updated_at := now } else t

/-- The `implement` requeue of the test-failure rollback. -/
def requeueImplement (runId : String) (now : Nat) (t : StepRow) : StepRow :=
  if t.run_id == runId && t.step_id == "implement"
  then { t with status := "queued", updated_at := now } else t

/-- `K` successive failed finalizations of the same step. -/
def iterFail (p : PendingStep) (err : String) (now : Nat) (now_ms : Int) : Nat → Db → Db
  | 0, db => db
  | Nat.succ k, db => finalize_step_failed (iterFail p err now now_ms k db) p err now now_ms

/-- The status of a run (first row with the id). -/
def runStatusOf (db : Db) (rid : String) : Option String :=
  (findRun db rid).map (fun r => r.status)

/-- How many of the first `K` failed finalizations move the run from a
non-`failed` status to `failed`. -/
def failTransitions (p : PendingStep) (err : String) (now : Nat) (now_ms : Int) :
    Nat → Db → Nat
  | 0, _ => 0
  | Nat.succ k, db =>
    failTransitions p err now now_ms k db +
      (let dbk := iterFail p err now now_ms k db
       let dbk1 := finalize_step_failed dbk p err now now_ms
       if runStatusOf dbk p.run_id ≠ some "failed" ∧ runStatusOf dbk1 p.run_id = some "failed"
       then 1 else 0)

/-- The safety invariant carried through every reachable state: unique run and
step ids, only producible step statuses, at most one running step per run,
run completion exactly when all steps are done, and a pending finalization
always points at a real step row. -/
def Inv (sys : Sys) : Prop :=
  (sys.db.runs.map (fun r => r.id)).Nodup ∧
  (sys.db.steps.map (fun s => s.id)).Nodup ∧
  (∀ s ∈ sys.db.steps,
    s.status = "queued" ∨ s.status = "running" ∨ s.status = "done" ∨ s.status = "failed") ∧
  (∀ rid, countRunning sys.db rid ≤ 1) ∧
  (∀ r ∈ sys.db.runs,
    (r.status = "done" ↔ ∀ s ∈ sys.db.steps, s.run_id = r.id → s.status = "done")) ∧
  (∀ p, sys.inflight = some p →
    ∃ s ∈ sys.db.steps, s.id = p.step_row_id ∧ s.run_id = p.run_id)

/-! ## Concrete states used to instantiate the theorems -/

def mkRun (id status ent : String) : RunRow :=
  { id := id, workflow_id := "feature-dev", task := "task", status := status,
    entity_id := some ent, context := {}, created_at := 1, updated_at := 1 }

def mkStep (id rid sid agent : String) (idx : Nat) (status : String) : StepRow :=
  { id := id, run_id := rid, step_id := sid, agent_id := agent, step_index := idx,
    status := status, input := {}, output_text := none, created_at := 1, updated_at := 1 }

def mkEnt (id kind : String) (p : EntPayload) : EntityRow :=
  { id := id, kind := kind, payload := p }

/-- One queued run with one queued step (the claimer picks it). -/
def wDbClaim : Db :=
  { Db.empty with
    runs := [mkRun "r1" "queued" "e1"]
    steps := [mkStep "s1" "r1" "plan" "feature-dev/planner" 0 "queued"] }

/-- A running run whose `test` step just failed (mirrors the repository's
`test_failure_requeues_with_guardrail` fixture). -/
def wDbFail : Db :=
  { Db.empty with
    runs := [mkRun "r2" "running" "e1"]
    steps := [mkStep "s-plan" "r2" "plan" "feature-dev/planner" 0 "done",
              mkStep "s-impl" "r2" "implement" "feature-dev/developer" 1 "done",
              mkStep "s-test" "r2" "test" "feature-dev/tester" 2 "running",
              mkStep "s-pr" "r2" "pr" "internal/pr" 3 "queued"] }

def wPendTest : PendingStep :=
  { step_row_id := "s-test", run_id := "r2", step_id := "test",
    agent_id := "feature-dev/tester", task := "task", context := {} }

/-- Two bases with one running feature run each (mirrors the repository's
`reemit_workers_scoped_to_base` fixture, plus a failed step on the scanned
run to exercise the failed-tail rule). -/
def wDbReemit : Db :=
  { Db.empty with
    entities := [mkEnt "f1" "feature" { base_id := some "b1" },
                 mkEnt "f2" "feature" { base_id := some "b2" }]
    runs := [mkRun "ra" "running" "f1", mkRun "rb" "running" "f2"]
    steps := [mkStep "sa" "ra" "plan" "feature-dev/planner" 0 "running",
              mkStep "sa2" "ra" "setup" "feature-dev/setup" 1 "failed",
              mkStep "sb" "rb" "plan" "feature-dev/planner" 0 "running"] }

/-- A base with auto-rebase enabled but no `repo_path` in the payload. -/
def cDbNoRepo : Db :=
  { Db.empty with entities := [mkEnt "b" "base" { auto_rebase_enabled := some true }] }

/-- A base ready for an auto-rebase enqueue. -/
def wDbBase : Db :=
  { Db.empty with
    entities := [mkEnt "b" "base"
      { repo_path := some "/tmp/g", auto_rebase_enabled := some true,
        auto_rebase_interval_sec := some 120 }] }

/-- A run reachable by `run_id` lookup whose entity is unknown (so no base is
derived and the rate limiter is bypassed). -/
def cDbComment : Db :=
  { Db.empty with runs := [mkRun "r-comment-1" "running" "f-missing"] }

/-- A whitespace-only idempotency key: non-empty as a string, blank once
trimmed. -/
def cInpBlankKey : PrCommentInput :=
  { run_id := some "r-comment-1", comment := "rerun", idempotency_key := some " " }

def wInpKey : PrCommentInput :=
  { run_id := some "r-comment-1", comment := "rerun", idempotency_key := some "k1" }

/-- A feature linked to base `b`, a run for it, and a `pr.comment.reemit`
event for `b` 10 s old at `now_ms = 20000`. -/
def wDbRate : Db :=
  { Db.empty with
    entities := [mkEnt "f1" "feature" { base_id := some "b" }]
    runs := [mkRun "r1" "running" "f1"]
    events := [{ ts_ms := 10000, kind := "pr.comment.reemit", entity_id := some "r1",
                 payload := { base_id := some "b" } }] }

def wInpRate : PrCommentInput := { run_id := some "r1", comment := "again" }

/-- The store after a feature build on the empty store. -/
def wDbBuild : Db :=
  (api_feature_build_tx Db.empty 123 "f1" "add readme" {} "/tmp/g" 9).getD Db.empty

/-- A base entity `b` (payload without `base_id`), an auto-rebase run attached
to `b` itself, and a feature run attached to a feature of `b`. -/
def wDbScope : Db :=
  { Db.empty with
    entities := [mkEnt "b" "base" { repo_path := some "/tmp/g" },
                 mkEnt "f1" "feature" { base_id := some "b" }]
    runs := [mkRun "r-auto" "queued" "b", mkRun "r-feat" "queued" "f1"]
    steps := [mkStep "s-auto" "r-auto" "auto-rebase" "internal/pr" 0 "queued",
              mkStep "s-feat" "r-feat" "plan" "feature-dev/planner" 0 "pending"] }

/-- The conditional step promotion of `claim_next_step`. -/
def claimRow (sid : String) (now : Nat) (t : StepRow) : StepRow :=
  if t.id == sid && (t.status == "queued" || t.status == "pending")
  then { t with status := "running", updated_at := now } else t

/-- The conditional run promotion of `claim_next_step`. -/
def claimRunRow (rid : String) (now : Nat) (r : RunRow) : RunRow :=
  if r.id == rid && r.status == "queued"
  then { r with status := "running", updated_at := now } else r

/-- The step completion write of `finalize_step_done`. -/
def doneRow (sid out : String) (now : Nat) (t : StepRow) : StepRow :=
  if t.id == sid
  then { t with status := "done", output_text := some out, updated_at := now } else t

/-- The run status write keyed on a run id, shared by the finalizers. -/
def setRunStatus (rid st' : String) (now : Nat) (r : RunRow) : RunRow :=
  if r.id == rid then { r with status := st', updated_at := now } else r

/-- The store after a feature build (`nanos = 123`) on the empty store, as a
system state with no claimed step. -/
def wSysBuild : Sys :=
  ⟨applyTx Db.empty (api_feature_build_tx Db.empty 123 "f1" "add readme" {} "/tmp/g" 9),
   none⟩

/-- The run row that build inserts. -/
def wRunBuild : RunRow :=
  { id := "run-123", workflow_id := "feature-dev", task := "add readme", status := "queued",
    entity_id := some "f1", context := {}, created_at := 9, updated_at := 9 }

/-! # Theorems -/

/-- Claim C9: a successful `POST /api/feature/build` transaction appends
exactly one run row (workflow `feature-dev`, status `queued`) and exactly
seven step rows with dense indexes 0..6 in the order plan, setup, implement,
verify, test, pr, review, carrying the fixed agent tags, all starting
`queued`; a failed transaction persists no run or step row. -/
theorem feature_build_tx_spec (db : Db) (nanos : Nat) (eid task : String)
    (ctx : RunCtx) (repo : String) (ts : Nat) :
    (∀ db2, api_feature_build_tx db nanos eid task ctx repo ts = some db2 →
      db2.runs = db.runs ++
        [{ id := "run-" ++ toString nanos, workflow_id := "feature-dev", task := task,
           status := "queued", entity_id := some eid, context := ctx,
           created_at := ts, updated_at := ts }] ∧
      db2.steps = db.steps ++ featureStepRows nanos ctx ts ∧
      (featureStepRows nanos ctx ts).length = 7 ∧
      (featureStepRows nanos ctx ts).map
          (fun s => (s.step_index, s.step_id, s.agent_id, s.status)) =
        [(0, "plan", "feature-dev/planner", "queued"),
         (1, "setup", "feature-dev/setup", "queued"),
         (2, "implement", "feature-dev/developer", "queued"),
         (3, "verify", "feature-dev/verifier", "queued"),
         (4, "test", "feature-dev/tester", "queued"),
         (5, "pr", "internal/pr", "queued"),
         (6, "review", "feature-dev/reviewer", "queued")]) ∧
    (api_feature_build_tx db nanos eid task ctx repo ts = none →
      applyTx db (api_feature_build_tx db nanos eid task ctx repo ts) = db) := by
  constructor
  · intro db2 h
    simp only [api_feature_build_tx] at h
    split at h
    · simp at h
    · rename_i hguard
      refine ⟨?_, ?_, rfl, rfl⟩
      · have := (Option.some.injEq _ _).mp h
        rw [← this]
      · have := (Option.some.injEq _ _).mp h
        rw [← this]
  · intro h
    rw [h]
    rfl

/-- Witness for C9 at a concrete input. -/
theorem feature_build_tx_spec_witness :
    wDbBuild.runs = Db.empty.runs ++
      [{ id := "run-" ++ toString 123, workflow_id := "feature-dev", task := "add readme",
         status := "queued", entity_id := some "f1", context := {},
         created_at := 9, updated_at := 9 }] ∧
    wDbBuild.steps = Db.empty.steps ++ featureStepRows 123 {} 9 ∧
    (featureStepRows 123 ({} : RunCtx) 9).length = 7 ∧
    (featureStepRows 123 ({} : RunCtx) 9).map
        (fun s => (s.step_index, s.step_id, s.agent_id, s.status)) =
      [(0, "plan", "feature-dev/planner", "queued"),
       (1, "setup", "feature-dev/setup", "queued"),
       (2, "implement", "feature-dev/developer", "queued"),
       (3, "verify", "feature-dev/verifier", "queued"),
       (4, "test", "feature-dev/tester", "queued"),
       (5, "pr", "internal/pr", "queued"),
       (6, "review", "feature-dev/reviewer", "queued")] :=
  (feature_build_tx_spec Db.empty 123 "f1" "add readme" {} "/tmp/g" 9).1 wDbBuild (by decide)

/-- Claim C6 counterexample: for a base with auto-rebase enabled whose payload
has no `repo_path`, `queue_base_rebase_sweep` returns the error
`base_repo_missing` rather than doing nothing without error. -/
theorem queue_sweep_missing_repo_errors :
    queue_base_rebase_sweep cDbNoRepo "b" "manual.sync_now" none "main" 1000 5 =
      .error "base_repo_missing" := by decide

/-- Claim C6 (amended): for a base entity, `queue_base_rebase_sweep` is a
no-op without error when auto-rebase is disabled; when enabled but
`repo_path` is absent it inserts nothing and returns the error
`base_repo_missing`; it returns `false` with no inserts while a queued or
running `auto-rebase` run exists for the base (coalescing) or while less than
half the interval has passed since the last enqueue (debounce); otherwise it
inserts exactly one `auto-rebase` run (status `queued`), one step
(`step_id = auto-rebase`, `agent_id = internal/pr`, index 0, `queued`), one
`auto_rebase.queued` event, and stamps `auto_rebase_last_enqueued_ms`. -/
theorem queue_sweep_spec (db : Db) (b reason : String) (sha : Option String)
    (branch : String) (now_ms : Int) (now : Nat) (ent : EntityRow)
    (hent : find_base_entity db b = some ent) :
    (payload_auto_rebase_enabled ent.payload = false →
      queue_base_rebase_sweep db b reason sha branch now_ms now = .ok (false, db)) ∧
    (payload_auto_rebase_enabled ent.payload = true →
      repo_path_from_payload ent.payload = none →
      queue_base_rebase_sweep db b reason sha branch now_ms now =
        .error "base_repo_missing") ∧
    (∀ repo, payload_auto_rebase_enabled ent.payload = true →
      repo_path_from_payload ent.payload = some repo →
      0 < (db.runs.filter (fun r =>
            r.workflow_id == "auto-rebase" && r.entity_id == some b &&
            (r.status == "queued" || r.status == "running"))).length →
      queue_base_rebase_sweep db b reason sha branch now_ms now = .ok (false, db)) ∧
    (∀ repo, payload_auto_rebase_enabled ent.payload = true →
      repo_path_from_payload ent.payload = some repo →
      (db.runs.filter (fun r =>
        r.workflow_id == "auto-rebase" && r.entity_id == some b &&
        (r.status == "queued" || r.status == "running"))).length = 0 →
      now_ms - (ent.payload.auto_rebase_last_enqueued_ms).getD 0 <
        payload_auto_rebase_interval_sec ent.payload * 1000 / 2 →
      queue_base_rebase_sweep db b reason sha branch now_ms now = .ok (false, db)) ∧
    (∀ repo, payload_auto_rebase_enabled ent.payload = true →
      repo_path_from_payload ent.payload = some repo →
      (db.runs.filter (fun r =>
        r.workflow_id == "auto-rebase" && r.entity_id == some b &&
        (r.status == "queued" || r.status == "running"))).length = 0 →
      ¬(now_ms - (ent.payload.auto_rebase_last_enqueued_ms).getD 0 <
          payload_auto_rebase_interval_sec ent.payload * 1000 / 2) →
      (db.runs.any (fun r => r.id == "run-auto-rebase-" ++ toString now_ms) ||
        db.steps.any (fun s => s.id == "step-" ++ ("run-auto-rebase-" ++ toString now_ms))) = false →
      queue_base_rebase_sweep db b reason sha branch now_ms now =
        .ok (true, update_entity_payload
          { db with
            runs := db.runs ++
              [{ id := "run-auto-rebase-" ++ toString now_ms, workflow_id := "auto-rebase",
                 task := "Auto-rebase sweep for base " ++ b, status := "queued",
                 entity_id := some b,
                 context := { action := some "auto_rebase_sweep", base_id := some b,
                              base_repo_path := some repo, default_branch := some branch,
                              trigger_reason := some reason,
                              upstream_sha := some (sha.getD "") },
                 created_at := now, updated_at := now }]
            steps := db.steps ++
              [{ id := "step-" ++ ("run-auto-rebase-" ++ toString now_ms),
                 run_id := "run-auto-rebase-" ++ toString now_ms,
                 step_id := "auto-rebase", agent_id := "internal/pr", step_index := 0,
                 status := "queued",
                 input := { action := some "auto_rebase_sweep", base_id := some b,
                            base_repo_path := some repo, default_branch := some branch,
                            trigger_reason := some reason,
                            upstream_sha := some (sha.getD "") },
                 output_text := none, created_at := now, updated_at := now }]
            events := db.events ++
              [{ ts_ms := now_ms, kind := "auto_rebase.queued", entity_id := some b,
                 payload := { run_id := some ("run-auto-rebase-" ++ toString now_ms),
                              reason := some reason,
                              upstream_sha := some (sha.getD "") } }] }
          b { ent.payload with auto_rebase_last_enqueued_ms := some now_ms })) := by
  refine ⟨?_, ?_, ?_, ?_, ?_⟩
  · intro hdis
    simp [queue_base_rebase_sweep, hent, hdis]
  · intro hen hrepo
    simp [queue_base_rebase_sweep, hent, hen, hrepo]
  · intro repo hen hrepo hcoal
    simp [queue_base_rebase_sweep, hent, hen, hrepo, Nat.pos_iff_ne_zero.mp hcoal,
      Nat.not_eq_zero_of_lt hcoal]
  · intro repo hen hrepo hcoal hdeb
    simp [queue_base_rebase_sweep, hent, hen, hrepo, hcoal, hdeb]
  · intro repo hen hrepo hcoal hdeb hfresh
    simp only [queue_base_rebase_sweep, hent, hen, hrepo, Bool.not_true, Bool.false_eq_true,
      if_false, hcoal]
    rw [if_neg (by omega), if_neg (by omega)]
    rw [if_neg (by simp_all)]

/-- Witness for the amended C6: the error case and the successful enqueue at
concrete inputs. -/
theorem queue_sweep_spec_witness :
    (queue_base_rebase_sweep cDbNoRepo "b" "manual.sync_now" none "main" 1000 5 =
      .error "base_repo_missing") ∧
    (queue_base_rebase_sweep wDbBase "b" "manual.sync_now" none "main" 1000000 7 =
      .ok (true, update_entity_payload
        { wDbBase with
          runs := wDbBase.runs ++
            [{ id := "run-auto-rebase-" ++ toString (1000000 : Int),
               workflow_id := "auto-rebase",
               task := "Auto-rebase sweep for base " ++ "b", status := "queued",
               entity_id := some "b",
               context := { action := some "auto_rebase_sweep", base_id := some "b",
                            base_repo_path := some "/tmp/g", default_branch := some "main",
                            trigger_reason := some "manual.sync_now",
                            upstream_sha := some ((none : Option String).getD "") },
               created_at := 7, updated_at := 7 }]
          steps := wDbBase.steps ++
            [{ id := "step-" ++ ("run-auto-rebase-" ++ toString (1000000 : Int)),
               run_id := "run-auto-rebase-" ++ toString (1000000 : Int),
               step_id := "auto-rebase", agent_id := "internal/pr", step_index := 0,
               status := "queued",
               input := { action := some "auto_rebase_sweep", base_id := some "b",
                          base_repo_path := some "/tmp/g", default_branch := some "main",
                          trigger_reason := some "manual.sync_now",
                          upstream_sha := some ((none : Option String).getD "") },
               output_text := none, created_at := 7, updated_at := 7 }]
          events := wDbBase.events ++
            [{ ts_ms := 1000000, kind := "auto_rebase.queued", entity_id := some "b",
               payload := { run_id := some ("run-auto-rebase-" ++ toString (1000000 : Int)),
                            reason := some "manual.sync_now",
                            upstream_sha := some ((none : Option String).getD "") } }] }
        "b" { (mkEnt "b" "base"
                { repo_path := some "/tmp/g", auto_rebase_enabled := some true,
                  auto_rebase_interval_sec := some 120 }).payload with
              auto_rebase_last_enqueued_ms := some 1000000 })) :=
  ⟨(queue_sweep_spec cDbNoRepo "b" "manual.sync_now" none "main" 1000 5
      (mkEnt "b" "base" { auto_rebase_enabled := some true }) (by decide)).2.1
      (by decide) (by decide),
   (queue_sweep_spec wDbBase "b" "manual.sync_now" none "main" 1000000 7
      (mkEnt "b" "base"
        { repo_path := some "/tmp/g", auto_rebase_enabled := some true,
          auto_rebase_interval_sec := some 120 })
      (by decide)).2.2.2.2 "/tmp/g" (by decide) (by decide) (by decide) (by decide) (by decide)⟩

/-- The one event appended by `reemit_workers`, carrying the report. -/
theorem reemit_workers_db_events (db : Db) (scope : Option String) (now : Nat) (now_ms : Int) :
    ((reemit_workers db scope now now_ms).2).events =
      db.events ++
        [{ ts_ms := now_ms, kind := "workers.reemit", entity_id := none,
           payload := { scope := some (scope.getD "global"),
                        scanned_runs := some (reemit_workers db scope now now_ms).1.scanned_runs,
                        queued_steps := some (reemit_workers db scope now now_ms).1.queued_steps,
                        reset_running_steps :=
                          some (reemit_workers db scope now now_ms).1.reset_running_steps,
                        touched_runs :=
                          some (reemit_workers db scope now now_ms).1.touched_runs } }] := rfl

/-- Anatomy of a successful `api_pr_comment` call: the comment was non-blank,
the idempotency check did not fire, the lookup matched, the rate limiter
passed, and the result is the comment event append followed by the scoped
re-emit. -/
theorem api_pr_comment_ok_shape (db : Db) (inp : PrCommentInput) (now : Nat) (ms : Int)
    (rid : String) (bid : Option String) (rep : ReemitReport)
    (h : (api_pr_comment db inp now ms).1 = .ok rid bid rep) :
    ∃ fid, (strTrim inp.comment == "") = false ∧ replayHitB db inp = false ∧
      lookupCommentRun db inp = some (rid, fid) ∧ bid = derivedBaseId db fid ∧
      rateRetry db bid ms = none ∧
      api_pr_comment db inp now ms =
        (.ok rid bid
          (reemit_workers { db with events := db.events ++ [commentEvent inp ms rid fid bid] }
            bid now ms).1,
         (reemit_workers { db with events := db.events ++ [commentEvent inp ms rid fid bid] }
            bid now ms).2) := by
  by_cases hc : (strTrim inp.comment == "") = true
  · simp [api_pr_comment, hc] at h
  · have hc' : (strTrim inp.comment == "") = false := by
      exact Bool.eq_false_iff.mpr hc
    by_cases hrep : replayHitB db inp = true
    · simp [api_pr_comment, hc', hrep] at h
    · have hrep' : replayHitB db inp = false := Bool.eq_false_iff.mpr hrep
      cases hm : lookupCommentRun db inp with
      | none => simp [api_pr_comment, hc', hrep', hm] at h
      | some pair =>
        obtain ⟨rid', fid⟩ := pair
        cases hrl : rateRetry db (derivedBaseId db fid) ms with
        | some retry => simp [api_pr_comment, hc', hrep', hm, hrl] at h
        | none =>
          simp only [api_pr_comment, hc', hrep', hm, hrl, Bool.false_eq_true, if_false] at h
          obtain ⟨h1, h2, h3⟩ := PrCommentOutcome.ok.inj h
          refine ⟨fid, hc', hrep', ?_, ?_, ?_, ?_⟩
          · rw [← h1]
          · exact h2.symm
          · rw [← h2]; exact hrl
          · simp only [api_pr_comment, hc', hrep', hm, hrl, Bool.false_eq_true, if_false]
            rw [← h1, ← h2]
            rfl

/-- Claim C7 counterexample: the whitespace idempotency key `" "` is
non-empty, and a first call records a `pr.comment.reemit` event carrying it;
yet a second identical call is not an idempotent replay and writes a second
event — the endpoint trims keys, so the claim fails as stated. -/
theorem comment_blank_key_not_idempotent :
    ((api_pr_comment cDbComment cInpBlankKey 9 100).2.events.map
        (fun e => (e.kind, e.payload.idempotency_key))).contains
      ("pr.comment.reemit", some " ") = true ∧
    (api_pr_comment (api_pr_comment cDbComment cInpBlankKey 9 100).2 cInpBlankKey 10 200).1 ≠
      .replay ∧
    ((api_pr_comment (api_pr_comment cDbComment cInpBlankKey 9 100).2 cInpBlankKey
        10 200).2.events.filter (fun e => e.kind == "pr.comment.reemit")).length = 2 := by
  refine ⟨by decide, by decide, by decide⟩

/-- Claim C7 (amended): the endpoint trims idempotency keys. For every key
that is non-empty and free of surrounding whitespace (it equals its trim): if
a prior `pr.comment.reemit` event carries the key, the endpoint returns an
idempotent replay and changes nothing; and after any successful call, the
store holds exactly one more event carrying the key and an identical second
call is a replay that changes nothing. -/
theorem comment_idempotency_spec (db : Db) (inp : PrCommentInput)
    (now1 now2 : Nat) (ms1 ms2 : Int) (key : String)
    (hkey : inp.idempotency_key = some key) (htrim : strTrim key = key) (hne : key ≠ "") :
    (0 < priorKeyCount db key → ¬(strTrim inp.comment = "") →
      api_pr_comment db inp now1 ms1 = (.replay, db)) ∧
    (∀ rid bid rep, (api_pr_comment db inp now1 ms1).1 = .ok rid bid rep →
      priorKeyCount (api_pr_comment db inp now1 ms1).2 key = priorKeyCount db key + 1 ∧
      api_pr_comment ((api_pr_comment db inp now1 ms1).2) inp now2 ms2 =
        (.replay, (api_pr_comment db inp now1 ms1).2)) := by
  have hkeyOf : trimmedKeyOf inp = some key := by
    simp only [trimmedKeyOf, hkey, htrim]
    simp [hne]
  constructor
  · intro hprior hcomment
    have hhit : replayHitB db inp = true := by
      simp [replayHitB, hkeyOf, hprior]
    have hc' : (strTrim inp.comment == "") = false := by
      simp [hcomment]
    simp [api_pr_comment, hc', hhit]
  · intro rid bid rep h
    obtain ⟨fid, hc', hrep', hm, hbid, hrl, heq⟩ := api_pr_comment_ok_shape db inp now1 ms1 rid bid rep h
    have hdb2 : (api_pr_comment db inp now1 ms1).2 =
        (reemit_workers { db with events := db.events ++ [commentEvent inp ms1 rid fid bid] }
          bid now1 ms1).2 := by
      rw [heq]
    have hcount : priorKeyCount (api_pr_comment db inp now1 ms1).2 key =
        priorKeyCount db key + 1 := by
      rw [hdb2]
      unfold priorKeyCount
      rw [reemit_workers_db_events]
      simp [List.filter_append, commentEvent, hkey]
    refine ⟨hcount, ?_⟩
    have hprior2 : 0 < priorKeyCount (api_pr_comment db inp now1 ms1).2 key := by
      rw [hcount]; omega
    have hhit2 : replayHitB (api_pr_comment db inp now1 ms1).2 inp = true := by
      simp [replayHitB, hkeyOf, hprior2]
    generalize hg : (api_pr_comment db inp now1 ms1).2 = db1 at hhit2 ⊢
    simp [api_pr_comment, hc', hhit2]

/-- Witness for the amended C7: a first call with key `"k1"` succeeds and
writes the event; the identical second call replays and writes nothing. -/
theorem comment_idempotency_spec_witness :
    priorKeyCount (api_pr_comment cDbComment wInpKey 9 100).2 "k1" =
      priorKeyCount cDbComment "k1" + 1 ∧
    api_pr_comment ((api_pr_comment cDbComment wInpKey 9 100).2) wInpKey 10 200 =
      (.replay, (api_pr_comment cDbComment wInpKey 9 100).2) :=
  (comment_idempotency_spec cDbComment wInpKey 9 10 100 200 "k1" (by decide) (by decide)
    (by decide)).2 "r-comment-1" none
    { scanned_runs := 1, queued_steps := 0, reset_running_steps := 0, touched_runs := 1 }
    (by decide)

/-- Claim C8: when the endpoint reaches the rate limiter with a known base and
a `pr.comment.reemit` event for that base lies within the last 15 s, the call
fails with `rate_limited: retry_after_ms=<15000 − elapsed>` and the store is
unchanged — no event is written (the transaction held no prior writes and is
rolled back). -/
theorem comment_rate_limit_rejects (db : Db) (inp : PrCommentInput) (now : Nat)
    (ms : Int) (rid : String) (fid : Option String) (b : String) (last : Int)
    (hc : ¬(strTrim inp.comment = ""))
    (hnr : replayHitB db inp = false)
    (hm : lookupCommentRun db inp = some (rid, fid))
    (hb : derivedBaseId db fid = some b)
    (hlast : lastCommentTs db b = some last)
    (hrecent : ms - last < 15000) :
    api_pr_comment db inp now ms =
      (.err 429 ("rate_limited: retry_after_ms=" ++ toString (15000 - (ms - last))), db) := by
  have hc' : (strTrim inp.comment == "") = false := by simp [hc]
  have hrl : rateRetry db (derivedBaseId db fid) ms = some (15000 - (ms - last)) := by
    simp [rateRetry, hb, hlast, hrecent]
  simp [api_pr_comment, hc', hnr, hm, hrl]

/-- Witness for C8: a second comment for base `b` 10 s after the first is
refused with `retry_after_ms=5000` and the store is unchanged. -/
theorem comment_rate_limit_rejects_witness :
    api_pr_comment wDbRate wInpRate 7 20000 =
      (.err 429 ("rate_limited: retry_after_ms=" ++ toString ((15000 : Int) - (20000 - 10000))),
       wDbRate) :=
  comment_rate_limit_rejects wDbRate wInpRate 7 20000 "r1" (some "f1") "b" 10000
    (by decide) (by decide) (by decide) (by decide) (by decide) (by decide)

/-! ## Claimer selection lemmas -/

theorem keyLe_of_not_keyLt (a b : Nat × Nat) (h : keyLt a b = false) : keyLe b a = true := by
  simp only [keyLt, Bool.or_eq_false_iff, Bool.and_eq_false_iff] at h
  simp only [keyLe, Bool.or_eq_true, Bool.and_eq_true, decide_eq_true_eq, beq_iff_eq,
    decide_eq_false_iff_not, beq_eq_false_iff_ne] at *
  omega

theorem keyLe_trans (a b c : Nat × Nat) (h1 : keyLe a b = true) (h2 : keyLe b c = true) :
    keyLe a c = true := by
  simp only [keyLe, Bool.or_eq_true, Bool.and_eq_true, decide_eq_true_eq, beq_iff_eq] at *
  omega

theorem keyLe_of_keyLt (a b : Nat × Nat) (h : keyLt a b = true) : keyLe a b = true := by
  simp only [keyLt, keyLe, Bool.or_eq_true, Bool.and_eq_true, decide_eq_true_eq,
    beq_iff_eq] at *
  omega

theorem keyLe_refl (a : Nat × Nat) : keyLe a a = true := by
  simp [keyLe]

/-- A fold of `pickEarlier` never loses the candidate. -/
theorem foldl_pickEarlier_isSome (db : Db) (l : List StepRow) :
    ∀ (a : StepRow), l.foldl (pickEarlier db) (some a) ≠ none := by
  induction l with
  | nil => intro a h; simp at h
  | cons x xs ih =>
    intro a
    rw [List.foldl_cons]
    have hred : pickEarlier db (some a) x =
        if keyLt (claimKey db x) (claimKey db a) then some x else some a := rfl
    rw [hred]
    split <;> exact ih _

/-- A fold of `pickEarlier` returns an element of the list or the seed. -/
theorem foldl_pickEarlier_mem (db : Db) (l : List StepRow) :
    ∀ (acc : Option StepRow) (s : StepRow), l.foldl (pickEarlier db) acc = some s →
      s ∈ l ∨ acc = some s := by
  induction l with
  | nil => intro acc s h; simp only [List.foldl_nil] at h; exact Or.inr h
  | cons x xs ih =>
    intro acc s h
    simp only [List.foldl_cons] at h
    rcases ih (pickEarlier db acc x) s h with hmem | hacc
    · exact Or.inl (List.mem_cons_of_mem x hmem)
    · unfold pickEarlier at hacc
      cases acc with
      | none =>
        simp only [Option.some.injEq] at hacc
        exact Or.inl (hacc ▸ List.mem_cons_self x xs)
      | some t =>
        simp only at hacc
        split at hacc
        · simp only [Option.some.injEq] at hacc
          exact Or.inl (hacc ▸ List.mem_cons_self x xs)
        · exact Or.inr hacc

/-- The fold result has a key no larger than any list element's and the
seed's. -/
theorem foldl_pickEarlier_min (db : Db) (l : List StepRow) :
    ∀ (acc : Option StepRow) (s : StepRow), l.foldl (pickEarlier db) acc = some s →
      (∀ t ∈ l, keyLe (claimKey db s) (claimKey db t) = true) ∧
      (∀ a, acc = some a → keyLe (claimKey db s) (claimKey db a) = true) := by
  induction l with
  | nil =>
    intro acc s h
    simp only [List.foldl_nil] at h
    refine ⟨by intro t ht; simp at ht, ?_⟩
    intro a ha
    rw [h] at ha
    cases ha
    exact keyLe_refl _
  | cons x xs ih =>
    intro acc s h
    simp only [List.foldl_cons] at h
    obtain ⟨hall, hseed⟩ := ih (pickEarlier db acc x) s h
    have hx : keyLe (claimKey db s) (claimKey db x) = true := by
      unfold pickEarlier at hseed
      cases acc with
      | none => exact hseed x rfl
      | some t =>
        by_cases hlt : keyLt (claimKey db x) (claimKey db t) = true
        · exact hseed x (by simp [hlt])
        · have ht : keyLe (claimKey db s) (claimKey db t) = true :=
            hseed t (by simp [Bool.eq_false_iff.mpr hlt])
          exact keyLe_trans _ _ _ ht
            (keyLe_of_not_keyLt _ _ (Bool.eq_false_iff.mpr hlt))
    refine ⟨?_, ?_⟩
    · intro t ht
      rcases List.mem_cons.mp ht with rfl | hmem
      · exact hx
      · exact hall t hmem
    · intro a ha
      subst ha
      unfold pickEarlier at hseed
      by_cases hlt : keyLt (claimKey db x) (claimKey db a) = true
      · exact keyLe_trans _ _ _ (hseed x (by simp [hlt])) (keyLe_of_keyLt _ _ hlt)
      · exact hseed a (by simp [Bool.eq_false_iff.mpr hlt])

/-- An empty fold result means an empty candidate list. -/
theorem foldl_pickEarlier_none (db : Db) (l : List StepRow)
    (h : l.foldl (pickEarlier db) none = none) : l = [] := by
  cases l with
  | nil => rfl
  | cons x xs =>
    exfalso
    simp only [List.foldl_cons] at h
    exact foldl_pickEarlier_isSome db xs x (by simpa [pickEarlier] using h)

/-- Claim C2: the claimer selects a step exactly when one satisfies the
runnable predicate (status in {queued, pending}, run status in
{queued, running}, all earlier steps done or skipped, no running step in the
run); it picks one of minimal (run.created_at, step_index) key, promotes it
to `running`, promotes its run from `queued` to `running`, and appends one
`step.running` event; with no runnable step it returns nothing and leaves
the store unchanged. -/
theorem claim_next_step_spec (db : Db) (now : Nat) (now_ms : Int) :
    (∀ p db2, claim_next_step db now now_ms = (some p, db2) →
      ∃ s, s ∈ db.steps ∧ runnable db s = true ∧
        p.step_row_id = s.id ∧ p.run_id = s.run_id ∧ p.step_id = s.step_id ∧
        p.agent_id = s.agent_id ∧
        (∀ t ∈ db.steps, runnable db t = true →
          keyLe (claimKey db s) (claimKey db t) = true) ∧
        db2 = { db with
          steps := db.steps.map (fun t =>
            if t.id == s.id && (t.status == "queued" || t.status == "pending")
            then { t with status := "running", updated_at := now } else t),
          runs := db.runs.map (fun r =>
            if r.id == s.run_id && r.status == "queued"
            then { r with status := "running", updated_at := now } else r),
          events := db.events ++
            [{ ts_ms := now_ms, kind := "step.running", entity_id := some s.id,
               payload := { run_id := some s.run_id, step_id := some s.step_id } }] }) ∧
    ((∀ t ∈ db.steps, runnable db t = false) →
      claim_next_step db now now_ms = (none, db)) ∧
    ((∃ t ∈ db.steps, runnable db t = true) →
      ∃ p db2, claim_next_step db now now_ms = (some p, db2)) := by
  refine ⟨?_, ?_, ?_⟩
  · intro p db2 h
    cases hsel : selectStep db with
    | none => simp [claim_next_step, hsel] at h
    | some s =>
      simp only [claim_next_step, hsel] at h
      have hmem : s ∈ db.steps.filter (runnable db) := by
        rcases foldl_pickEarlier_mem db _ none s hsel with hm | hseed
        · exact hm
        · simp at hseed
      have hs : s ∈ db.steps ∧ runnable db s = true := by
        have := List.mem_filter.mp hmem
        exact ⟨this.1, this.2⟩
      have hqp : (s.status == "queued" || s.status == "pending") = true := by
        have := hs.2
        unfold runnable at this
        simp only [Bool.and_eq_true] at this
        exact this.1.1.1
      rw [if_pos hqp] at h
      rw [Prod.mk.injEq] at h
      obtain ⟨h1, h2⟩ := h
      have hp := Option.some.inj h1
      refine ⟨s, hs.1, hs.2, ?_, ?_, ?_, ?_, ?_, ?_⟩
      · rw [← hp]
      · rw [← hp]
      · rw [← hp]
      · rw [← hp]
      · intro t ht hrt
        exact (foldl_pickEarlier_min db _ none s hsel).1 t
          (List.mem_filter.mpr ⟨ht, hrt⟩)
      · exact h2.symm
  · intro hnone
    have hempty : db.steps.filter (runnable db) = [] := by
      apply List.filter_eq_nil_iff.mpr
      intro t ht
      simp [hnone t ht]
    unfold claim_next_step selectStep
    rw [hempty]
    rfl
  · intro ⟨t, ht, hrt⟩
    cases hsel : selectStep db with
    | none =>
      exfalso
      have hnil := foldl_pickEarlier_none db _ hsel
      have hmem : t ∈ db.steps.filter (runnable db) := List.mem_filter.mpr ⟨ht, hrt⟩
      rw [hnil] at hmem
      simp at hmem
    | some s =>
      have hmem : s ∈ db.steps.filter (runnable db) := by
        rcases foldl_pickEarlier_mem db _ none s hsel with hm | hseed
        · exact hm
        · simp at hseed
      have hqp : (s.status == "queued" || s.status == "pending") = true := by
        have := (List.mem_filter.mp hmem).2
        unfold runnable at this
        simp only [Bool.and_eq_true] at this
        exact this.1.1.1
      refine ⟨{ step_row_id := s.id, run_id := s.run_id, step_id := s.step_id,
                agent_id := s.agent_id,
                task := (match findRun db s.run_id with | some r => r.task | none => ""),
                context := (match findRun db s.run_id with | some r => r.context | none => {}) },
              (claim_next_step db now now_ms).2, ?_⟩
      simp only [claim_next_step, hsel]
      rw [if_pos hqp]

/-- Witness for C2 at a concrete store: the queued plan step of the queued
run is selected and promoted. -/
theorem claim_next_step_spec_witness :
    ∃ s, s ∈ wDbClaim.steps ∧ runnable wDbClaim s = true ∧
      ({ step_row_id := "s1", run_id := "r1", step_id := "plan",
         agent_id := "feature-dev/planner", task := "task",
         context := {} } : PendingStep).step_row_id = s.id ∧
      ({ step_row_id := "s1", run_id := "r1", step_id := "plan",
         agent_id := "feature-dev/planner", task := "task",
         context := {} } : PendingStep).run_id = s.run_id ∧
      ({ step_row_id := "s1", run_id := "r1", step_id := "plan",
         agent_id := "feature-dev/planner", task := "task",
         context := {} } : PendingStep).step_id = s.step_id ∧
      ({ step_row_id := "s1", run_id := "r1", step_id := "plan",
         agent_id := "feature-dev/planner", task := "task",
         context := {} } : PendingStep).agent_id = s.agent_id ∧
      (∀ t ∈ wDbClaim.steps, runnable wDbClaim t = true →
        keyLe (claimKey wDbClaim s) (claimKey wDbClaim t) = true) ∧
      (claim_next_step wDbClaim 2 5).2 = { wDbClaim with
        steps := wDbClaim.steps.map (fun t =>
          if t.id == s.id && (t.status == "queued" || t.status == "pending")
          then { t with status := "running", updated_at := 2 } else t),
        runs := wDbClaim.runs.map (fun r =>
          if r.id == s.run_id && r.status == "queued"
          then { r with status := "running", updated_at := 2 } else r),
        events := wDbClaim.events ++
          [{ ts_ms := 5, kind := "step.running", entity_id := some s.id,
             payload := { run_id := some s.run_id, step_id := some s.step_id } }] } :=
  (claim_next_step_spec wDbClaim 2 5).1
    { step_row_id := "s1", run_id := "r1", step_id := "plan",
      agent_id := "feature-dev/planner", task := "task", context := {} }
    (claim_next_step wDbClaim 2 5).2 (by decide)

/-! ## Finalizer lemmas -/

/-- `find?` commutes with a map that preserves the predicate. -/
theorem find?_map_pres {α : Type} (l : List α) (f : α → α) (p : α → Bool)
    (hf : ∀ a, p (f a) = p a) : (l.map f).find? p = (l.find? p).map f := by
  induction l with
  | nil => rfl
  | cons x xs ih =>
    simp only [List.map_cons, List.find?_cons]
    rw [hf x]
    cases hx : p x
    · simpa using ih
    · simp

theorem failOwn_id (sid err : String) (now : Nat) (t : StepRow) :
    (failOwn sid err now t).id = t.id := by
  unfold failOwn; split <;> rfl

theorem failOwn_run_id (sid err : String) (now : Nat) (t : StepRow) :
    (failOwn sid err now t).run_id = t.run_id := by
  unfold failOwn; split <;> rfl

theorem failOwn_step_index (sid err : String) (now : Nat) (t : StepRow) :
    (failOwn sid err now t).step_index = t.step_index := by
  unfold failOwn; split <;> rfl

/-- The `runs` update of `finalize_step_failed` in both branches. -/
theorem finalize_failed_runs (db : Db) (p : PendingStep) (err : String)
    (now : Nat) (now_ms : Int) :
    (finalize_step_failed db p err now now_ms).runs =
      if (p.step_id == "test" &&
          decide (countEvents db "run.requeued.test_failed" p.run_id < max_test_retries)) = true
      then db.runs.map (fun r => if r.id == p.run_id
        then { r with status := "running", updated_at := now } else r)
      else db.runs.map (fun r => if r.id == p.run_id
        then { r with status := "failed", updated_at := now } else r) := by
  unfold finalize_step_failed
  by_cases hreq : (p.step_id == "test" &&
      decide (countEvents db "run.requeued.test_failed" p.run_id < max_test_retries)) = true
  · simp only [hreq, if_true]
  · simp only [Bool.eq_false_iff.mpr hreq, Bool.false_eq_true, if_false]

/-- Retry accounting of one failed finalization of the `test` step. -/
theorem countEvents_finalize_failed (db : Db) (p : PendingStep) (err : String)
    (now : Nat) (now_ms : Int) (htest : p.step_id = "test") :
    countEvents (finalize_step_failed db p err now now_ms)
        "run.requeued.test_failed" p.run_id =
      if countEvents db "run.requeued.test_failed" p.run_id < 2
      then countEvents db "run.requeued.test_failed" p.run_id + 1
      else countEvents db "run.requeued.test_failed" p.run_id := by
  simp only [finalize_step_failed, htest, max_test_retries, beq_self_eq_true, Bool.true_and]
  by_cases hlt : countEvents db "run.requeued.test_failed" p.run_id < 2
  · rw [if_pos (by simp [hlt]), if_pos hlt]
    simp [countEvents, List.filter_append]
  · rw [if_neg (by simp [hlt]), if_neg hlt]
    simp [countEvents, List.filter_append]

/-- The run status after one failed finalization of the `test` step. -/
theorem runStatusOf_finalize_failed (db : Db) (p : PendingStep) (err : String)
    (now : Nat) (now_ms : Int) (htest : p.step_id = "test") :
    runStatusOf (finalize_step_failed db p err now now_ms) p.run_id =
      (findRun db p.run_id).map (fun _ =>
        if countEvents db "run.requeued.test_failed" p.run_id < 2
        then "running" else "failed") := by
  unfold runStatusOf findRun
  rw [finalize_failed_runs]
  by_cases hlt : countEvents db "run.requeued.test_failed" p.run_id < 2
  · rw [if_pos (by simp [htest, max_test_retries, hlt])]
    rw [find?_map_pres _ _ _ (by intro a; split <;> simp_all)]
    cases hf : db.runs.find? (fun r => r.id == p.run_id) with
    | none => simp
    | some r =>
      have hpr : r.id = p.run_id := by simpa using (List.find?_eq_some.mp hf).1
      simp [hpr, hlt]
  · rw [if_neg (by simp [htest, max_test_retries, hlt])]
    rw [find?_map_pres _ _ _ (by intro a; split <;> simp_all)]
    cases hf : db.runs.find? (fun r => r.id == p.run_id) with
    | none => simp
    | some r =>
      have hpr : r.id = p.run_id := by simpa using (List.find?_eq_some.mp hf).1
      simp [hpr, hlt]

/-- One failed finalization keeps every run row's id (so run lookups keep
succeeding). -/
theorem findRun_isSome_finalize_failed (db : Db) (p : PendingStep) (err : String)
    (now : Nat) (now_ms : Int) (rid : String) :
    (findRun (finalize_step_failed db p err now now_ms) rid).isSome =
      (findRun db rid).isSome := by
  unfold findRun
  rw [finalize_failed_runs]
  split <;>
    rw [find?_map_pres _ _ _ (by intro a; split <;> simp_all)] <;>
    cases db.runs.find? (fun r => r.id == rid) <;> simp

/-- Profile of `K` successive test-step failures starting from a run with no
prior retries: the retry count saturates at 2, the run sits at `running`
during the first two retries, turns `failed` at the third failure, and makes
exactly one (hence at most one) transition into `failed`. -/
theorem iterFail_profile (db : Db) (p : PendingStep) (err : String) (now : Nat)
    (now_ms : Int) (htest : p.step_id = "test")
    (h0 : countEvents db "run.requeued.test_failed" p.run_id = 0)
    (hsome : (findRun db p.run_id).isSome = true) :
    ∀ K, countEvents (iterFail p err now now_ms K db) "run.requeued.test_failed" p.run_id =
          min K 2 ∧
      (1 ≤ K → K ≤ 2 →
        runStatusOf (iterFail p err now now_ms K db) p.run_id = some "running") ∧
      (3 ≤ K → runStatusOf (iterFail p err now now_ms K db) p.run_id = some "failed") ∧
      failTransitions p err now now_ms K db = (if 3 ≤ K then 1 else 0) ∧
      (findRun (iterFail p err now now_ms K db) p.run_id).isSome = true := by
  intro K
  induction K with
  | zero =>
    refine ⟨?_, ?_, ?_, ?_, hsome⟩
    · rw [show iterFail p err now now_ms 0 db = db from rfl, h0]
      omega
    · intro h1 h2; omega
    · intro h3; omega
    · rw [show failTransitions p err now now_ms 0 db = 0 from rfl]
      norm_num
  | succ k ih =>
    obtain ⟨hc, hrun12, hfail3, htr, hs⟩ := ih
    have hstep : iterFail p err now now_ms (k + 1) db =
        finalize_step_failed (iterFail p err now now_ms k db) p err now now_ms := rfl
    have hc' : countEvents (iterFail p err now now_ms (k + 1) db)
        "run.requeued.test_failed" p.run_id = min (k + 1) 2 := by
      rw [hstep, countEvents_finalize_failed _ _ _ _ _ htest, hc]
      by_cases hk : k < 2
      · rw [if_pos (by omega)]; omega
      · rw [if_neg (by omega)]; omega
    have hstat : runStatusOf (iterFail p err now now_ms (k + 1) db) p.run_id =
        some (if k < 2 then "running" else "failed") := by
      rw [hstep, runStatusOf_finalize_failed _ _ _ _ _ htest, hc]
      obtain ⟨r, hr⟩ := Option.isSome_iff_exists.mp hs
      unfold findRun at hr ⊢
      rw [hr]
      by_cases hk : k < 2
      · rw [if_pos hk]
        simp only [Option.map_some']
        rw [if_pos (by omega)]
      · rw [if_neg hk]
        simp only [Option.map_some']
        rw [if_neg (by omega)]
    refine ⟨hc', ?_, ?_, ?_, ?_⟩
    · intro h1 h2
      rw [hstat, if_pos (by omega)]
    · intro h3
      rw [hstat, if_neg (by omega)]
    · show failTransitions p err now now_ms k db +
        (if runStatusOf (iterFail p err now now_ms k db) p.run_id ≠ some "failed" ∧
            runStatusOf (finalize_step_failed (iterFail p err now now_ms k db) p err now now_ms)
              p.run_id = some "failed"
         then 1 else 0) = if 3 ≤ k + 1 then 1 else 0
      rw [htr, ← hstep]
      rcases Nat.lt_or_ge k 2 with hk2 | hk2
      · -- the (k+1)-th failure still requeues: no transition
        have hneg : ¬(runStatusOf (iterFail p err now now_ms k db) p.run_id ≠ some "failed" ∧
            runStatusOf (iterFail p err now now_ms (k + 1) db) p.run_id = some "failed") := by
          intro hand
          have := hand.2
          rw [hstat, if_pos hk2] at this
          simp at this
        rw [if_neg hneg, if_neg (show ¬3 ≤ k by omega), if_neg (show ¬3 ≤ k + 1 by omega)]
      · rcases Nat.lt_or_ge k 3 with hk3 | hk3
        · -- k = 2: the third failure flips the run to failed
          have hpos : runStatusOf (iterFail p err now now_ms k db) p.run_id ≠ some "failed" ∧
              runStatusOf (iterFail p err now now_ms (k + 1) db) p.run_id = some "failed" := by
            constructor
            · rw [hrun12 (by omega) (by omega)]; simp
            · rw [hstat, if_neg (show ¬k < 2 by omega)]
          rw [if_pos hpos, if_neg (show ¬3 ≤ k by omega), if_pos (show 3 ≤ k + 1 by omega)]
        · -- k ≥ 3: already failed, no further transition
          have hneg : ¬(runStatusOf (iterFail p err now now_ms k db) p.run_id ≠ some "failed" ∧
              runStatusOf (iterFail p err now now_ms (k + 1) db) p.run_id = some "failed") := by
            intro hand
            exact hand.1 (hfail3 (by omega))
          rw [if_neg hneg, if_pos (show 3 ≤ k by omega), if_pos (show 3 ≤ k + 1 by omega)]
    · rw [hstep, findRun_isSome_finalize_failed]
      exact hs

theorem failOwn_step_id (sid err : String) (now : Nat) (t : StepRow) :
    (failOwn sid err now t).step_id = t.step_id := by
  unfold failOwn; split <;> rfl

theorem requeueFromIdx_run_id (rid : String) (idx now : Nat) (t : StepRow) :
    (requeueFromIdx rid idx now t).run_id = t.run_id := by
  unfold requeueFromIdx; split <;> rfl

theorem requeueFromIdx_step_id (rid : String) (idx now : Nat) (t : StepRow) :
    (requeueFromIdx rid idx now t).step_id = t.step_id := by
  unfold requeueFromIdx; split <;> rfl

/-- The steps table after a requeueing (`test`, retries left) failed
finalization: the own-row failure write, then the tail requeue from the test
step's index, then the `implement` requeue. -/
theorem finalize_failed_steps_requeue (db : Db) (p : PendingStep) (err : String)
    (now : Nat) (now_ms : Int) (own : StepRow)
    (hreq : (p.step_id == "test" &&
      decide (countEvents db "run.requeued.test_failed" p.run_id < max_test_retries)) = true)
    (hrow : db.steps.find? (fun t => t.id == p.step_row_id) = some own) :
    (finalize_step_failed db p err now now_ms).steps =
      ((db.steps.map (failOwn p.step_row_id err now)).map
        (requeueFromIdx p.run_id own.step_index now)).map (requeueImplement p.run_id now) := by
  have hid : (own.id == p.step_row_id) = true := (List.find?_eq_some.mp hrow).1
  simp only [finalize_step_failed, hreq, if_true]
  rw [show (fun (t : StepRow) =>
      if t.id == p.step_row_id
      then { t with status := "failed", output_text := some err, updated_at := now } else t) =
      failOwn p.step_row_id err now from rfl]
  rw [find?_map_pres _ _ _ (fun a => by rw [failOwn_id]), hrow, Option.map_some']
  have hfail : failOwn p.step_row_id err now own =
      { own with status := "failed", output_text := some err, updated_at := now } := by
    unfold failOwn; rw [if_pos hid]
  rw [hfail]
  rfl

/-- The steps table after a non-requeueing failed finalization. -/
theorem finalize_failed_steps_plain (db : Db) (p : PendingStep) (err : String)
    (now : Nat) (now_ms : Int)
    (hreq : (p.step_id == "test" &&
      decide (countEvents db "run.requeued.test_failed" p.run_id < max_test_retries)) = false) :
    (finalize_step_failed db p err now now_ms).steps =
      db.steps.map (failOwn p.step_row_id err now) := by
  simp only [finalize_step_failed, hreq, Bool.false_eq_true, if_false]
  rfl

/-- The events appended by a requeueing failed finalization. -/
theorem finalize_failed_events_requeue (db : Db) (p : PendingStep) (err : String)
    (now : Nat) (now_ms : Int)
    (hreq : (p.step_id == "test" &&
      decide (countEvents db "run.requeued.test_failed" p.run_id < max_test_retries)) = true) :
    (finalize_step_failed db p err now now_ms).events =
      db.events ++
        [{ ts_ms := now_ms, kind := "run.requeued.test_failed", entity_id := some p.run_id,
           payload := { run_id := some p.run_id, error := some err,
                        attempt :=
                          some ((countEvents db "run.requeued.test_failed" p.run_id : Int) + 1),
                        max_attempts := some ((max_test_retries : Nat) : Int) } },
         { ts_ms := now_ms, kind := "step.failed", entity_id := some p.step_row_id,
           payload := { run_id := some p.run_id, step_id := some p.step_id,
                        error := some err, requeued := some true } }] := by
  simp only [finalize_step_failed, hreq, if_true]

/-- Tail steps (index at or above the test step's) come out `queued` with a
cleared output. -/
theorem requeue_chain_tail (rid sid err : String) (idx now : Nat) (t : StepRow)
    (h1 : t.run_id = rid) (h2 : idx ≤ t.step_index) :
    (requeueImplement rid now (requeueFromIdx rid idx now
      (failOwn sid err now t))).status = "queued" ∧
    (requeueImplement rid now (requeueFromIdx rid idx now
      (failOwn sid err now t))).output_text = none := by
  have hrun := failOwn_run_id sid err now t
  have hidx := failOwn_step_index sid err now t
  unfold requeueFromIdx
  rw [if_pos (by simp [hrun, hidx, h1, h2])]
  unfold requeueImplement
  split <;> exact ⟨rfl, rfl⟩

/-- The `implement` step comes out `queued` even when already done. -/
theorem requeue_chain_implement (rid sid err : String) (idx now : Nat) (t : StepRow)
    (h1 : t.run_id = rid) (h2 : t.step_id = "implement") :
    (requeueImplement rid now (requeueFromIdx rid idx now
      (failOwn sid err now t))).status = "queued" := by
  unfold requeueImplement
  rw [if_pos (by
    simp [requeueFromIdx_run_id, requeueFromIdx_step_id, failOwn_run_id, failOwn_step_id,
      h1, h2])]

/-- Claim C4: failing the `test` step with fewer than two prior
`run.requeued.test_failed` events requeues the tail from the test step's
index (clearing outputs), requeues `implement`, sets the run `running` (not
`failed`), and appends one `run.requeued.test_failed` event carrying
`{attempt, max_attempts}`; at two or more prior events the step stays
`failed`, nothing is requeued, and the run is set `failed`. Hence `K`
successive test failures from a fresh run produce exactly `min(K, 2)` such
events and at most one transition into `failed`. -/
theorem finalize_test_failure_spec (db : Db) (p : PendingStep) (err : String)
    (now : Nat) (now_ms : Int) (own : StepRow)
    (htest : p.step_id = "test")
    (hrow : db.steps.find? (fun t => t.id == p.step_row_id) = some own) :
    (countEvents db "run.requeued.test_failed" p.run_id < 2 →
      (finalize_step_failed db p err now now_ms).steps =
        ((db.steps.map (failOwn p.step_row_id err now)).map
          (requeueFromIdx p.run_id own.step_index now)).map
          (requeueImplement p.run_id now) ∧
      (∀ t ∈ db.steps, t.run_id = p.run_id → own.step_index ≤ t.step_index →
        (requeueImplement p.run_id now (requeueFromIdx p.run_id own.step_index now
          (failOwn p.step_row_id err now t))).status = "queued" ∧
        (requeueImplement p.run_id now (requeueFromIdx p.run_id own.step_index now
          (failOwn p.step_row_id err now t))).output_text = none) ∧
      (∀ t ∈ db.steps, t.run_id = p.run_id → t.step_id = "implement" →
        (requeueImplement p.run_id now (requeueFromIdx p.run_id own.step_index now
          (failOwn p.step_row_id err now t))).status = "queued") ∧
      (finalize_step_failed db p err now now_ms).runs =
        db.runs.map (fun r => if r.id == p.run_id
          then { r with status := "running", updated_at := now } else r) ∧
      (finalize_step_failed db p err now now_ms).events =
        db.events ++
          [{ ts_ms := now_ms, kind := "run.requeued.test_failed", entity_id := some p.run_id,
             payload := { run_id := some p.run_id, error := some err,
                          attempt := some
                            ((countEvents db "run.requeued.test_failed" p.run_id : Int) + 1),
                          max_attempts := some ((max_test_retries : Nat) : Int) } },
           { ts_ms := now_ms, kind := "step.failed", entity_id := some p.step_row_id,
             payload := { run_id := some p.run_id, step_id := some p.step_id,
                          error := some err, requeued := some true } }]) ∧
    (¬(countEvents db "run.requeued.test_failed" p.run_id < 2) →
      (finalize_step_failed db p err now now_ms).steps =
        db.steps.map (failOwn p.step_row_id err now) ∧
      (failOwn p.step_row_id err now own).status = "failed" ∧
      (∀ t ∈ db.steps, t.id ≠ p.step_row_id → failOwn p.step_row_id err now t = t) ∧
      (finalize_step_failed db p err now now_ms).runs =
        db.runs.map (fun r => if r.id == p.run_id
          then { r with status := "failed", updated_at := now } else r)) ∧
    (countEvents db "run.requeued.test_failed" p.run_id = 0 →
      ∀ K, countEvents (iterFail p err now now_ms K db) "run.requeued.test_failed" p.run_id =
        min K 2) ∧
    (countEvents db "run.requeued.test_failed" p.run_id = 0 →
      (findRun db p.run_id).isSome = true →
      ∀ K, failTransitions p err now now_ms K db ≤ 1) := by
  refine ⟨?_, ?_, ?_, ?_⟩
  · intro hlt
    have hreq : (p.step_id == "test" &&
        decide (countEvents db "run.requeued.test_failed" p.run_id < max_test_retries)) = true := by
      simp [htest, max_test_retries, hlt]
    refine ⟨finalize_failed_steps_requeue db p err now now_ms own hreq hrow, ?_, ?_, ?_, ?_⟩
    · intro t _ h1 h2
      exact requeue_chain_tail p.run_id p.step_row_id err own.step_index now t h1 h2
    · intro t _ h1 h2
      exact requeue_chain_implement p.run_id p.step_row_id err own.step_index now t h1 h2
    · rw [finalize_failed_runs, if_pos hreq]
    · exact finalize_failed_events_requeue db p err now now_ms hreq
  · intro hge
    have hreq : (p.step_id == "test" &&
        decide (countEvents db "run.requeued.test_failed" p.run_id < max_test_retries)) = false := by
      simp [htest, max_test_retries, hge]
    refine ⟨finalize_failed_steps_plain db p err now now_ms hreq, ?_, ?_, ?_⟩
    · have hid : (own.id == p.step_row_id) = true := (List.find?_eq_some.mp hrow).1
      unfold failOwn
      rw [if_pos hid]
    · intro t ht hne
      unfold failOwn
      rw [if_neg (by simpa using hne)]
    · rw [finalize_failed_runs, if_neg (by rw [hreq]; simp)]
  · intro h0 K
    induction K with
    | zero => simpa [iterFail] using h0
    | succ k ih =>
      rw [show iterFail p err now now_ms (k + 1) db =
        finalize_step_failed (iterFail p err now now_ms k db) p err now now_ms from rfl]
      rw [countEvents_finalize_failed _ _ _ _ _ htest, ih]
      by_cases hk : k < 2
      · rw [if_pos (by omega)]; omega
      · rw [if_neg (by omega)]; omega
  · intro h0 hsome K
    have := (iterFail_profile db p err now now_ms htest h0 hsome K).2.2.2.1
    rw [this]
    split <;> omega

/-- Witness for C4 at the repository's own rollback fixture: the first test
failure requeues implement and the tail, sets the run running, appends the
retry event with `{attempt: 1, max_attempts: 2}`; three successive failures
leave exactly two retry events and at most one failed transition. -/
theorem finalize_test_failure_spec_witness :
    ((finalize_step_failed wDbFail wPendTest "boom" 9 99).steps =
      ((wDbFail.steps.map (failOwn "s-test" "boom" 9)).map
        (requeueFromIdx "r2" 2 9)).map (requeueImplement "r2" 9) ∧
     (∀ t ∈ wDbFail.steps, t.run_id = "r2" → 2 ≤ t.step_index →
       (requeueImplement "r2" 9 (requeueFromIdx "r2" 2 9
         (failOwn "s-test" "boom" 9 t))).status = "queued" ∧
       (requeueImplement "r2" 9 (requeueFromIdx "r2" 2 9
         (failOwn "s-test" "boom" 9 t))).output_text = none) ∧
     (∀ t ∈ wDbFail.steps, t.run_id = "r2" → t.step_id = "implement" →
       (requeueImplement "r2" 9 (requeueFromIdx "r2" 2 9
         (failOwn "s-test" "boom" 9 t))).status = "queued") ∧
     (finalize_step_failed wDbFail wPendTest "boom" 9 99).runs =
       wDbFail.runs.map (fun r => if r.id == "r2"
         then { r with status := "running", updated_at := 9 } else r) ∧
     (finalize_step_failed wDbFail wPendTest "boom" 9 99).events =
       wDbFail.events ++
         [{ ts_ms := 99, kind := "run.requeued.test_failed", entity_id := some "r2",
            payload := { run_id := some "r2", error := some "boom",
                         attempt := some ((countEvents wDbFail "run.requeued.test_failed"
                            "r2" : Int) + 1),
                         max_attempts := some ((max_test_retries : Nat) : Int) } },
          { ts_ms := 99, kind := "step.failed", entity_id := some "s-test",
            payload := { run_id := some "r2", step_id := some "test",
                         error := some "boom", requeued := some true } }]) ∧
    countEvents (iterFail wPendTest "boom" 9 99 3 wDbFail)
      "run.requeued.test_failed" "r2" = min 3 2 ∧
    failTransitions wPendTest "boom" 9 99 3 wDbFail ≤ 1 :=
  ⟨(finalize_test_failure_spec wDbFail wPendTest "boom" 9 99
      (mkStep "s-test" "r2" "test" "feature-dev/tester" 2 "running")
      (by decide) (by decide)).1 (by decide),
   (finalize_test_failure_spec wDbFail wPendTest "boom" 9 99
      (mkStep "s-test" "r2" "test" "feature-dev/tester" 2 "running")
      (by decide) (by decide)).2.2.1 (by decide) 3,
   (finalize_test_failure_spec wDbFail wPendTest "boom" 9 99
      (mkStep "s-test" "r2" "test" "feature-dev/tester" 2 "running")
      (by decide) (by decide)).2.2.2 (by decide) (by decide) 3⟩

/-! ## Re-emit characterization -/

theorem filter_map_pres {α : Type} (l : List α) (f : α → α) (p : α → Bool)
    (hf : ∀ a, p (f a) = p a) : (l.map f).filter p = (l.filter p).map f := by
  induction l with
  | nil => rfl
  | cons x xs ih =>
    simp only [List.map_cons, List.filter_cons, hf x]
    cases hx : p x <;> simp [ih]

theorem map_eq_self_of {α : Type} (l : List α) (f : α → α) (h : ∀ a ∈ l, f a = a) :
    l.map f = l := by
  induction l with
  | nil => rfl
  | cons x xs ih =>
    rw [List.map_cons, h x (List.mem_cons_self x xs),
      ih (fun a ha => h a (List.mem_cons_of_mem x ha))]

/-- Splitting the `run_id` conjunct out of a step filter. -/
theorem filter_run_and (S : List StepRow) (X : String) (P : StepRow → Bool) :
    S.filter (fun t => t.run_id == X && P t) = (rowsOf S X).filter P := by
  unfold rowsOf
  induction S with
  | nil => rfl
  | cons x xs ih =>
    simp only [List.filter_cons]
    cases hx : (x.run_id == X) <;> cases hp : P x <;>
      simp [List.filter_cons, hx, hp, ih]

theorem rowsOf_map (S : List StepRow) (X : String) (f : StepRow → StepRow)
    (hf : ∀ s, (f s).run_id = s.run_id) : rowsOf (S.map f) X = (rowsOf S X).map f := by
  unfold rowsOf
  exact filter_map_pres S f _ (fun a => by rw [hf a])

theorem rowsOf_mem (S : List StepRow) (X : String) (s : StepRow) (hs : s ∈ rowsOf S X) :
    s ∈ S ∧ s.run_id = X := by
  unfold rowsOf at hs
  have := List.mem_filter.mp hs
  exact ⟨this.1, by simpa using this.2⟩

theorem runRowsOf_map (rs : List RunRow) (X : String) (f : RunRow → RunRow)
    (hf : ∀ r, (f r).id = r.id) : runRowsOf (rs.map f) X = (runRowsOf rs X).map f := by
  unfold runRowsOf
  exact filter_map_pres rs f _ (fun a => by rw [hf a])

theorem runRowsOf_mem (rs : List RunRow) (X : String) (r : RunRow)
    (hr : r ∈ runRowsOf rs X) : r ∈ rs ∧ r.id = X := by
  unfold runRowsOf at hr
  have := List.mem_filter.mp hr
  exact ⟨this.1, by simpa using this.2⟩

/-- Phase 1 leaves other runs' rows alone. -/
theorem reemitPhase1_rows_other (S : List StepRow) (rid X : String) (now : Nat)
    (hne : rid ≠ X) : rowsOf (reemitPhase1 S rid now) X = rowsOf S X := by
  unfold reemitPhase1
  split <;>
  · rw [rowsOf_map _ _ _ (fun s => by split <;> rfl)]
    apply map_eq_self_of
    intro a ha
    have hrun := (rowsOf_mem S X a ha).2
    rw [if_neg (by simp [hrun]; intro h; exact absurd h.symm hne)]

/-- Phase 1 on the scanned run's own rows is the pointwise `reemitRow1`. -/
theorem reemitPhase1_rows_self (S : List StepRow) (rid : String) (now : Nat) :
    rowsOf (reemitPhase1 S rid now) rid =
      (rowsOf S rid).map (reemitRow1 (rowsOf S rid) now) := by
  unfold reemitPhase1 reemitRow1
  rw [filter_run_and S rid (fun t => t.status == "running")]
  split
  · rw [rowsOf_map _ _ _ (fun s => by split <;> rfl)]
    apply List.map_congr_left
    intro a ha
    have hrun := (rowsOf_mem S rid a ha).2
    simp only [hrun, beq_self_eq_true, Bool.true_and]
  · rw [rowsOf_map _ _ _ (fun s => by split <;> rfl)]
    apply List.map_congr_left
    intro a ha
    have hrun := (rowsOf_mem S rid a ha).2
    simp only [hrun, beq_self_eq_true, Bool.true_and]

/-- `minFailedIdx` only looks at the run's own rows. -/
theorem minFailedIdx_eq (S : List StepRow) (rid : String) :
    minFailedIdx S rid = minFailedOver (rowsOf S rid) := by
  unfold minFailedIdx minFailedOver
  rw [filter_run_and S rid (fun t => t.status == "failed")]

/-- Phase 2 leaves other runs' rows alone. -/
theorem reemitPhase2_rows_other (S1 : List StepRow) (rid X : String) (now : Nat)
    (hne : rid ≠ X) : rowsOf (reemitPhase2 S1 rid now) X = rowsOf S1 X := by
  unfold reemitPhase2
  split
  · rw [rowsOf_map _ _ _ (fun s => by split <;> rfl)]
    apply map_eq_self_of
    intro a ha
    have hrun := (rowsOf_mem S1 X a ha).2
    rw [if_neg (by simp [hrun]; intro h; exact absurd h.symm hne)]
  · rfl

/-- Phase 2 on the scanned run's own rows is the pointwise `reemitRow2`. -/
theorem reemitPhase2_rows_self (S1 : List StepRow) (rid : String) (now : Nat) :
    rowsOf (reemitPhase2 S1 rid now) rid =
      (rowsOf S1 rid).map (reemitRow2 (rowsOf S1 rid) now) := by
  unfold reemitPhase2 reemitRow2
  rw [filter_run_and S1 rid (fun t => t.status == "failed"), minFailedIdx_eq]
  split
  · rw [rowsOf_map _ _ _ (fun s => by split <;> rfl)]
    apply List.map_congr_left
    intro a ha
    have hrun := (rowsOf_mem S1 rid a ha).2
    simp only [hrun, beq_self_eq_true, Bool.true_and]
  · symm
    apply map_eq_self_of
    intro a _
    rfl

/-- One loop iteration for an out-of-scope run is a no-op. -/
theorem reemitRun_out (ents : List EntityRow) (scope : Option String) (now : Nat)
    (acc : ReemitAcc) (run : RunRow) (h : inScopeRun ents scope run = false) :
    reemitRun ents scope now acc run = acc := by
  unfold reemitRun
  rw [h]
  rfl

/-- The steps table after one in-scope iteration. -/
theorem reemitRun_steps (ents : List EntityRow) (scope : Option String) (now : Nat)
    (acc : ReemitAcc) (run : RunRow) (h : inScopeRun ents scope run = true) :
    (reemitRun ents scope now acc run).steps =
      reemitPhase2 (reemitPhase1 acc.steps run.id now) run.id now := by
  unfold reemitRun
  rw [h]
  rfl

/-- The runs table after one in-scope iteration. -/
theorem reemitRun_runs (ents : List EntityRow) (scope : Option String) (now : Nat)
    (acc : ReemitAcc) (run : RunRow) (h : inScopeRun ents scope run = true) :
    (reemitRun ents scope now acc run).runs =
      if !(run.status == "done") then
        acc.runs.map (fun r =>
          if r.id == run.id && !(r.status == "done")
          then { r with status := "queued", updated_at := now } else r)
      else acc.runs := by
  unfold reemitRun
  rw [h]
  rfl

/-- One iteration leaves other runs' step rows alone. -/
theorem reemitRun_rows_other (ents : List EntityRow) (scope : Option String) (now : Nat)
    (acc : ReemitAcc) (run : RunRow) (X : String) (hne : run.id ≠ X) :
    rowsOf (reemitRun ents scope now acc run).steps X = rowsOf acc.steps X := by
  cases hin : inScopeRun ents scope run with
  | false => rw [reemitRun_out _ _ _ _ _ hin]
  | true =>
    rw [reemitRun_steps _ _ _ _ _ hin, reemitPhase2_rows_other _ _ _ _ hne,
      reemitPhase1_rows_other _ _ _ _ hne]

/-- One in-scope iteration rewrites the scanned run's own rows pointwise. -/
theorem reemitRun_rows_self (ents : List EntityRow) (scope : Option String) (now : Nat)
    (acc : ReemitAcc) (run : RunRow) (h : inScopeRun ents scope run = true) :
    rowsOf (reemitRun ents scope now acc run).steps run.id =
      (rowsOf acc.steps run.id).map (reemitRowFn (rowsOf acc.steps run.id) now) := by
  rw [reemitRun_steps _ _ _ _ _ h, reemitPhase2_rows_self, reemitPhase1_rows_self,
    List.map_map]
  rfl

/-- One iteration leaves other runs' run rows alone. -/
theorem reemitRun_runrows_other (ents : List EntityRow) (scope : Option String) (now : Nat)
    (acc : ReemitAcc) (run : RunRow) (X : String) (hne : run.id ≠ X) :
    runRowsOf (reemitRun ents scope now acc run).runs X = runRowsOf acc.runs X := by
  cases hin : inScopeRun ents scope run with
  | false => rw [reemitRun_out _ _ _ _ _ hin]
  | true =>
    rw [reemitRun_runs _ _ _ _ _ hin]
    split
    · rw [runRowsOf_map _ _ _ (fun r => by split <;> rfl)]
      apply map_eq_self_of
      intro a ha
      have hid := (runRowsOf_mem _ _ _ ha).2
      rw [if_neg (by simp [hid]; intro h'; exact absurd h'.symm hne)]
    · rfl

/-- One in-scope iteration requeues the scanned run's own (non-done) row. -/
theorem reemitRun_runrows_self (ents : List EntityRow) (scope : Option String) (now : Nat)
    (acc : ReemitAcc) (run : RunRow) (h : inScopeRun ents scope run = true)
    (hnd : (run.status == "done") = false) :
    runRowsOf (reemitRun ents scope now acc run).runs run.id =
      (runRowsOf acc.runs run.id).map (fun r =>
        if !(r.status == "done") then { r with status := "queued", updated_at := now }
        else r) := by
  rw [reemitRun_runs _ _ _ _ _ h, if_pos (by simp [hnd])]
  rw [runRowsOf_map _ _ _ (fun r => by split <;> rfl)]
  apply List.map_congr_left
  intro a ha
  have hid := (runRowsOf_mem _ _ _ ha).2
  simp only [hid, beq_self_eq_true, Bool.true_and]

/-- Folding iterations whose runs all have other ids (or are out of scope)
preserves a run's step and run rows. -/
theorem foldl_reemit_frame (ents : List EntityRow) (scope : Option String) (now : Nat)
    (X : String) :
    ∀ (L : List RunRow) (acc : ReemitAcc),
      (∀ u ∈ L, u.id ≠ X ∨ inScopeRun ents scope u = false) →
      rowsOf (L.foldl (reemitRun ents scope now) acc).steps X = rowsOf acc.steps X ∧
      runRowsOf (L.foldl (reemitRun ents scope now) acc).runs X = runRowsOf acc.runs X := by
  intro L
  induction L with
  | nil => intro acc _; exact ⟨rfl, rfl⟩
  | cons u us ih =>
    intro acc hall
    rw [List.foldl_cons]
    have hrest := ih (reemitRun ents scope now acc u)
      (fun v hv => hall v (List.mem_cons_of_mem u hv))
    rcases hall u (List.mem_cons_self u us) with hne | hout
    · rw [hrest.1, hrest.2, reemitRun_rows_other _ _ _ _ _ _ hne,
        reemitRun_runrows_other _ _ _ _ _ _ hne]
      exact ⟨rfl, rfl⟩
    · rw [hrest.1, hrest.2, reemitRun_out _ _ _ _ _ hout]
      exact ⟨rfl, rfl⟩

theorem nodup_map_split {α β : Type} (f : α → β) (L1 L2 : List α) (a : α)
    (h : ((L1 ++ a :: L2).map f).Nodup) : ∀ b ∈ L1 ++ L2, f b ≠ f a := by
  rw [List.map_append, List.map_cons] at h
  obtain ⟨h1, h2, hdisj⟩ := List.nodup_append.mp h
  intro b hb
  rcases List.mem_append.mp hb with hb1 | hb2
  · intro heq
    exact hdisj (List.mem_map_of_mem f hb1) (by simp [heq])
  · intro heq
    exact (List.nodup_cons.mp h2).1 (heq ▸ List.mem_map_of_mem f hb2)

theorem statusQRF_ne_done (r : RunRow) (h : statusQRF r = true) :
    (r.status == "done") = false := by
  unfold statusQRF at h
  rcases Bool.or_eq_true_iff.mp h with h' | h'
  · rcases Bool.or_eq_true_iff.mp h' with h'' | h''
    · simp only [beq_iff_eq] at h''; simp [h'']
    · simp only [beq_iff_eq] at h''; simp [h'']
  · simp only [beq_iff_eq] at h'; simp [h']

/-- Per-run effect of `reemit_workers`: a scanned run's own step rows are
rewritten pointwise by `reemitRowFn` over its original rows and its run row
is set to `queued`; every other run's rows are untouched. -/
theorem reemit_workers_run_char (db : Db) (scope : Option String) (now : Nat)
    (now_ms : Int) (hnodup : (db.runs.map (fun r => r.id)).Nodup)
    (r : RunRow) (hr : r ∈ db.runs) :
    (scannedBy db.entities scope r = true →
      rowsOf (reemit_workers db scope now now_ms).2.steps r.id =
        (rowsOf db.steps r.id).map (reemitRowFn (rowsOf db.steps r.id) now) ∧
      runRowsOf (reemit_workers db scope now now_ms).2.runs r.id =
        (runRowsOf db.runs r.id).map (fun u =>
          if !(u.status == "done") then { u with status := "queued", updated_at := now }
          else u)) ∧
    (scannedBy db.entities scope r = false →
      rowsOf (reemit_workers db scope now now_ms).2.steps r.id = rowsOf db.steps r.id ∧
      runRowsOf (reemit_workers db scope now now_ms).2.runs r.id =
        runRowsOf db.runs r.id) := by
  have hsteps : (reemit_workers db scope now now_ms).2.steps =
      ((db.runs.filter statusQRF).foldl (reemitRun db.entities scope now)
        { steps := db.steps, runs := db.runs, scanned_runs := 0, queued_steps := 0,
          reset_running_steps := 0, touched_runs := 0 }).steps := rfl
  have hruns : (reemit_workers db scope now now_ms).2.runs =
      ((db.runs.filter statusQRF).foldl (reemitRun db.entities scope now)
        { steps := db.steps, runs := db.runs, scanned_runs := 0, queued_steps := 0,
          reset_running_steps := 0, touched_runs := 0 }).runs := rfl
  have hnr : (((db.runs.filter statusQRF)).map (fun u => u.id)).Nodup :=
    hnodup.sublist ((List.filter_sublist db.runs).map _)
  constructor
  · intro hscan
    have hqin := hscan
    unfold scannedBy at hqin
    rw [Bool.and_eq_true] at hqin
    obtain ⟨hq, hin⟩ := hqin
    have hmem : r ∈ db.runs.filter statusQRF := List.mem_filter.mpr ⟨hr, hq⟩
    obtain ⟨L1, L2, hL⟩ := List.append_of_mem hmem
    have hothers : ∀ b ∈ L1 ++ L2, b.id ≠ r.id := by
      have := nodup_map_split (fun u => u.id) L1 L2 r (hL ▸ hnr)
      exact this
    have hothers1 : ∀ u ∈ L1, u.id ≠ r.id ∨ inScopeRun db.entities scope u = false :=
      fun u hu => Or.inl (hothers u (List.mem_append.mpr (Or.inl hu)))
    have hothers2 : ∀ u ∈ L2, u.id ≠ r.id ∨ inScopeRun db.entities scope u = false :=
      fun u hu => Or.inl (hothers u (List.mem_append.mpr (Or.inr hu)))
    rw [hsteps, hruns, hL, List.foldl_append, List.foldl_cons]
    set acc0 : ReemitAcc :=
      { steps := db.steps, runs := db.runs, scanned_runs := 0, queued_steps := 0,
        reset_running_steps := 0, touched_runs := 0 } with hacc0
    have hframe1 := foldl_reemit_frame db.entities scope now r.id L1 acc0 hothers1
    have hframe2 := foldl_reemit_frame db.entities scope now r.id L2
      (reemitRun db.entities scope now (L1.foldl (reemitRun db.entities scope now) acc0) r)
      hothers2
    rw [hframe2.1, hframe2.2]
    rw [reemitRun_rows_self _ _ _ _ _ hin, reemitRun_runrows_self _ _ _ _ _ hin
      (statusQRF_ne_done r hq)]
    rw [hframe1.1, hframe1.2]
    exact ⟨rfl, rfl⟩
  · intro hscan
    have hall : ∀ u ∈ db.runs.filter statusQRF,
        u.id ≠ r.id ∨ inScopeRun db.entities scope u = false := by
      intro u hu
      by_cases hid : u.id = r.id
      · have hu' := List.mem_filter.mp hu
        have : u = r := List.inj_on_of_nodup_map hnodup hu'.1 hr hid
        subst this
        right
        unfold scannedBy at hscan
        rw [hu'.2] at hscan
        simpa using hscan
      · exact Or.inl hid
    have := foldl_reemit_frame db.entities scope now r.id (db.runs.filter statusQRF)
      { steps := db.steps, runs := db.runs, scanned_runs := 0, queued_steps := 0,
        reset_running_steps := 0, touched_runs := 0 } hall
    rw [hsteps, hruns]
    exact ⟨this.1, this.2⟩

/-- Phase 1 does not create, destroy, or alter `failed` rows. -/
theorem reemitRow1_preserves_failed (rows : List StepRow) (now : Nat) :
    (rows.map (reemitRow1 rows now)).filter (fun t => t.status == "failed") =
      rows.filter (fun t => t.status == "failed") := by
  have hpres : ∀ a : StepRow,
      ((reemitRow1 rows now a).status == "failed") = (a.status == "failed") := by
    intro a
    unfold reemitRow1
    split
    · split
      · rename_i hcond
        have ha : a.status = "pending" ∨ a.status = "waiting" := by simpa using hcond
        have : a.status ≠ "failed" := by rcases ha with h | h <;> simp [h]
        simp [this]
      · rfl
    · split
      · rename_i hcond
        have ha : a.status = "running" := by simpa using hcond
        simp [ha]
      · rfl
  rw [filter_map_pres _ _ _ hpres]
  apply map_eq_self_of
  intro a ha
  have hfa : a.status = "failed" := by simpa using (List.mem_filter.mp ha).2
  unfold reemitRow1
  split <;> rw [if_neg (by simp [hfa])]

theorem reemitRow1_step_index (rows : List StepRow) (now : Nat) (s : StepRow) :
    (reemitRow1 rows now s).step_index = s.step_index := by
  unfold reemitRow1
  split <;> split <;> rfl

/-- The status written by one Re-emit rewrite is the old one or `queued`. -/
theorem reemitRowFn_status (rows : List StepRow) (now : Nat) (s : StepRow) :
    ((reemitRowFn rows now s).status = s.status ∨
      (reemitRowFn rows now s).status = "queued") ∧
    (reemitRowFn rows now s).id = s.id ∧
    (reemitRowFn rows now s).run_id = s.run_id ∧
    (reemitRowFn rows now s).step_index = s.step_index := by
  unfold reemitRowFn reemitRow2 reemitRow1
  split <;> split <;> split <;> (try split) <;> simp

/-- With no running step, `pending`/`waiting` rows come out `queued`. -/
theorem reemitRowFn_promote (rows : List StepRow) (now : Nat) (s : StepRow)
    (hnorun : (rows.filter (fun t => t.status == "running")).length = 0)
    (hs : s.status = "pending" ∨ s.status = "waiting") :
    (reemitRowFn rows now s).status = "queued" := by
  unfold reemitRowFn
  have h1 : reemitRow1 rows now s = { s with status := "queued", updated_at := now } := by
    unfold reemitRow1
    rw [if_pos (by simp [hnorun]), if_pos (by rcases hs with h | h <;> simp [h])]
  rw [h1]
  unfold reemitRow2
  split
  · split <;> rfl
  · rfl

/-- With a running step present, `running` rows are reset to `queued`. -/
theorem reemitRowFn_reset (rows : List StepRow) (now : Nat) (s : StepRow)
    (hrun : 0 < (rows.filter (fun t => t.status == "running")).length)
    (hs : s.status = "running") :
    (reemitRowFn rows now s).status = "queued" := by
  unfold reemitRowFn
  have h1 : reemitRow1 rows now s = { s with status := "queued", updated_at := now } := by
    unfold reemitRow1
    rw [if_neg (by simp only [beq_iff_eq]; omega), if_pos (by simp [hs])]
  rw [h1]
  unfold reemitRow2
  split
  · split <;> rfl
  · rfl

/-- With a failed step present, every row from the minimum failed index on
comes out `queued` with `output_text` cleared. -/
theorem reemitRowFn_failed_tail (rows : List StepRow) (now : Nat) (s : StepRow)
    (hfail : 0 < (rows.filter (fun t => t.status == "failed")).length)
    (hidx : minFailedOver rows ≤ s.step_index) :
    (reemitRowFn rows now s).status = "queued" ∧
    (reemitRowFn rows now s).output_text = none := by
  unfold reemitRowFn reemitRow2
  rw [reemitRow1_preserves_failed]
  rw [if_pos hfail]
  have hm : minFailedOver (rows.map (reemitRow1 rows now)) = minFailedOver rows := by
    unfold minFailedOver
    rw [reemitRow1_preserves_failed]
  rw [hm, if_pos (by rw [reemitRow1_step_index]; exact decide_eq_true hidx)]
  exact ⟨rfl, rfl⟩

/-- With unique run ids, a member's rows-of-its-id is the singleton. -/
theorem runRowsOf_self (rs : List RunRow) (hnodup : (rs.map (fun r => r.id)).Nodup)
    (r : RunRow) (hr : r ∈ rs) : runRowsOf rs r.id = [r] := by
  unfold runRowsOf
  induction rs with
  | nil => simp at hr
  | cons x xs ih =>
    rw [List.map_cons, List.nodup_cons] at hnodup
    rcases List.mem_cons.mp hr with rfl | hmem
    · rw [List.filter_cons, if_pos (by simp)]
      have hempty : xs.filter (fun u => u.id == r.id) = [] := by
        apply List.filter_eq_nil_iff.mpr
        intro u hu
        simp only [beq_iff_eq]
        intro heq
        exact hnodup.1 (heq ▸ List.mem_map_of_mem _ hu)
      rw [hempty]
    · rw [List.filter_cons, if_neg (by
        simp only [beq_iff_eq]
        intro heq
        exact hnodup.1 (heq ▸ List.mem_map_of_mem _ hmem))]
      exact ih hnodup.2 hmem

/-- Claim C5: in one transaction, every scanned run (status in {queued,
running, failed}, in scope) is repaired: with no running step every
`pending`/`waiting` step is promoted to `queued`; otherwise every `running`
step is reset to `queued`; with a failed step present, every step from the
minimum failed index on is requeued with `output_text` cleared; the run row
itself is set to `queued`; and the invocation appends exactly one
`workers.reemit` event carrying `{scope, scanned_runs, queued_steps,
reset_running_steps, touched_runs}`. -/
theorem reemit_workers_spec (db : Db) (scope : Option String) (now : Nat) (now_ms : Int)
    (hnodup : (db.runs.map (fun r => r.id)).Nodup) :
    ((reemit_workers db scope now now_ms).2.events =
      db.events ++
        [{ ts_ms := now_ms, kind := "workers.reemit", entity_id := none,
           payload := { scope := some (scope.getD "global"),
                        scanned_runs := some (reemit_workers db scope now now_ms).1.scanned_runs,
                        queued_steps := some (reemit_workers db scope now now_ms).1.queued_steps,
                        reset_running_steps :=
                          some (reemit_workers db scope now now_ms).1.reset_running_steps,
                        touched_runs :=
                          some (reemit_workers db scope now now_ms).1.touched_runs } }]) ∧
    ∀ r ∈ db.runs, scannedBy db.entities scope r = true →
      rowsOf (reemit_workers db scope now now_ms).2.steps r.id =
        (rowsOf db.steps r.id).map (reemitRowFn (rowsOf db.steps r.id) now) ∧
      runRowsOf (reemit_workers db scope now now_ms).2.runs r.id =
        [{ r with status := "queued", updated_at := now }] ∧
      (((rowsOf db.steps r.id).filter (fun t => t.status == "running")).length = 0 →
        ∀ s ∈ rowsOf db.steps r.id, s.status = "pending" ∨ s.status = "waiting" →
          (reemitRowFn (rowsOf db.steps r.id) now s).status = "queued") ∧
      (0 < ((rowsOf db.steps r.id).filter (fun t => t.status == "running")).length →
        ∀ s ∈ rowsOf db.steps r.id, s.status = "running" →
          (reemitRowFn (rowsOf db.steps r.id) now s).status = "queued") ∧
      (0 < ((rowsOf db.steps r.id).filter (fun t => t.status == "failed")).length →
        ∀ s ∈ rowsOf db.steps r.id, minFailedOver (rowsOf db.steps r.id) ≤ s.step_index →
          (reemitRowFn (rowsOf db.steps r.id) now s).status = "queued" ∧
          (reemitRowFn (rowsOf db.steps r.id) now s).output_text = none) := by
  refine ⟨reemit_workers_db_events db scope now now_ms, ?_⟩
  intro r hr hscan
  obtain ⟨hchar, _⟩ := reemit_workers_run_char db scope now now_ms hnodup r hr
  obtain ⟨hsteps, hruns⟩ := hchar hscan
  refine ⟨hsteps, ?_, ?_, ?_, ?_⟩
  · rw [hruns, runRowsOf_self db.runs hnodup r hr]
    have hq : statusQRF r = true := by
      have h' := hscan
      unfold scannedBy at h'
      rw [Bool.and_eq_true] at h'
      exact h'.1
    rw [List.map_cons, List.map_nil, if_pos (by rw [statusQRF_ne_done r hq]; rfl)]
  · intro h0 s _ hsw
    exact reemitRowFn_promote _ now s h0 hsw
  · intro h0 s _ hsr
    exact reemitRowFn_reset _ now s h0 hsr
  · intro h0 s _ hidx
    exact reemitRowFn_failed_tail _ now s h0 hidx

/-- Witness for C5 at a two-base fixture: the scoped sweep rewrites the
scanned run `ra` (resetting its stale running step and requeueing its failed
tail) and requeues its run row. -/
theorem reemit_workers_spec_witness :
    rowsOf (reemit_workers wDbReemit (some "b1") 9 99).2.steps "ra" =
      (rowsOf wDbReemit.steps "ra").map (reemitRowFn (rowsOf wDbReemit.steps "ra") 9) ∧
    runRowsOf (reemit_workers wDbReemit (some "b1") 9 99).2.runs "ra" =
      [{ mkRun "ra" "running" "f1" with status := "queued", updated_at := 9 }] ∧
    (((rowsOf wDbReemit.steps "ra").filter (fun t => t.status == "running")).length = 0 →
      ∀ s ∈ rowsOf wDbReemit.steps "ra", s.status = "pending" ∨ s.status = "waiting" →
        (reemitRowFn (rowsOf wDbReemit.steps "ra") 9 s).status = "queued") ∧
    (0 < ((rowsOf wDbReemit.steps "ra").filter (fun t => t.status == "running")).length →
      ∀ s ∈ rowsOf wDbReemit.steps "ra", s.status = "running" →
        (reemitRowFn (rowsOf wDbReemit.steps "ra") 9 s).status = "queued") ∧
    (0 < ((rowsOf wDbReemit.steps "ra").filter (fun t => t.status == "failed")).length →
      ∀ s ∈ rowsOf wDbReemit.steps "ra",
        minFailedOver (rowsOf wDbReemit.steps "ra") ≤ s.step_index →
        (reemitRowFn (rowsOf wDbReemit.steps "ra") 9 s).status = "queued" ∧
        (reemitRowFn (rowsOf wDbReemit.steps "ra") 9 s).output_text = none) :=
  (reemit_workers_spec wDbReemit (some "b1") 9 99 (by decide)).2
    (mkRun "ra" "running" "f1") (by decide) (by decide)

/-- Claim C10: a base-scoped Re-emit modifies a run only when the run's
originating entity exists and that entity's payload carries `base_id` equal
to the scope; every other run — including auto-rebase runs whose entity is
the base itself and runs with a missing entity — keeps its run row and step
rows unchanged, and entities and worktrees are never touched. -/
theorem reemit_scope_frame (db : Db) (B : String) (now : Nat) (now_ms : Int)
    (hnodup : (db.runs.map (fun r => r.id)).Nodup) :
    (reemit_workers db (some B) now now_ms).2.entities = db.entities ∧
    (reemit_workers db (some B) now now_ms).2.worktrees = db.worktrees ∧
    ∀ r ∈ db.runs, inScopeRun db.entities (some B) r = false →
      rowsOf (reemit_workers db (some B) now now_ms).2.steps r.id =
        rowsOf db.steps r.id ∧
      runRowsOf (reemit_workers db (some B) now now_ms).2.runs r.id =
        runRowsOf db.runs r.id := by
  refine ⟨rfl, rfl, ?_⟩
  intro r hr hout
  have hscan : scannedBy db.entities (some B) r = false := by
    unfold scannedBy
    rw [hout]
    simp
  exact (reemit_workers_run_char db (some B) now now_ms hnodup r hr).2 hscan

/-- Witness for C10: scoping to base `b` leaves the auto-rebase run attached
to the base entity itself (whose payload has no `base_id`) untouched. -/
theorem reemit_scope_frame_witness :
    (reemit_workers wDbScope (some "b") 9 99).2.entities = wDbScope.entities ∧
    rowsOf (reemit_workers wDbScope (some "b") 9 99).2.steps "r-auto" =
      rowsOf wDbScope.steps "r-auto" ∧
    runRowsOf (reemit_workers wDbScope (some "b") 9 99).2.runs "r-auto" =
      runRowsOf wDbScope.runs "r-auto" :=
  ⟨(reemit_scope_frame wDbScope "b" 9 99 (by decide)).1,
   (reemit_scope_frame wDbScope "b" 9 99 (by decide)).2.2
     (mkRun "r-auto" "queued" "b") (by decide) (by decide)⟩

/-- Filtering after a map that can only lose the property. -/
theorem length_filter_map_le {α : Type} (l : List α) (f : α → α) (p : α → Bool)
    (h : ∀ a ∈ l, p (f a) = true → p a = true) :
    ((l.map f).filter p).length ≤ (l.filter p).length := by
  induction l with
  | nil => simp
  | cons a t ih =>
    have ht := ih (fun b hb => h b (List.mem_cons_of_mem a hb))
    simp only [List.map_cons, List.filter_cons]
    by_cases hfa : p (f a) = true
    · have hpa := h a (List.mem_cons_self a t) hfa
      rw [if_pos hfa, if_pos hpa]
      simp only [List.length_cons]
      omega
    · rw [if_neg hfa]
      by_cases hpa : p a = true
      · rw [if_pos hpa]
        simp only [List.length_cons]
        omega
      · rw [if_neg hpa]
        exact ht

/-- Filtering after a map that can lose the property except on `q`-rows. -/
theorem length_filter_map_le_add {α : Type} (l : List α) (f : α → α) (p q : α → Bool)
    (h : ∀ a ∈ l, p (f a) = true → p a = true ∨ q a = true) :
    ((l.map f).filter p).length ≤ (l.filter p).length + (l.filter q).length := by
  induction l with
  | nil => simp
  | cons a t ih =>
    have ht := ih (fun b hb => h b (List.mem_cons_of_mem a hb))
    simp only [List.map_cons, List.filter_cons]
    by_cases hfa : p (f a) = true
    · rcases h a (List.mem_cons_self a t) hfa with hpa | hqa
      · rw [if_pos hfa, if_pos hpa]
        by_cases hq : q a = true
        · rw [if_pos hq]; simp only [List.length_cons]; omega
        · rw [if_neg hq]; simp only [List.length_cons]; omega
      · rw [if_pos hfa, if_pos hqa]
        by_cases hpa : p a = true
        · rw [if_pos hpa]; simp only [List.length_cons]; omega
        · rw [if_neg hpa]; simp only [List.length_cons]; omega
    · rw [if_neg hfa]
      by_cases hpa : p a = true
      · rw [if_pos hpa]
        by_cases hq : q a = true
        · rw [if_pos hq]; simp only [List.length_cons]; omega
        · rw [if_neg hq]; simp only [List.length_cons]; omega
      · rw [if_neg hpa]
        by_cases hq : q a = true
        · rw [if_pos hq]; simp only [List.length_cons]; omega
        · rw [if_neg hq]; exact ht

/-- In a list with nodup keys, at most one element carries a given key. -/
theorem length_filter_key_le_one {α β : Type} [BEq β] [LawfulBEq β] (l : List α) (g : α → β)
    (hnodup : (l.map g).Nodup) (b : β) :
    (l.filter (fun a => g a == b)).length ≤ 1 := by
  induction l with
  | nil => simp
  | cons a t ih =>
    rw [List.map_cons, List.nodup_cons] at hnodup
    rw [List.filter_cons]
    by_cases hga : (g a == b) = true
    · rw [if_pos hga]
      have hb : g a = b := eq_of_beq hga
      have hempty : t.filter (fun x => g x == b) = [] := by
        apply List.filter_eq_nil_iff.mpr
        intro x hx hbx
        have h1 : g x = g a := by rw [eq_of_beq hbx, hb]
        exact hnodup.1 (h1 ▸ List.mem_map_of_mem g hx)
      rw [hempty]
      simp
    · rw [if_neg hga]
      exact ih hnodup.2

/-- In a list with nodup keys, `find?` on a member's key returns that member. -/
theorem find?_key_of_mem {α β : Type} [BEq β] [LawfulBEq β] (l : List α) (g : α → β) (b : β)
    (hnodup : (l.map g).Nodup) (a : α) (ha : a ∈ l) (hb : g a = b) :
    l.find? (fun x => g x == b) = some a := by
  induction l with
  | nil => simp at ha
  | cons x t ih =>
    rw [List.map_cons, List.nodup_cons] at hnodup
    rcases List.mem_cons.mp ha with rfl | hmem
    · rw [List.find?_cons_of_pos _ (by simp [hb])]
    · have hne : g x ≠ b := by
        intro heq
        have : g a = g x := hb.trans heq.symm
        exact hnodup.1 (this ▸ List.mem_map_of_mem g hmem)
      rw [List.find?_cons_of_neg _ (by simp [hne])]
      exact ih hnodup.2 hmem

/-- A key projection is unchanged by a map that preserves it. -/
theorem map_key_map {α β : Type} (l : List α) (f : α → α) (g : α → β)
    (h : ∀ a, g (f a) = g a) : (l.map f).map g = l.map g := by
  rw [List.map_map]
  exact List.map_congr_left (fun a _ => h a)

/-- A pairwise-distinct key batch is nodup. -/
theorem allDistinct_nodup : ∀ l : List String, allDistinct l = true → l.Nodup := by
  intro l
  induction l with
  | nil => intro _; exact List.nodup_nil
  | cons x xs ih =>
    intro h
    rw [allDistinct, Bool.and_eq_true, Bool.not_eq_true'] at h
    refine List.nodup_cons.mpr ⟨?_, ih h.2⟩
    intro hm
    have he : xs.contains x = true := List.elem_eq_true_of_mem hm
    rw [he] at h
    exact absurd h.1 (by decide)

/-- Quantifying over a run's rows. -/
theorem forall_rowsOf (S : List StepRow) (X : String) (Q : StepRow → Prop) :
    (∀ s ∈ rowsOf S X, Q s) ↔ ∀ s ∈ S, s.run_id = X → Q s := by
  unfold rowsOf
  constructor
  · intro h s hs hrun
    exact h s (List.mem_filter.mpr ⟨hs, by simp [hrun]⟩)
  · intro h s hs
    have hm := List.mem_filter.mp hs
    exact h s hm.1 (by simpa using hm.2)

/-- Every seeded feature step starts `queued` and belongs to the new run. -/
theorem featureStepRows_facts (nanos : Nat) (ctx : RunCtx) (ts : Nat) :
    ∀ s ∈ featureStepRows nanos ctx ts,
      s.status = "queued" ∧ s.run_id = "run-" ++ toString nanos := by
  intro s hs
  unfold featureStepRows at hs
  obtain ⟨p, _, rfl⟩ := List.mem_map.mp hs
  exact ⟨rfl, rfl⟩

/-- The seeded chain is nonempty. -/
theorem featureStepRows_exists_mem (nanos : Nat) (ctx : RunCtx) (ts : Nat) :
    ∃ s, s ∈ featureStepRows nanos ctx ts := by
  refine ⟨_, List.mem_map.mpr ⟨(0, ("plan", "feature-dev/planner")), ?_, rfl⟩⟩
  decide

/-- The invariant predicate unfolded over an explicit store and inflight slot. -/
theorem inv_def (db : Db) (infl : Option PendingStep) :
    Inv ⟨db, infl⟩ ↔
      ((db.runs.map (fun r => r.id)).Nodup ∧
       (db.steps.map (fun s => s.id)).Nodup ∧
       (∀ s ∈ db.steps,
         s.status = "queued" ∨ s.status = "running" ∨ s.status = "done" ∨
           s.status = "failed") ∧
       (∀ rid,
         (db.steps.filter (fun s => s.run_id == rid && s.status == "running")).length ≤ 1) ∧
       (∀ r ∈ db.runs,
         (r.status = "done" ↔ ∀ s ∈ db.steps, s.run_id = r.id → s.status = "done")) ∧
       (∀ p, infl = some p → ∃ s ∈ db.steps, s.id = p.step_row_id ∧ s.run_id = p.run_id)) :=
  Iff.rfl

/-- A map that rewrites rows only inside one foreign run leaves the
completion condition of every other run unchanged. -/
theorem done_body_map (S : List StepRow) (f : StepRow → StepRow) (sid X Y : String)
    (hnodup : (S.map (fun s => s.id)).Nodup)
    (srow : StepRow) (hsm : srow ∈ S) (hsid : srow.id = sid) (hsY : srow.run_id = Y)
    (hXY : Y ≠ X)
    (hf : ∀ t, f t = t ∨ ((t.id = sid ∨ t.run_id = Y) ∧ (f t).run_id = t.run_id)) :
    ((∀ s ∈ S.map f, s.run_id = X → s.status = "done") ↔
     (∀ s ∈ S, s.run_id = X → s.status = "done")) := by
  constructor
  · intro h t ht hX
    have hft : f t = t := by
      rcases hf t with h' | h'
      · exact h'
      · exfalso
        rcases h'.1 with hid | hY
        · have : t = srow := List.inj_on_of_nodup_map hnodup ht hsm (hid.trans hsid.symm)
          rw [this, hsY] at hX
          exact hXY hX
        · rw [hY] at hX
          exact hXY hX
    have := h (f t) (List.mem_map_of_mem f ht)
    rw [hft] at this
    exact this hX
  · intro h s hs hX
    obtain ⟨t, ht, rfl⟩ := List.mem_map.mp hs
    rcases hf t with h' | h'
    · rw [h']
      rw [h'] at hX
      exact h t ht hX
    · exfalso
      rw [h'.2] at hX
      rcases h'.1 with hid | hY
      · have : t = srow := List.inj_on_of_nodup_map hnodup ht hsm (hid.trans hsid.symm)
        rw [this, hsY] at hX
        exact hXY hX
      · rw [hY] at hX
        exact hXY hX

/-- Placing an entity preserves the invariant. -/
theorem inv_place (s : Sys) (e : EntityRow) (h : Inv s) :
    Inv ⟨{ s.db with entities := s.db.entities ++ [e] }, s.inflight⟩ := by
  obtain ⟨h1, h2, h3, h4, h5, h6⟩ := h
  exact ⟨h1, h2, h3, h4, h5, h6⟩

/-- Appending one fresh queued run with fresh, all-queued steps preserves the
invariant. -/
theorem inv_insert (db : Db) (infl : Option PendingStep) (newRun : RunRow)
    (newSteps : List StepRow) (h : Inv ⟨db, infl⟩)
    (hfreshR : ∀ r ∈ db.runs, r.id ≠ newRun.id)
    (hfreshS : ∀ t ∈ db.steps, ∀ u ∈ newSteps, t.id ≠ u.id)
    (hnodupS : (newSteps.map (fun u => u.id)).Nodup)
    (hrunq : newRun.status = "queued")
    (hsteps : ∀ u ∈ newSteps, u.status = "queued" ∧ u.run_id = newRun.id)
    (hne : ∃ u, u ∈ newSteps)
    (db2 : Db) (hr : db2.runs = db.runs ++ [newRun]) (hs : db2.steps = db.steps ++ newSteps) :
    Inv ⟨db2, infl⟩ := by
  rw [inv_def] at h ⊢
  obtain ⟨h1, h2, h3, h4, h5, h6⟩ := h
  rw [hr, hs]
  refine ⟨?_, ?_, ?_, ?_, ?_, ?_⟩
  · rw [List.map_append]
    rw [List.nodup_append]
    refine ⟨h1, by simp, ?_⟩
    intro a ha
    obtain ⟨r, hrm, rfl⟩ := List.mem_map.mp ha
    simp only [List.map_cons, List.map_nil, List.mem_cons, List.not_mem_nil, or_false]
    exact hfreshR r hrm
  · rw [List.map_append]
    rw [List.nodup_append]
    refine ⟨h2, hnodupS, ?_⟩
    intro a ha hb
    obtain ⟨t, htm, rfl⟩ := List.mem_map.mp ha
    obtain ⟨u, hum, hu⟩ := List.mem_map.mp hb
    exact hfreshS t htm u hum hu.symm
  · intro t ht
    rcases List.mem_append.mp ht with hold | hnew
    · exact h3 t hold
    · exact Or.inl (hsteps t hnew).1
  · intro rid
    rw [List.filter_append, List.length_append]
    have hz : (newSteps.filter (fun u => u.run_id == rid && u.status == "running")).length
        = 0 := by
      rw [List.length_eq_zero]
      apply List.filter_eq_nil_iff.mpr
      intro u hu hP
      have := (hsteps u hu).1
      rw [Bool.and_eq_true] at hP
      rw [this] at hP
      exact absurd hP.2 (by decide)
    rw [hz]
    simpa using h4 rid
  · intro r hrm
    rcases List.mem_append.mp hrm with hold | hnew
    · constructor
      · intro hdone t ht hX
        rcases List.mem_append.mp ht with htold | htnew
        · exact ((h5 r hold).mp hdone) t htold hX
        · exfalso
          have := (hsteps t htnew).2
          rw [this] at hX
          exact hfreshR r hold hX.symm
      · intro hall
        refine (h5 r hold).mpr ?_
        intro t ht hX
        exact hall t (List.mem_append_left _ ht) hX
    · simp only [List.mem_cons, List.not_mem_nil, or_false] at hnew
      subst hnew
      constructor
      · intro hdone
        rw [hrunq] at hdone
        exact absurd hdone (by decide)
      · intro hall
        exfalso
        obtain ⟨u, hu⟩ := hne
        have hq := (hsteps u hu).1
        have hd := hall u (List.mem_append_right _ hu) (hsteps u hu).2
        rw [hq] at hd
        exact absurd hd (by decide)
  · intro p hp
    obtain ⟨t, ht, h'⟩ := h6 p hp
    exact ⟨t, List.mem_append_left _ ht, h'⟩

/-- A committed feature-build transaction preserves the invariant. -/
theorem inv_build (s : Sys) (nanos : Nat) (eid task : String) (ctx : RunCtx)
    (repo : String) (ts : Nat) (h : Inv s) :
    Inv ⟨applyTx s.db (api_feature_build_tx s.db nanos eid task ctx repo ts), s.inflight⟩ := by
  cases htx : api_feature_build_tx s.db nanos eid task ctx repo ts with
  | none =>
    obtain ⟨h1, h2, h3, h4, h5, h6⟩ := h
    exact ⟨h1, h2, h3, h4, h5, h6⟩
  | some db2 =>
    unfold api_feature_build_tx at htx
    rw [ite_eq_iff] at htx
    rcases htx with ⟨_, htx⟩ | ⟨hg, htx⟩
    · exact absurd htx (by simp)
    rw [Option.some.injEq] at htx
    rw [Bool.or_eq_true, Bool.or_eq_true, Bool.or_eq_true] at hg
    push_neg at hg
    have hg1 : (s.db.runs.any (fun r => r.id == "run-" ++ toString nanos)) = false :=
      Bool.eq_false_iff.mpr hg.1.1.1
    have hg3 : ((featureStepRows nanos ctx ts).any
        (fun u => s.db.steps.any (fun t => t.id == u.id))) = false :=
      Bool.eq_false_iff.mpr hg.1.2
    have hg4 : allDistinct ((featureStepRows nanos ctx ts).map (fun u => u.id)) = true := by
      have h2 := hg.2
      cases hx : allDistinct ((featureStepRows nanos ctx ts).map (fun u => u.id)) with
      | true => rfl
      | false =>
        rw [hx] at h2
        exact absurd rfl h2
    have hiv : Inv ⟨s.db, s.inflight⟩ := h
    refine inv_insert s.db s.inflight
      { id := "run-" ++ toString nanos, workflow_id := "feature-dev", task := task,
        status := "queued", entity_id := some eid, context := ctx, created_at := ts,
        updated_at := ts }
      (featureStepRows nanos ctx ts) hiv ?_ ?_ ?_ rfl
      (featureStepRows_facts nanos ctx ts) (featureStepRows_exists_mem nanos ctx ts)
      db2 ?_ ?_
    · intro r hrm
      have hr := List.any_eq_false.mp hg1 r hrm
      show r.id ≠ "run-" ++ toString nanos
      simpa using hr
    · intro t htm u hum
      have hu : ∀ x ∈ s.db.steps, ¬ x.id = u.id := by
        simpa using List.any_eq_false.mp hg3 u hum
      exact hu t htm
    · exact allDistinct_nodup _ hg4
    · rw [← htx]
    · rw [← htx]

/-- An auto-rebase sweep call preserves the invariant. -/
theorem inv_sweep (s : Sys) (b reason : String) (sha : Option String) (branch : String)
    (now_ms : Int) (now : Nat) (h : Inv s) :
    Inv ⟨sweepDb s.db b reason sha branch now_ms now, s.inflight⟩ := by
  have hiv : Inv ⟨s.db, s.inflight⟩ := h
  unfold sweepDb
  cases hent : find_base_entity s.db b with
  | none =>
    rw [show queue_base_rebase_sweep s.db b reason sha branch now_ms now =
      .error "base_not_found" from by simp [queue_base_rebase_sweep, hent]]
    exact hiv
  | some ent =>
    by_cases hen : payload_auto_rebase_enabled ent.payload = true
    case neg =>
      rw [show queue_base_rebase_sweep s.db b reason sha branch now_ms now =
        .ok (false, s.db) from by
          simp [queue_base_rebase_sweep, hent, Bool.eq_false_iff.mpr hen]]
      exact hiv
    case pos =>
    cases hrepo : repo_path_from_payload ent.payload with
    | none =>
      rw [show queue_base_rebase_sweep s.db b reason sha branch now_ms now =
        .error "base_repo_missing" from by simp [queue_base_rebase_sweep, hent, hen, hrepo]]
      exact hiv
    | some repo =>
      by_cases hcoal : (s.db.runs.filter (fun r =>
          r.workflow_id == "auto-rebase" && r.entity_id == some b &&
          (r.status == "queued" || r.status == "running"))).length = 0
      case neg =>
        rw [show queue_base_rebase_sweep s.db b reason sha branch now_ms now =
          .ok (false, s.db) from by
            simp [queue_base_rebase_sweep, hent, hen, hrepo, Nat.pos_of_ne_zero hcoal,
              hcoal]]
        exact hiv
      case pos =>
      by_cases hdeb : now_ms - (ent.payload.auto_rebase_last_enqueued_ms).getD 0 <
          payload_auto_rebase_interval_sec ent.payload * 1000 / 2
      case pos =>
        rw [show queue_base_rebase_sweep s.db b reason sha branch now_ms now =
          .ok (false, s.db) from by
            simp [queue_base_rebase_sweep, hent, hen, hrepo, hcoal, hdeb]]
        exact hiv
      case neg =>
      by_cases hfr : (s.db.runs.any (fun r => r.id == "run-auto-rebase-" ++ toString now_ms) ||
          s.db.steps.any (fun t =>
            t.id == "step-" ++ ("run-auto-rebase-" ++ toString now_ms))) = true
      case pos =>
        rw [show queue_base_rebase_sweep s.db b reason sha branch now_ms now =
          .error "constraint_violation" from by
            simp only [queue_base_rebase_sweep, hent, hen, if_true, hrepo, Bool.not_true,
              Bool.false_eq_true, if_false, hcoal]
            rw [if_neg (by omega), if_neg (by omega), if_pos hfr]]
        exact hiv
      case neg =>
      have hfr' := Bool.eq_false_iff.mpr hfr
      rw [Bool.or_eq_false_iff] at hfr'
      have hval : queue_base_rebase_sweep s.db b reason sha branch now_ms now =
          .ok (true, update_entity_payload
            { s.db with
              runs := s.db.runs ++
                [{ id := "run-auto-rebase-" ++ toString now_ms, workflow_id := "auto-rebase",
                   task := "Auto-rebase sweep for base " ++ b, status := "queued",
                   entity_id := some b,
                   context := { action := some "auto_rebase_sweep", base_id := some b,
                                base_repo_path := some repo, default_branch := some branch,
                                trigger_reason := some reason,
                                upstream_sha := some (sha.getD "") },
                   created_at := now, updated_at := now }]
              steps := s.db.steps ++
                [{ id := "step-" ++ ("run-auto-rebase-" ++ toString now_ms),
                   run_id := "run-auto-rebase-" ++ toString now_ms,
                   step_id := "auto-rebase", agent_id := "internal/pr", step_index := 0,
                   status := "queued",
                   input := { action := some "auto_rebase_sweep", base_id := some b,
                              base_repo_path := some repo, default_branch := some branch,
                              trigger_reason := some reason,
                              upstream_sha := some (sha.getD "") },
                   output_text := none, created_at := now, updated_at := now }]
              events := s.db.events ++
                [{ ts_ms := now_ms, kind := "auto_rebase.queued", entity_id := some b,
                   payload := { run_id := some ("run-auto-rebase-" ++ toString now_ms),
                                reason := some reason,
                                upstream_sha := some (sha.getD "") } }] }
            b { ent.payload with auto_rebase_last_enqueued_ms := some now_ms }) := by
        simp only [queue_base_rebase_sweep, hent, hen, if_true, hrepo, Bool.not_true,
          Bool.false_eq_true, if_false, hcoal]
        rw [if_neg (by omega), if_neg (by omega)]
        rw [if_neg (by simp_all)]
      rw [hval]
      refine inv_insert s.db s.inflight
        { id := "run-auto-rebase-" ++ toString now_ms, workflow_id := "auto-rebase",
          task := "Auto-rebase sweep for base " ++ b, status := "queued",
          entity_id := some b,
          context := { action := some "auto_rebase_sweep", base_id := some b,
                       base_repo_path := some repo, default_branch := some branch,
                       trigger_reason := some reason,
                       upstream_sha := some (sha.getD "") },
          created_at := now, updated_at := now }
        [{ id := "step-" ++ ("run-auto-rebase-" ++ toString now_ms),
           run_id := "run-auto-rebase-" ++ toString now_ms, step_id := "auto-rebase",
           agent_id := "internal/pr", step_index := 0, status := "queued",
           input := { action := some "auto_rebase_sweep", base_id := some b,
                      base_repo_path := some repo, default_branch := some branch,
                      trigger_reason := some reason,
                      upstream_sha := some (sha.getD "") },
           output_text := none, created_at := now, updated_at := now }]
        hiv ?_ ?_ (by simp) rfl ?_ ⟨_, List.mem_cons_self _ _⟩ _ rfl rfl
      · intro r hrm
        have hr := List.any_eq_false.mp hfr'.1 r hrm
        show r.id ≠ "run-auto-rebase-" ++ toString now_ms
        simpa using hr
      · intro t htm u hum
        simp only [List.mem_cons, List.not_mem_nil, or_false] at hum
        subst hum
        have ht := List.any_eq_false.mp hfr'.2 t htm
        show t.id ≠ "step-" ++ ("run-auto-rebase-" ++ toString now_ms)
        simpa using ht
      · intro u hum
        simp only [List.mem_cons, List.not_mem_nil, or_false] at hum
        subst hum
        exact ⟨rfl, rfl⟩

theorem band_left {a b : Bool} (h : (a && b) = true) : a = true := by
  rw [Bool.and_eq_true] at h
  exact h.1

theorem band_right {a b : Bool} (h : (a && b) = true) : b = true := by
  rw [Bool.and_eq_true] at h
  exact h.2





theorem claimRow_id (sid : String) (now : Nat) (t : StepRow) :
    (claimRow sid now t).id = t.id := by
  unfold claimRow; split <;> rfl

theorem claimRow_run_id (sid : String) (now : Nat) (t : StepRow) :
    (claimRow sid now t).run_id = t.run_id := by
  unfold claimRow; split <;> rfl

theorem claimRunRow_id (rid : String) (now : Nat) (r : RunRow) :
    (claimRunRow rid now r).id = r.id := by
  unfold claimRunRow; split <;> rfl

theorem doneRow_id (sid out : String) (now : Nat) (t : StepRow) :
    (doneRow sid out now t).id = t.id := by
  unfold doneRow; split <;> rfl

theorem doneRow_run_id (sid out : String) (now : Nat) (t : StepRow) :
    (doneRow sid out now t).run_id = t.run_id := by
  unfold doneRow; split <;> rfl

theorem setRunStatus_id (rid st' : String) (now : Nat) (r : RunRow) :
    (setRunStatus rid st' now r).id = r.id := by
  unfold setRunStatus; split <;> rfl

/-- A claim cycle preserves the invariant. -/
theorem inv_claim (s : Sys) (now : Nat) (now_ms : Int) (h : Inv s) :
    Inv ⟨(claim_next_step s.db now now_ms).2, (claim_next_step s.db now now_ms).1⟩ := by
  have hiv : Inv ⟨s.db, s.inflight⟩ := h
  rw [inv_def] at hiv
  obtain ⟨h1, h2, h3, h4, h5, h6⟩ := hiv
  cases hsel : selectStep s.db with
  | none =>
    have hcl : claim_next_step s.db now now_ms = (none, s.db) := by
      unfold claim_next_step
      rw [hsel]
    rw [hcl]
    rw [inv_def]
    exact ⟨h1, h2, h3, h4, h5, fun p hp => absurd hp (by simp)⟩
  | some st =>
    have hmem0 : st ∈ s.db.steps.filter (runnable s.db) := by
      rcases foldl_pickEarlier_mem s.db (s.db.steps.filter (runnable s.db)) none st hsel
        with hm | hm
      · exact hm
      · exact absurd hm (by simp)
    have hstep : st ∈ s.db.steps := (List.mem_filter.mp hmem0).1
    have hrun : runnable s.db st = true := (List.mem_filter.mp hmem0).2
    rw [runnable, Bool.and_eq_true] at hrun
    obtain ⟨hrun', hnorun⟩ := hrun
    rw [Bool.and_eq_true] at hrun'
    obtain ⟨hrun'', hearlier⟩ := hrun'
    rw [Bool.and_eq_true] at hrun''
    obtain ⟨hqp, hfound⟩ := hrun''
    cases hf : findRun s.db st.run_id with
    | none =>
      rw [hf] at hfound
      exact absurd hfound (by decide)
    | some r0 =>
    rw [hf] at hfound
    have hr0stat : (r0.status == "queued" || r0.status == "running") = true := hfound
    have hr0mem : r0 ∈ s.db.runs := List.mem_of_find?_eq_some hf
    have hr0id : r0.id = st.run_id := by simpa using (List.find?_eq_some.mp hf).1
    have hcl : claim_next_step s.db now now_ms =
        (some { step_row_id := st.id, run_id := st.run_id, step_id := st.step_id,
                agent_id := st.agent_id,
                task := (match findRun s.db st.run_id with | some r => r.task | none => ""),
                context := (match findRun s.db st.run_id with
                            | some r => r.context | none => {}) },
         { s.db with
           steps := s.db.steps.map (claimRow st.id now),
           runs := s.db.runs.map (claimRunRow st.run_id now),
           events := s.db.events ++
             [{ ts_ms := now_ms, kind := "step.running", entity_id := some st.id,
                payload := { run_id := some st.run_id, step_id := some st.step_id } }] }) := by
      unfold claim_next_step
      rw [hsel]
      dsimp only
      rw [if_pos hqp]
      rfl
    have e1 : (claim_next_step s.db now now_ms).1 =
        some { step_row_id := st.id, run_id := st.run_id, step_id := st.step_id,
               agent_id := st.agent_id,
               task := (match findRun s.db st.run_id with | some r => r.task | none => ""),
               context := (match findRun s.db st.run_id with
                           | some r => r.context | none => {}) } := by
      rw [hcl]
    have e2 : (claim_next_step s.db now now_ms).2.steps =
        s.db.steps.map (claimRow st.id now) := by
      rw [hcl]
    have e3 : (claim_next_step s.db now now_ms).2.runs =
        s.db.runs.map (claimRunRow st.run_id now) := by
      rw [hcl]
    have hstif : (st.id == st.id && (st.status == "queued" || st.status == "pending"))
        = true := by simp [hqp]
    have hstrow : claimRow st.id now st = { st with status := "running", updated_at := now }
        := by
      unfold claimRow
      rw [if_pos hstif]
    rw [inv_def, e1, e2, e3]
    refine ⟨?_, ?_, ?_, ?_, ?_, ?_⟩
    · rw [map_key_map _ _ _ (claimRunRow_id st.run_id now)]
      exact h1
    · rw [map_key_map _ _ _ (claimRow_id st.id now)]
      exact h2
    · intro t' ht'
      obtain ⟨t, ht, rfl⟩ := List.mem_map.mp ht'
      unfold claimRow
      split
      · exact Or.inr (Or.inl rfl)
      · exact h3 t ht
    · intro rid
      by_cases hr : st.run_id = rid
      · subst hr
        have hzero : (s.db.steps.filter
            (fun u => u.run_id == st.run_id && u.status == "running")).length = 0 := by
          rw [List.length_eq_zero]
          apply List.filter_eq_nil_iff.mpr
          intro u hu hP
          rw [noRunningInRun, Bool.not_eq_true', List.any_eq_false] at hnorun
          exact hnorun u hu hP
        have hone : (s.db.steps.filter (fun u => u.id == st.id)).length ≤ 1 :=
          length_filter_key_le_one s.db.steps (fun u => u.id) h2 st.id
        have hle := length_filter_map_le_add s.db.steps (claimRow st.id now)
          (fun u => u.run_id == st.run_id && u.status == "running")
          (fun u => u.id == st.id)
          (by
            intro t _ hP
            unfold claimRow at hP
            revert hP
            split
            · rename_i hc
              intro _
              exact Or.inr (band_left hc)
            · intro hP
              exact Or.inl hP)
        rw [hzero] at hle
        exact le_trans hle (by simpa using hone)
      · refine le_trans (length_filter_map_le s.db.steps (claimRow st.id now)
          (fun u => u.run_id == rid && u.status == "running") ?_) (h4 rid)
        intro t ht hP
        unfold claimRow at hP
        revert hP
        split
        · rename_i hc
          intro hP
          exfalso
          have hid : t.id = st.id := by simpa using band_left hc
          have hts : t = st := List.inj_on_of_nodup_map h2 ht hstep hid
          have hrid : t.run_id = rid := by simpa using band_left hP
          rw [hts] at hrid
          exact hr hrid
        · exact id
    · intro r' hr'
      obtain ⟨r, hr, rfl⟩ := List.mem_map.mp hr'
      by_cases hc : (r.id == st.run_id && r.status == "queued") = true
      · have hcrow : claimRunRow st.run_id now r =
            { r with status := "running", updated_at := now } := by
          unfold claimRunRow
          rw [if_pos hc]
        rw [hcrow]
        constructor
        · intro hdone
          have hdone2 : "running" = "done" := hdone
          exact absurd hdone2 (by decide)
        · intro hall
          exfalso
          have hcid : r.id = st.run_id := by simpa using band_left hc
          have hthis := hall _ (List.mem_map_of_mem (claimRow st.id now) hstep)
          rw [hstrow] at hthis
          have hdone2 : "running" = "done" := hthis hcid.symm
          exact absurd hdone2 (by decide)
      · have hcrow : claimRunRow st.run_id now r = r := by
          unfold claimRunRow
          rw [if_neg hc]
        rw [hcrow]
        by_cases hrid : st.run_id = r.id
        · have hrr0 : r = r0 := List.inj_on_of_nodup_map h1 hr hr0mem (hrid ▸ hr0id).symm
          have hrq : r.status ≠ "queued" := by
            intro hq
            apply hc
            rw [Bool.and_eq_true]
            exact ⟨by simp [hrid.symm], by simp [hq]⟩
          have hrstat : r.status = "running" := by
            rcases Bool.or_eq_true_iff.mp hr0stat with hx | hx
            · exfalso
              apply hrq
              rw [hrr0]
              simpa using hx
            · rw [hrr0]
              simpa using hx
          constructor
          · intro hdone
            rw [hrstat] at hdone
            exact absurd hdone (by decide)
          · intro hall
            exfalso
            have hthis := hall _ (List.mem_map_of_mem (claimRow st.id now) hstep)
            rw [hstrow] at hthis
            have hdone2 : "running" = "done" := hthis hrid
            exact absurd hdone2 (by decide)
        · have hfpt : ∀ t : StepRow, claimRow st.id now t = t ∨
              ((t.id = st.id ∨ t.run_id = st.run_id) ∧
               (claimRow st.id now t).run_id = t.run_id) := by
            intro t
            unfold claimRow
            split
            · rename_i hc2
              exact Or.inr ⟨Or.inl (by simpa using band_left hc2), rfl⟩
            · exact Or.inl rfl
          have hbody := done_body_map s.db.steps (claimRow st.id now)
            st.id r.id st.run_id h2 st hstep rfl rfl hrid hfpt
          rw [hbody]
          exact h5 r hr
    · intro p hp
      rw [Option.some.injEq] at hp
      refine ⟨claimRow st.id now st, List.mem_map_of_mem (claimRow st.id now) hstep, ?_⟩
      rw [hstrow, ← hp]
      exact ⟨rfl, rfl⟩

/-- Finalizing the claimed step as done preserves the invariant. -/
theorem inv_finishDone (s : Sys) (p : PendingStep) (out : String) (now : Nat) (now_ms : Int)
    (h : Inv s) (hin : s.inflight = some p) :
    Inv ⟨finalize_step_done s.db p out now now_ms, none⟩ := by
  have hiv : Inv ⟨s.db, s.inflight⟩ := h
  rw [inv_def] at hiv
  obtain ⟨h1, h2, h3, h4, h5, h6⟩ := hiv
  obtain ⟨srow, hsm, hsid, hsrun⟩ := h6 p hin
  have hfpt : ∀ t : StepRow, doneRow p.step_row_id out now t = t ∨
      ((t.id = p.step_row_id ∨ t.run_id = p.run_id) ∧
       (doneRow p.step_row_id out now t).run_id = t.run_id) := by
    intro t
    unfold doneRow
    split
    · rename_i hc2
      exact Or.inr ⟨Or.inl (by simpa using hc2), rfl⟩
    · exact Or.inl rfl
  by_cases hrem : ((s.db.steps.map (fun t =>
      if t.id == p.step_row_id
      then { t with status := "done", output_text := some out, updated_at := now }
      else t)).filter (fun t => t.run_id == p.run_id && !(t.status == "done"))).length = 0
  case pos =>
    have e2 : (finalize_step_done s.db p out now now_ms).steps =
        s.db.steps.map (doneRow p.step_row_id out now) := by
      simp only [finalize_step_done]
      rw [if_pos (by rw [beq_iff_eq]; exact hrem)]
      rfl
    have e3 : (finalize_step_done s.db p out now now_ms).runs =
        s.db.runs.map (setRunStatus p.run_id "done" now) := by
      simp only [finalize_step_done]
      rw [if_pos (by rw [beq_iff_eq]; exact hrem)]
      rfl
    have hrem2 : ((s.db.steps.map (doneRow p.step_row_id out now)).filter
        (fun t => t.run_id == p.run_id && !(t.status == "done"))).length = 0 := hrem
    rw [inv_def, e2, e3]
    refine ⟨?_, ?_, ?_, ?_, ?_, ?_⟩
    · rw [map_key_map _ _ _ (setRunStatus_id p.run_id "done" now)]
      exact h1
    · rw [map_key_map _ _ _ (doneRow_id p.step_row_id out now)]
      exact h2
    · intro t' ht'
      obtain ⟨t, ht, rfl⟩ := List.mem_map.mp ht'
      unfold doneRow
      split
      · exact Or.inr (Or.inr (Or.inl rfl))
      · exact h3 t ht
    · intro rid
      refine le_trans (length_filter_map_le s.db.steps (doneRow p.step_row_id out now)
        (fun u => u.run_id == rid && u.status == "running") ?_) (h4 rid)
      intro t ht hP
      unfold doneRow at hP
      revert hP
      split
      · intro hP
        have hbad : ("done" == "running") = true := band_right hP
        exact absurd hbad (by decide)
      · exact id
    · intro r' hr'
      obtain ⟨r, hr, rfl⟩ := List.mem_map.mp hr'
      by_cases hcr : (r.id == p.run_id) = true
      · have hrow : setRunStatus p.run_id "done" now r =
            { r with status := "done", updated_at := now } := by
          unfold setRunStatus
          rw [if_pos hcr]
        rw [hrow]
        have hrid : r.id = p.run_id := by simpa using hcr
        constructor
        · intro _ t' ht' hrunid
          have hnil := List.length_eq_zero.mp hrem2
          have hforall := List.filter_eq_nil_iff.mp hnil t' ht'
          by_cases hd : t'.status = "done"
          · exact hd
          · exfalso
            apply hforall
            rw [Bool.and_eq_true]
            constructor
            · simp [hrunid, hrid]
            · simp [hd]
        · intro _
          rfl
      · have hrow : setRunStatus p.run_id "done" now r = r := by
          unfold setRunStatus
          rw [if_neg hcr]
        rw [hrow]
        have hrid : r.id ≠ p.run_id := by simpa using hcr
        have hbody := done_body_map s.db.steps (doneRow p.step_row_id out now)
          p.step_row_id r.id p.run_id h2 srow hsm hsid hsrun (fun he => hrid he.symm) hfpt
        rw [hbody]
        exact h5 r hr
    · intro p' hp'
      exact absurd hp' (by simp)
  case neg =>
    have e2 : (finalize_step_done s.db p out now now_ms).steps =
        s.db.steps.map (doneRow p.step_row_id out now) := by
      simp only [finalize_step_done]
      rw [if_neg (by rw [beq_iff_eq]; exact hrem)]
      rfl
    have e3 : (finalize_step_done s.db p out now now_ms).runs = s.db.runs := by
      simp only [finalize_step_done]
      rw [if_neg (by rw [beq_iff_eq]; exact hrem)]
    rw [inv_def, e2, e3]
    refine ⟨h1, ?_, ?_, ?_, ?_, ?_⟩
    · rw [map_key_map _ _ _ (doneRow_id p.step_row_id out now)]
      exact h2
    · intro t' ht'
      obtain ⟨t, ht, rfl⟩ := List.mem_map.mp ht'
      unfold doneRow
      split
      · exact Or.inr (Or.inr (Or.inl rfl))
      · exact h3 t ht
    · intro rid
      refine le_trans (length_filter_map_le s.db.steps (doneRow p.step_row_id out now)
        (fun u => u.run_id == rid && u.status == "running") ?_) (h4 rid)
      intro t ht hP
      unfold doneRow at hP
      revert hP
      split
      · intro hP
        have hbad : ("done" == "running") = true := band_right hP
        exact absurd hbad (by decide)
      · exact id
    · intro r hr
      by_cases hcr : r.id = p.run_id
      · constructor
        · intro hdone
          exfalso
          have hall := (h5 r hr).mp hdone
          apply hrem
          show ((s.db.steps.map (doneRow p.step_row_id out now)).filter
            (fun t => t.run_id == p.run_id && !(t.status == "done"))).length = 0
          rw [List.length_eq_zero]
          apply List.filter_eq_nil_iff.mpr
          intro x hx
          obtain ⟨t, ht, rfl⟩ := List.mem_map.mp hx
          unfold doneRow
          split
          · intro hP
            have hbad : (!("done" == "done")) = true := band_right hP
            exact absurd hbad (by decide)
          · intro hP
            have htrid : t.run_id = p.run_id := by simpa using band_left hP
            have hdone2 := hall t ht (by rw [htrid, hcr])
            rw [hdone2] at hP
            have hbad : (!("done" == "done")) = true := band_right hP
            exact absurd hbad (by decide)
        · intro hall
          exfalso
          have hne : (s.db.steps.map (doneRow p.step_row_id out now)).filter
              (fun t => t.run_id == p.run_id && !(t.status == "done")) ≠ [] := by
            intro hnil
            apply hrem
            show ((s.db.steps.map (doneRow p.step_row_id out now)).filter
              (fun t => t.run_id == p.run_id && !(t.status == "done"))).length = 0
            rw [hnil]
            rfl
          obtain ⟨x, hx⟩ := List.exists_mem_of_ne_nil _ hne
          have hxm := List.mem_filter.mp hx
          have hxrid : x.run_id = p.run_id := by simpa using band_left hxm.2
          have hxdone := hall x hxm.1 (by rw [hxrid, hcr])
          have hxne := band_right hxm.2
          rw [hxdone] at hxne
          have hbad : (!("done" == "done")) = true := hxne
          exact absurd hbad (by decide)
      · have hbody := done_body_map s.db.steps (doneRow p.step_row_id out now)
          p.step_row_id r.id p.run_id h2 srow hsm hsid hsrun (fun he => hcr he.symm) hfpt
        rw [hbody]
        exact h5 r hr
    · intro p' hp'
      exact absurd hp' (by simp)

theorem requeueFromIdx_id (rid : String) (idx now : Nat) (t : StepRow) :
    (requeueFromIdx rid idx now t).id = t.id := by
  unfold requeueFromIdx; split <;> rfl

theorem requeueImplement_id (rid : String) (now : Nat) (t : StepRow) :
    (requeueImplement rid now t).id = t.id := by
  unfold requeueImplement; split <;> rfl

theorem requeueImplement_run_id (rid : String) (now : Nat) (t : StepRow) :
    (requeueImplement rid now t).run_id = t.run_id := by
  unfold requeueImplement; split <;> rfl

/-- The status written by the test-failure rollback chain is the old one,
`failed`, or `queued`. -/
theorem requeue_chain_status (rid sid err : String) (idx now : Nat) (t : StepRow) :
    ((requeueImplement rid now (requeueFromIdx rid idx now
        (failOwn sid err now t))).status = t.status ∨
     (requeueImplement rid now (requeueFromIdx rid idx now
        (failOwn sid err now t))).status = "failed" ∨
     (requeueImplement rid now (requeueFromIdx rid idx now
        (failOwn sid err now t))).status = "queued") := by
  unfold failOwn requeueFromIdx requeueImplement
  split <;> split <;> split <;> simp

/-- Finalizing the claimed step as failed preserves the invariant. -/
theorem inv_finishFailed (s : Sys) (p : PendingStep) (err : String) (now : Nat)
    (now_ms : Int) (h : Inv s) (hin : s.inflight = some p) :
    Inv ⟨finalize_step_failed s.db p err now now_ms, none⟩ := by
  have hiv : Inv ⟨s.db, s.inflight⟩ := h
  rw [inv_def] at hiv
  obtain ⟨h1, h2, h3, h4, h5, h6⟩ := hiv
  obtain ⟨srow, hsm, hsid, hsrun⟩ := h6 p hin
  by_cases hreq : (p.step_id == "test" &&
      decide (countEvents s.db "run.requeued.test_failed" p.run_id < max_test_retries)) = true
  case pos =>
    have hrow : s.db.steps.find? (fun t => t.id == p.step_row_id) = some srow :=
      find?_key_of_mem s.db.steps (fun u => u.id) p.step_row_id h2 srow hsm hsid
    have e2 := finalize_failed_steps_requeue s.db p err now now_ms srow hreq hrow
    have e3 : (finalize_step_failed s.db p err now now_ms).runs =
        s.db.runs.map (setRunStatus p.run_id "running" now) := by
      rw [finalize_failed_runs s.db p err now now_ms, if_pos hreq]
      rfl
    rw [inv_def, e2, e3]
    refine ⟨?_, ?_, ?_, ?_, ?_, ?_⟩
    · rw [map_key_map _ _ _ (setRunStatus_id p.run_id "running" now)]
      exact h1
    · rw [map_key_map _ _ _ (requeueImplement_id p.run_id now),
        map_key_map _ _ _ (requeueFromIdx_id p.run_id srow.step_index now),
        map_key_map _ _ _ (failOwn_id p.step_row_id err now)]
      exact h2
    · intro t' ht'
      obtain ⟨u2, hu2, rfl⟩ := List.mem_map.mp ht'
      obtain ⟨u1, hu1, rfl⟩ := List.mem_map.mp hu2
      obtain ⟨t, ht, rfl⟩ := List.mem_map.mp hu1
      rcases requeue_chain_status p.run_id p.step_row_id err srow.step_index now t
        with hx | hx | hx
      · rw [hx]
        exact h3 t ht
      · exact Or.inr (Or.inr (Or.inr hx))
      · exact Or.inl hx
    · intro rid
      refine le_trans (length_filter_map_le _ (requeueImplement p.run_id now)
        (fun u => u.run_id == rid && u.status == "running") ?_)
        (le_trans (length_filter_map_le _ (requeueFromIdx p.run_id srow.step_index now)
          (fun u => u.run_id == rid && u.status == "running") ?_)
          (le_trans (length_filter_map_le _ (failOwn p.step_row_id err now)
            (fun u => u.run_id == rid && u.status == "running") ?_) (h4 rid)))
      · intro t _ hP
        unfold requeueImplement at hP
        revert hP
        split
        · intro hP
          have hbad : ("queued" == "running") = true := band_right hP
          exact absurd hbad (by decide)
        · exact id
      · intro t _ hP
        unfold requeueFromIdx at hP
        revert hP
        split
        · intro hP
          have hbad : ("queued" == "running") = true := band_right hP
          exact absurd hbad (by decide)
        · exact id
      · intro t _ hP
        unfold failOwn at hP
        revert hP
        split
        · intro hP
          have hbad : ("failed" == "running") = true := band_right hP
          exact absurd hbad (by decide)
        · exact id
    · intro r' hr'
      obtain ⟨r, hr, rfl⟩ := List.mem_map.mp hr'
      by_cases hcr : (r.id == p.run_id) = true
      · have hrrow : setRunStatus p.run_id "running" now r =
            { r with status := "running", updated_at := now } := by
          unfold setRunStatus
          rw [if_pos hcr]
        rw [hrrow]
        have hrid : r.id = p.run_id := by simpa using hcr
        constructor
        · intro hdone
          have hdone2 : "running" = "done" := hdone
          exact absurd hdone2 (by decide)
        · intro hall
          exfalso
          have hchain := requeue_chain_tail p.run_id p.step_row_id err srow.step_index now
            srow hsrun (le_refl srow.step_index)
          have hmem3 : requeueImplement p.run_id now (requeueFromIdx p.run_id
              srow.step_index now (failOwn p.step_row_id err now srow)) ∈
              ((s.db.steps.map (failOwn p.step_row_id err now)).map
                (requeueFromIdx p.run_id srow.step_index now)).map
                (requeueImplement p.run_id now) :=
            List.mem_map_of_mem _ (List.mem_map_of_mem _ (List.mem_map_of_mem _ hsm))
          have hchainrun : (requeueImplement p.run_id now (requeueFromIdx p.run_id
              srow.step_index now (failOwn p.step_row_id err now srow))).run_id =
              p.run_id := by
            rw [requeueImplement_run_id, requeueFromIdx_run_id, failOwn_run_id]
            exact hsrun
          have hthis := hall _ hmem3 (hchainrun.trans hrid.symm)
          rw [hchain.1] at hthis
          exact absurd hthis (by decide)
      · have hrrow : setRunStatus p.run_id "running" now r = r := by
          unfold setRunStatus
          rw [if_neg hcr]
        rw [hrrow]
        have hrid : r.id ≠ p.run_id := by simpa using hcr
        rw [List.map_map, List.map_map]
        have hfpt : ∀ t : StepRow,
            ((requeueImplement p.run_id now ∘ requeueFromIdx p.run_id srow.step_index now) ∘
              failOwn p.step_row_id err now) t = t ∨
            ((t.id = p.step_row_id ∨ t.run_id = p.run_id) ∧
             (((requeueImplement p.run_id now ∘
                requeueFromIdx p.run_id srow.step_index now) ∘
               failOwn p.step_row_id err now) t).run_id = t.run_id) := by
          intro t
          by_cases hc2 : t.id = p.step_row_id ∨ t.run_id = p.run_id
          · right
            refine ⟨hc2, ?_⟩
            simp only [Function.comp_apply]
            rw [requeueImplement_run_id, requeueFromIdx_run_id, failOwn_run_id]
          · push_neg at hc2
            left
            simp only [Function.comp_apply]
            have ef1 : failOwn p.step_row_id err now t = t := by
              unfold failOwn
              rw [if_neg (by simp [hc2.1])]
            rw [ef1]
            have ef2 : requeueFromIdx p.run_id srow.step_index now t = t := by
              unfold requeueFromIdx
              rw [if_neg (by simp [hc2.2])]
            rw [ef2]
            unfold requeueImplement
            rw [if_neg (by simp [hc2.2])]
        have hbody := done_body_map s.db.steps
          ((requeueImplement p.run_id now ∘ requeueFromIdx p.run_id srow.step_index now) ∘
            failOwn p.step_row_id err now)
          p.step_row_id r.id p.run_id h2 srow hsm hsid hsrun (fun he => hrid he.symm) hfpt
        rw [hbody]
        exact h5 r hr
    · intro p' hp'
      exact absurd hp' (by simp)
  case neg =>
    have e2 := finalize_failed_steps_plain s.db p err now now_ms (Bool.eq_false_iff.mpr hreq)
    have e3 : (finalize_step_failed s.db p err now now_ms).runs =
        s.db.runs.map (setRunStatus p.run_id "failed" now) := by
      rw [finalize_failed_runs s.db p err now now_ms, if_neg hreq]
      rfl
    rw [inv_def, e2, e3]
    refine ⟨?_, ?_, ?_, ?_, ?_, ?_⟩
    · rw [map_key_map _ _ _ (setRunStatus_id p.run_id "failed" now)]
      exact h1
    · rw [map_key_map _ _ _ (failOwn_id p.step_row_id err now)]
      exact h2
    · intro t' ht'
      obtain ⟨t, ht, rfl⟩ := List.mem_map.mp ht'
      unfold failOwn
      split
      · exact Or.inr (Or.inr (Or.inr rfl))
      · exact h3 t ht
    · intro rid
      refine le_trans (length_filter_map_le s.db.steps (failOwn p.step_row_id err now)
        (fun u => u.run_id == rid && u.status == "running") ?_) (h4 rid)
      intro t _ hP
      unfold failOwn at hP
      revert hP
      split
      · intro hP
        have hbad : ("failed" == "running") = true := band_right hP
        exact absurd hbad (by decide)
      · exact id
    · intro r' hr'
      obtain ⟨r, hr, rfl⟩ := List.mem_map.mp hr'
      by_cases hcr : (r.id == p.run_id) = true
      · have hrrow : setRunStatus p.run_id "failed" now r =
            { r with status := "failed", updated_at := now } := by
          unfold setRunStatus
          rw [if_pos hcr]
        rw [hrrow]
        have hrid : r.id = p.run_id := by simpa using hcr
        constructor
        · intro hdone
          have hdone2 : "failed" = "done" := hdone
          exact absurd hdone2 (by decide)
        · intro hall
          exfalso
          have hfeq : failOwn p.step_row_id err now srow =
              { srow with
                  status := "failed"
                  output_text := some err
                  updated_at := now } := by
            unfold failOwn
            rw [if_pos (by simp [hsid])]
          have hfrun : (failOwn p.step_row_id err now srow).run_id = p.run_id := by
            rw [failOwn_run_id]
            exact hsrun
          have hthis := hall _ (List.mem_map_of_mem (failOwn p.step_row_id err now) hsm)
            (hfrun.trans hrid.symm)
          rw [hfeq] at hthis
          have hdone2 : "failed" = "done" := hthis
          exact absurd hdone2 (by decide)
      · have hrrow : setRunStatus p.run_id "failed" now r = r := by
          unfold setRunStatus
          rw [if_neg hcr]
        rw [hrrow]
        have hrid : r.id ≠ p.run_id := by simpa using hcr
        have hfpt : ∀ t : StepRow, failOwn p.step_row_id err now t = t ∨
            ((t.id = p.step_row_id ∨ t.run_id = p.run_id) ∧
             (failOwn p.step_row_id err now t).run_id = t.run_id) := by
          intro t
          unfold failOwn
          split
          · rename_i hc2
            exact Or.inr ⟨Or.inl (by simpa using hc2), rfl⟩
          · exact Or.inl rfl
        have hbody := done_body_map s.db.steps (failOwn p.step_row_id err now)
          p.step_row_id r.id p.run_id h2 srow hsm hsid hsrun (fun he => hrid he.symm) hfpt
        rw [hbody]
        exact h5 r hr
    · intro p' hp'
      exact absurd hp' (by simp)

theorem reemitPhase1_map_ids (S : List StepRow) (rid : String) (now : Nat) :
    (reemitPhase1 S rid now).map (fun u => u.id) = S.map (fun u => u.id) := by
  unfold reemitPhase1
  split
  · exact map_key_map _ _ _ (fun a => by split <;> rfl)
  · exact map_key_map _ _ _ (fun a => by split <;> rfl)

theorem reemitPhase2_map_ids (S : List StepRow) (rid : String) (now : Nat) :
    (reemitPhase2 S rid now).map (fun u => u.id) = S.map (fun u => u.id) := by
  unfold reemitPhase2
  split
  · exact map_key_map _ _ _ (fun a => by split <;> rfl)
  · rfl

theorem reemitPhase1_map_keys (S : List StepRow) (rid : String) (now : Nat) :
    (reemitPhase1 S rid now).map (fun u => (u.id, u.run_id)) =
      S.map (fun u => (u.id, u.run_id)) := by
  unfold reemitPhase1
  split
  · exact map_key_map _ _ _ (fun a => by split <;> rfl)
  · exact map_key_map _ _ _ (fun a => by split <;> rfl)

theorem reemitPhase2_map_keys (S : List StepRow) (rid : String) (now : Nat) :
    (reemitPhase2 S rid now).map (fun u => (u.id, u.run_id)) =
      S.map (fun u => (u.id, u.run_id)) := by
  unfold reemitPhase2
  split
  · exact map_key_map _ _ _ (fun a => by split <;> rfl)
  · rfl

theorem reemitRun_map_ids (ents : List EntityRow) (scope : Option String) (now : Nat)
    (acc : ReemitAcc) (run : RunRow) :
    ((reemitRun ents scope now acc run).steps.map (fun u => u.id) =
      acc.steps.map (fun u => u.id)) ∧
    ((reemitRun ents scope now acc run).runs.map (fun r => r.id) =
      acc.runs.map (fun r => r.id)) ∧
    ((reemitRun ents scope now acc run).steps.map (fun u => (u.id, u.run_id)) =
      acc.steps.map (fun u => (u.id, u.run_id))) := by
  cases hin : inScopeRun ents scope run with
  | false =>
    rw [reemitRun_out _ _ _ _ _ hin]
    exact ⟨rfl, rfl, rfl⟩
  | true =>
    refine ⟨?_, ?_, ?_⟩
    · rw [reemitRun_steps _ _ _ _ _ hin, reemitPhase2_map_ids, reemitPhase1_map_ids]
    · rw [reemitRun_runs _ _ _ _ _ hin]
      split
      · exact map_key_map _ _ _ (fun a => by split <;> rfl)
      · rfl
    · rw [reemitRun_steps _ _ _ _ _ hin, reemitPhase2_map_keys, reemitPhase1_map_keys]

theorem foldl_reemit_map_ids (ents : List EntityRow) (scope : Option String) (now : Nat) :
    ∀ (L : List RunRow) (acc : ReemitAcc),
      ((L.foldl (reemitRun ents scope now) acc).steps.map (fun u => u.id) =
        acc.steps.map (fun u => u.id)) ∧
      ((L.foldl (reemitRun ents scope now) acc).runs.map (fun r => r.id) =
        acc.runs.map (fun r => r.id)) ∧
      ((L.foldl (reemitRun ents scope now) acc).steps.map (fun u => (u.id, u.run_id)) =
        acc.steps.map (fun u => (u.id, u.run_id))) := by
  intro L
  induction L with
  | nil => intro acc; exact ⟨rfl, rfl, rfl⟩
  | cons u us ih =>
    intro acc
    rw [List.foldl_cons]
    have ha := ih (reemitRun ents scope now acc u)
    have hb := reemitRun_map_ids ents scope now acc u
    exact ⟨ha.1.trans hb.1, ha.2.1.trans hb.2.1, ha.2.2.trans hb.2.2⟩

theorem reemitPhase1_mem (S : List StepRow) (rid : String) (now : Nat) :
    ∀ x ∈ reemitPhase1 S rid now, ∃ t ∈ S,
      (x.status = t.status ∨ x.status = "queued") ∧ x.run_id = t.run_id := by
  unfold reemitPhase1
  split <;>
  · intro x hx
    obtain ⟨t, ht, rfl⟩ := List.mem_map.mp hx
    refine ⟨t, ht, ?_, ?_⟩
    · split
      · exact Or.inr rfl
      · exact Or.inl rfl
    · split <;> rfl

theorem reemitPhase2_mem (S : List StepRow) (rid : String) (now : Nat) :
    ∀ x ∈ reemitPhase2 S rid now, ∃ t ∈ S,
      (x.status = t.status ∨ x.status = "queued") ∧ x.run_id = t.run_id := by
  unfold reemitPhase2
  split
  · intro x hx
    obtain ⟨t, ht, rfl⟩ := List.mem_map.mp hx
    refine ⟨t, ht, ?_, ?_⟩
    · split
      · exact Or.inr rfl
      · exact Or.inl rfl
    · split <;> rfl
  · intro x hx
    exact ⟨x, hx, Or.inl rfl, rfl⟩

theorem reemitRun_steps_mem (ents : List EntityRow) (scope : Option String) (now : Nat)
    (acc : ReemitAcc) (run : RunRow) :
    ∀ x ∈ (reemitRun ents scope now acc run).steps, ∃ t ∈ acc.steps,
      (x.status = t.status ∨ x.status = "queued") ∧ x.run_id = t.run_id := by
  intro x hx
  cases hin : inScopeRun ents scope run with
  | false =>
    rw [reemitRun_out _ _ _ _ _ hin] at hx
    exact ⟨x, hx, Or.inl rfl, rfl⟩
  | true =>
    rw [reemitRun_steps _ _ _ _ _ hin] at hx
    obtain ⟨u, hu, h2a, h2b⟩ := reemitPhase2_mem _ _ _ x hx
    obtain ⟨t, ht, h1a, h1b⟩ := reemitPhase1_mem _ _ _ u hu
    refine ⟨t, ht, ?_, h2b.trans h1b⟩
    rcases h2a with hx2 | hx2
    · rcases h1a with hx1 | hx1
      · exact Or.inl (hx2.trans hx1)
      · exact Or.inr (hx2.trans hx1)
    · exact Or.inr hx2

theorem foldl_reemit_steps_mem (ents : List EntityRow) (scope : Option String) (now : Nat) :
    ∀ (L : List RunRow) (acc : ReemitAcc),
      ∀ x ∈ (L.foldl (reemitRun ents scope now) acc).steps, ∃ t ∈ acc.steps,
        (x.status = t.status ∨ x.status = "queued") ∧ x.run_id = t.run_id := by
  intro L
  induction L with
  | nil => intro acc x hx; exact ⟨x, hx, Or.inl rfl, rfl⟩
  | cons u us ih =>
    intro acc x hx
    rw [List.foldl_cons] at hx
    obtain ⟨y, hy, hya, hyb⟩ := ih (reemitRun ents scope now acc u) x hx
    obtain ⟨t, ht, hta, htb⟩ := reemitRun_steps_mem ents scope now acc u y hy
    refine ⟨t, ht, ?_, hyb.trans htb⟩
    rcases hya with hx2 | hx2
    · rcases hta with hx1 | hx1
      · exact Or.inl (hx2.trans hx1)
      · exact Or.inr (hx2.trans hx1)
    · exact Or.inr hx2

theorem reemitPhase1_count_le (S : List StepRow) (rid : String) (now : Nat) (X : String) :
    ((reemitPhase1 S rid now).filter
      (fun u => u.run_id == X && u.status == "running")).length ≤
    (S.filter (fun u => u.run_id == X && u.status == "running")).length := by
  unfold reemitPhase1
  split <;>
  · refine length_filter_map_le S _ _ ?_
    intro t _ hP
    revert hP
    split
    · intro hP
      have hbad : ("queued" == "running") = true := band_right hP
      exact absurd hbad (by decide)
    · exact id

theorem reemitPhase2_count_le (S : List StepRow) (rid : String) (now : Nat) (X : String) :
    ((reemitPhase2 S rid now).filter
      (fun u => u.run_id == X && u.status == "running")).length ≤
    (S.filter (fun u => u.run_id == X && u.status == "running")).length := by
  unfold reemitPhase2
  split
  · refine length_filter_map_le S _ _ ?_
    intro t _ hP
    revert hP
    split
    · intro hP
      have hbad : ("queued" == "running") = true := band_right hP
      exact absurd hbad (by decide)
    · exact id
  · exact le_refl _

theorem reemitRun_count_le (ents : List EntityRow) (scope : Option String) (now : Nat)
    (acc : ReemitAcc) (run : RunRow) (X : String) :
    ((reemitRun ents scope now acc run).steps.filter
      (fun u => u.run_id == X && u.status == "running")).length ≤
    (acc.steps.filter (fun u => u.run_id == X && u.status == "running")).length := by
  cases hin : inScopeRun ents scope run with
  | false =>
    rw [reemitRun_out _ _ _ _ _ hin]
  | true =>
    rw [reemitRun_steps _ _ _ _ _ hin]
    exact le_trans (reemitPhase2_count_le _ _ _ X) (reemitPhase1_count_le _ _ _ X)

theorem foldl_reemit_count_le (ents : List EntityRow) (scope : Option String) (now : Nat)
    (X : String) :
    ∀ (L : List RunRow) (acc : ReemitAcc),
      ((L.foldl (reemitRun ents scope now) acc).steps.filter
        (fun u => u.run_id == X && u.status == "running")).length ≤
      (acc.steps.filter (fun u => u.run_id == X && u.status == "running")).length := by
  intro L
  induction L with
  | nil => intro acc; exact le_refl _
  | cons u us ih =>
    intro acc
    rw [List.foldl_cons]
    exact le_trans (ih (reemitRun ents scope now acc u))
      (reemitRun_count_le ents scope now acc u X)

/-- A re-emit invocation preserves the invariant. -/
theorem inv_reemit (s : Sys) (scope : Option String) (now : Nat) (now_ms : Int)
    (h : Inv s) :
    Inv ⟨(reemit_workers s.db scope now now_ms).2, s.inflight⟩ := by
  have hiv : Inv ⟨s.db, s.inflight⟩ := h
  rw [inv_def] at hiv
  obtain ⟨h1, h2, h3, h4, h5, h6⟩ := hiv
  have hsteps : (reemit_workers s.db scope now now_ms).2.steps =
      ((s.db.runs.filter statusQRF).foldl (reemitRun s.db.entities scope now)
        { steps := s.db.steps, runs := s.db.runs, scanned_runs := 0, queued_steps := 0,
          reset_running_steps := 0, touched_runs := 0 }).steps := rfl
  have hruns : (reemit_workers s.db scope now now_ms).2.runs =
      ((s.db.runs.filter statusQRF).foldl (reemitRun s.db.entities scope now)
        { steps := s.db.steps, runs := s.db.runs, scanned_runs := 0, queued_steps := 0,
          reset_running_steps := 0, touched_runs := 0 }).runs := rfl
  rw [inv_def]
  refine ⟨?_, ?_, ?_, ?_, ?_, ?_⟩
  · rw [hruns,
      (foldl_reemit_map_ids s.db.entities scope now (s.db.runs.filter statusQRF) _).2.1]
    exact h1
  · rw [hsteps,
      (foldl_reemit_map_ids s.db.entities scope now (s.db.runs.filter statusQRF) _).1]
    exact h2
  · intro x hx
    rw [hsteps] at hx
    obtain ⟨t, ht, hxa, _⟩ := foldl_reemit_steps_mem s.db.entities scope now
      (s.db.runs.filter statusQRF) _ x hx
    rcases hxa with he | he
    · rw [he]
      exact h3 t ht
    · rw [he]
      exact Or.inl rfl
  · intro rid
    rw [hsteps]
    exact le_trans (foldl_reemit_count_le s.db.entities scope now rid
      (s.db.runs.filter statusQRF) _) (h4 rid)
  · intro r' hr'
    have hids : (reemit_workers s.db scope now now_ms).2.runs.map (fun r => r.id) =
        s.db.runs.map (fun r => r.id) := by
      rw [hruns]
      exact (foldl_reemit_map_ids s.db.entities scope now (s.db.runs.filter statusQRF) _).2.1
    have hmemid : r'.id ∈ s.db.runs.map (fun r => r.id) := by
      rw [← hids]
      exact List.mem_map_of_mem _ hr'
    obtain ⟨r, hr, hreq⟩ := List.mem_map.mp hmemid
    have hchar := reemit_workers_run_char s.db scope now now_ms h1 r hr
    have hr'mem : r' ∈ runRowsOf (reemit_workers s.db scope now now_ms).2.runs r.id := by
      unfold runRowsOf
      exact List.mem_filter.mpr ⟨hr', by simp [hreq]⟩
    by_cases hscan : scannedBy s.db.entities scope r = true
    case pos =>
      obtain ⟨hrows, hrr⟩ := hchar.1 hscan
      have hq : statusQRF r = true := by
        unfold scannedBy at hscan
        exact band_left hscan
      have hnd := statusQRF_ne_done r hq
      rw [hrr, runRowsOf_self s.db.runs h1 r hr] at hr'mem
      simp only [List.map_cons, List.map_nil, List.mem_singleton] at hr'mem
      have hfn : (if !(r.status == "done")
          then { r with status := "queued", updated_at := now } else r) =
          { r with status := "queued", updated_at := now } := by
        rw [if_pos (by rw [hnd]; rfl)]
      rw [hfn] at hr'mem
      subst hr'mem
      have hrnotdone : r.status ≠ "done" := by
        intro he
        rw [he] at hnd
        exact absurd hnd (by decide)
      have hnotall : ¬ (∀ t ∈ s.db.steps, t.run_id = r.id → t.status = "done") := by
        intro hall
        exact hrnotdone ((h5 r hr).mpr hall)
      push_neg at hnotall
      obtain ⟨t, ht, htr, htnd⟩ := hnotall
      have htmem : t ∈ rowsOf s.db.steps r.id := List.mem_filter.mpr ⟨ht, by simp [htr]⟩
      have himg : reemitRowFn (rowsOf s.db.steps r.id) now t ∈
          rowsOf (reemit_workers s.db scope now now_ms).2.steps r.id := by
        rw [hrows]
        exact List.mem_map_of_mem _ htmem
      have hfacts := reemitRowFn_status (rowsOf s.db.steps r.id) now t
      constructor
      · intro hdone
        have hdone2 : "queued" = "done" := hdone
        exact absurd hdone2 (by decide)
      · intro hall
        exfalso
        have himg2 := rowsOf_mem _ _ _ himg
        have hd := hall _ himg2.1 himg2.2
        rcases hfacts.1 with hst | hst
        · rw [hst] at hd
          exact htnd hd
        · rw [hst] at hd
          exact absurd hd (by decide)
    case neg =>
      obtain ⟨hrows, hrr⟩ := hchar.2 (Bool.eq_false_iff.mpr hscan)
      rw [hrr, runRowsOf_self s.db.runs h1 r hr] at hr'mem
      simp only [List.mem_singleton] at hr'mem
      subst hr'mem
      constructor
      · intro hdone
        intro x hx hxr
        have hx2 : x ∈ rowsOf (reemit_workers s.db scope now now_ms).2.steps r'.id :=
          List.mem_filter.mpr ⟨hx, by simp [hxr]⟩
        rw [hrows] at hx2
        have hx3 := rowsOf_mem _ _ _ hx2
        exact ((h5 r' hr).mp hdone) x hx3.1 hx3.2
      · intro hall
        refine (h5 r' hr).mpr ?_
        intro t ht htr
        have htm : t ∈ rowsOf s.db.steps r'.id := List.mem_filter.mpr ⟨ht, by simp [htr]⟩
        rw [← hrows] at htm
        have ht2 := rowsOf_mem _ _ _ htm
        exact hall t ht2.1 ht2.2
  · intro p' hp'
    obtain ⟨srow, hsm, hsid, hsrun⟩ := h6 p' hp'
    have hpairs : (reemit_workers s.db scope now now_ms).2.steps.map
        (fun u => (u.id, u.run_id)) = s.db.steps.map (fun u => (u.id, u.run_id)) := by
      rw [hsteps]
      exact (foldl_reemit_map_ids s.db.entities scope now (s.db.runs.filter statusQRF) _).2.2
    have hpair : (srow.id, srow.run_id) ∈
        (reemit_workers s.db scope now now_ms).2.steps.map (fun u => (u.id, u.run_id)) := by
      rw [hpairs]
      exact List.mem_map_of_mem _ hsm
    obtain ⟨x, hx, hxe⟩ := List.mem_map.mp hpair
    rw [Prod.mk.injEq] at hxe
    exact ⟨x, hx, hxe.1.trans hsid, hxe.2.trans hsrun⟩



/-- Every state reachable from the empty store satisfies the invariant. -/
theorem reachable_inv : ∀ sys : Sys, Reachable sys → Inv sys := by
  intro sys hreach
  induction hreach with
  | init =>
    rw [inv_def]
    refine ⟨?_, ?_, ?_, ?_, ?_, ?_⟩
    · simp [Db.empty]
    · simp [Db.empty]
    · intro t ht
      simp [Db.empty] at ht
    · intro rid
      simp [Db.empty, List.filter]
    · intro r hrm
      simp [Db.empty] at hrm
    · intro p hp
      simp at hp
  | place e hre ih => exact inv_place _ e ih
  | build nanos eid task ctx repo ts hre ih =>
    exact inv_build _ nanos eid task ctx repo ts ih
  | sweep b reason sha branch now_ms now hre ih =>
    exact inv_sweep _ b reason sha branch now_ms now ih
  | claim now now_ms hre hin ih => exact inv_claim _ now now_ms ih
  | finishDone out now now_ms hre hin ih => exact inv_finishDone _ _ out now now_ms ih hin
  | finishFailed err now now_ms hre hin ih =>
    exact inv_finishFailed _ _ err now now_ms ih hin
  | reemit scope now now_ms hre ih => exact inv_reemit _ scope now now_ms ih

/-- Claim C1: in every reachable store state, each run has at most one step
with status `running` — the single-running invariant, preserved by run
creation, auto-rebase enqueue, claiming, both finalizations, and re-emit. -/
theorem single_running_invariant (sys : Sys) (hreach : Reachable sys) (rid : String) :
    countRunning sys.db rid ≤ 1 := by
  have hiv : Inv ⟨sys.db, sys.inflight⟩ := reachable_inv sys hreach
  rw [inv_def] at hiv
  exact hiv.2.2.2.1 rid

/-- Witness: the single-running bound at a concrete reachable state (a feature
build on the empty store followed by one claim cycle). -/
theorem single_running_invariant_witness :
    countRunning (claim_next_step wSysBuild.db 11 13).2 "run-123" ≤ 1 :=
  single_running_invariant
    ⟨(claim_next_step wSysBuild.db 11 13).2, (claim_next_step wSysBuild.db 11 13).1⟩
    (Reachable.claim 11 13
      (Reachable.build 123 "f1" "add readme" {} "/tmp/g" 9 Reachable.init) rfl) "run-123"

/-- Claim C3: in every reachable store state, a run's status is `done` exactly
when every one of its steps has status in {done, skipped}. (No embedded
operation ever writes `skipped`, so the backward direction reduces to all
steps `done`.) -/
theorem run_done_iff_steps_done (sys : Sys) (hreach : Reachable sys) (r : RunRow)
    (hr : r ∈ sys.db.runs) :
    r.status = "done" ↔
      ∀ t ∈ sys.db.steps, t.run_id = r.id →
        (t.status = "done" ∨ t.status = "skipped") := by
  have hiv : Inv ⟨sys.db, sys.inflight⟩ := reachable_inv sys hreach
  rw [inv_def] at hiv
  obtain ⟨h1, h2, h3, h4, h5, h6⟩ := hiv
  constructor
  · intro hdone t ht htr
    exact Or.inl (((h5 r hr).mp hdone) t ht htr)
  · intro hall
    refine (h5 r hr).mpr ?_
    intro t ht htr
    rcases hall t ht htr with hd | hsk
    · exact hd
    · exfalso
      rcases h3 t ht with hx | hx | hx | hx <;> rw [hsk] at hx <;>
        exact absurd hx (by decide)

/-- Witness: the completion iff at a concrete reachable state (the run of a
fresh feature build, queued with seven queued steps). -/
theorem run_done_iff_steps_done_witness :
    wRunBuild ∈ wSysBuild.db.runs ∧
    (wRunBuild.status = "done" ↔
      ∀ t ∈ wSysBuild.db.steps, t.run_id = wRunBuild.id →
        (t.status = "done" ∨ t.status = "skipped")) :=
  ⟨by decide, run_done_iff_steps_done wSysBuild
      (Reachable.build 123 "f1" "add readme" {} "/tmp/g" 9 Reachable.init) wRunBuild
      (by decide)⟩

end Clawdorio
